import Mathlib

/-!
Sim backend: branch analysis, frame lowering, stack slots, select expansion and
call lowering.

A shallow embedding of the machine-specific code generation layer of the Sim
target (`llvm/lib/Target/Sim`).  A basic block is the list of its
instructions, an iterator into a block is an index into that list
(`MBB.end()` is the length), and a function that can hit an `assert`,
`llvm_unreachable` or `report_fatal_error` returns `Option`, `none` being the
abort.
-/

namespace Sim

/-! ## Data model -/

/-- Instruction opcodes: the target independent debug pseudo opcodes and `PHI`,
the opcodes of the `SIM` namespace that the sources name, and any other one. -/
inductive Opcode where
  | DBG_VALUE
  | DBG_VALUE_LIST
  | DBG_INSTR_REF
  | DBG_PHI
  | DBG_LABEL
  | PHI
  | ADDi
  | LDi
  | STi
  | B
  | BR
  | BEQ
  | BNE
  | BGT
  | BLE
  | RET
  | ADJCALLSTACKDOWN
  | ADJCALLSTACKUP
  | PseudoSELECT_CC
  | other (n : Nat)
  deriving DecidableEq, Repr

/-- Registers: no register, the physical registers `R0` .. `R15`, and the
virtual registers that exist before register allocation. -/
inductive Register where
  | NoRegister
  | R (n : Nat)
  | Virt (n : Nat)
  deriving DecidableEq, Repr

namespace SIM

/-- `GP = SIM::R0` (Sim.h). -/
def GP : Register := Register.R 0

/-- `RA = SIM::R1` (Sim.h). -/
def RA : Register := Register.R 1

/-- `SP = SIM::R2` (Sim.h). -/
def SP : Register := Register.R 2

/-- `FP = SIM::R3` (Sim.h). -/
def FP : Register := Register.R 3

/-- `BP = SIM::R4` (Sim.h). -/
def BP : Register := Register.R 4

end SIM

/-- `SimCC::CondCodes` (SimInfo.h). -/
inductive CondCodes where
  | EQ
  | NE
  | LT
  | GT
  | LE
  | GE
  | INVALID
  deriving DecidableEq, Repr

/-- The integer value of an enumerator of `SimCC::CondCodes`. -/
def CondCodes.toImm : CondCodes → Int
  | .EQ => 0
  | .NE => 1
  | .LT => 2
  | .GT => 3
  | .LE => 4
  | .GE => 5
  | .INVALID => 6

/-- The cast `static_cast<SimCC::CondCodes>(imm)`: an enumerator when the
integer is the value of one, nothing otherwise. -/
def CondCodes.ofImm (v : Int) : Option CondCodes :=
  if v = 0 then some .EQ
  else if v = 1 then some .NE
  else if v = 2 then some .LT
  else if v = 3 then some .GT
  else if v = 4 then some .LE
  else if v = 5 then some .GE
  else if v = 6 then some .INVALID
  else none

/-- A machine operand: a register with its define and kill flags, an immediate,
a basic block (named by its number) or a frame index. -/
inductive MachineOperand where
  | Reg (r : Register) (isDef : Bool) (isKill : Bool)
  | Imm (v : Int)
  | MBB (b : Nat)
  | FI (idx : Int)
  deriving DecidableEq, Repr

namespace MachineOperand

/-- `MachineOperand::CreateImm`. -/
def CreateImm (v : Int) : MachineOperand := Imm v

/-- `MachineOperand::getMBB`, which asserts that the operand is a block. -/
def getMBB : MachineOperand → Option Nat
  | MBB b => some b
  | _ => none

/-- `MachineOperand::getReg`, which asserts that the operand is a register. -/
def getReg : MachineOperand → Option Register
  | Reg r _ _ => some r
  | _ => none

/-- `MachineOperand::getImm`, which asserts that the operand is an immediate. -/
def getImm : MachineOperand → Option Int
  | Imm v => some v
  | _ => none

/-- `MachineOperand::getIndex`, which asserts that the operand is a frame
index. -/
def getIndex : MachineOperand → Option Int
  | FI idx => some idx
  | _ => none

/-- `MachineOperand::setImm`, which asserts that the operand is an immediate. -/
def setImm (o : MachineOperand) (v : Int) : Option MachineOperand :=
  match o with
  | Imm _ => some (Imm v)
  | _ => none

end MachineOperand

/-- `MCOperandInfo`: the declared type of an operand of an instruction, as a
value of `MCOI::OperandType` or of the operand types of the target. -/
structure MCOperandInfo where
  OperandType : Nat
  deriving DecidableEq, Repr

/-- The part of an instruction descriptor (`MCInstrDesc`) that this layer
reads: the opcode, the property flags and the declared operands. -/
structure MCInstrDesc where
  Opcode : Opcode
  isTerminator : Bool := false
  isBranch : Bool := false
  isBarrier : Bool := false
  isPredicable : Bool := false
  operands : List MCOperandInfo := []
  deriving DecidableEq, Repr

/-- `MCInstrDesc::isConditionalBranch`. -/
def MCInstrDesc.isConditionalBranch (d : MCInstrDesc) : Bool :=
  d.isBranch && !d.isBarrier

/-- `MachineInstr::MIFlag` values used by frame lowering. -/
def MIFlag.NoFlags : Nat := 0

/-- `MachineInstr::FrameSetup`. -/
def MIFlag.FrameSetup : Nat := 1

/-- `MachineInstr::FrameDestroy`. -/
def MIFlag.FrameDestroy : Nat := 2

/-- A machine instruction: its descriptor, its operands, its `MIFlag` mask and
its debug location (0 is the unknown location). -/
structure MachineInstr where
  MCID : MCInstrDesc
  Operands : List MachineOperand
  Flags : Nat := 0
  DL : Nat := 0
  deriving DecidableEq, Repr

namespace MachineInstr

/-- `MachineInstr::getOpcode`. -/
def getOpcode (MI : MachineInstr) : Opcode := MI.MCID.Opcode

/-- `MachineInstr::getOperand`, which asserts that the index is in range. -/
def getOperand (MI : MachineInstr) (i : Nat) : Option MachineOperand := MI.Operands[i]?

/-- `MachineInstr::isDebugInstr`: a debug value, label, reference or phi. -/
def isDebugInstr (MI : MachineInstr) : Bool :=
  match MI.getOpcode with
  | .DBG_VALUE => true
  | .DBG_VALUE_LIST => true
  | .DBG_INSTR_REF => true
  | .DBG_PHI => true
  | .DBG_LABEL => true
  | _ => false

end MachineInstr

/-- The generated descriptor table `SimGenInstrInfo.inc` is not part of the
sources; it is a parameter `T`.  `get T Opc` is `TII.get(Opc)`: the entry of
the table for `Opc`, whose opcode is `Opc`. -/
def get (T : Opcode → MCInstrDesc) (Opc : Opcode) : MCInstrDesc :=
  { T Opc with Opcode := Opc }

/-- `TargetInstrInfo::isPredicated` of the code generator framework, which the
Sim target does not override. -/
def isPredicated (_MI : MachineInstr) : Bool := false

/-- `TargetInstrInfo::isUnpredicatedTerminator` of the code generator
framework: a terminator that is a conditional branch, or is not predicable, or
is not predicated. -/
def isUnpredicatedTerminator (MI : MachineInstr) : Bool :=
  if !MI.MCID.isTerminator then false
  else if MI.MCID.isBranch && !MI.MCID.isBarrier then true
  else if !MI.MCID.isPredicable then true
  else !isPredicated MI

/-- The backward walk of `MachineBasicBlock::getLastNonDebugInstr` from the
iterator `I`: the index of the last instruction before `I` that is not a debug
instruction, `none` when there is none. -/
def lastNonDebugBefore (MBB : List MachineInstr) : Nat → Option Nat
  | 0 => none
  | I + 1 =>
    match MBB[I]? with
    | some MI => if MI.isDebugInstr then lastNonDebugBefore MBB I else some I
    | none => lastNonDebugBefore MBB I

/-- Modelled from the spec: `MachineBasicBlock::getLastNonDebugInstr` of the
code generator framework, the last instruction of the block that is not a debug
instruction; `none` is `MBB.end()`. -/
def getLastNonDebugInstr (MBB : List MachineInstr) : Option Nat :=
  lastNonDebugBefore MBB MBB.length

/-! ## SimInstrInfo.cpp: condition codes and branch opcodes -/

/-- `GetOppositeBranchCondition` (SimInstrInfo.cpp 110-129); the `default`
case is `llvm_unreachable`. -/
def GetOppositeBranchCondition : CondCodes → Option CondCodes
  | .EQ => some .NE
  | .NE => some .EQ
  | .LT => some .GE
  | .GT => some .LE
  | .LE => some .GT
  | .GE => some .LT
  | .INVALID => none

/-- `isUncondBranchOpcode` (SimInstrInfo.cpp 131-133). -/
def isUncondBranchOpcode (Opc : Opcode) : Bool :=
  Opc == Opcode.B || Opc == Opcode.BR

/-- `isCondBranchOpcode` (SimInstrInfo.cpp 135-137). -/
def isCondBranchOpcode (Opc : Opcode) : Bool :=
  Opc == Opcode.BEQ || Opc == Opcode.BNE || Opc == Opcode.BGT || Opc == Opcode.BLE

/-- `isIndirectBranchOpcode` (SimInstrInfo.cpp 139-141). -/
def isIndirectBranchOpcode (Opc : Opcode) : Bool :=
  Opc == Opcode.B || Opc == Opcode.BR

/-- `SimInstrInfo::getBranchFromCond` (SimInstrInfo.cpp 143-162); the
`default` case is `llvm_unreachable`. -/
def getBranchFromCond (T : Opcode → MCInstrDesc) : CondCodes → Option MCInstrDesc
  | .EQ => some (get T Opcode.BEQ)
  | .NE => some (get T Opcode.BNE)
  | .LE => some (get T Opcode.BLE)
  | .GT => some (get T Opcode.BGT)
  | _ => none

/-- `getCondFromBranchOpcode` (SimInstrInfo.cpp 164-183). -/
def getCondFromBranchOpcode : Opcode → CondCodes
  | .BEQ => .EQ
  | .BNE => .NE
  | .BLE => .LE
  | .BGT => .GT
  | _ => .INVALID

/-! ## SimInstrInfo.cpp: analyzeBranch -/

/-- The test `I != MBB.begin() && isUnpredicatedTerminator(*--I)` on the
iterator `I`. -/
def prevIsTerminator (MBB : List MachineInstr) : Nat → Bool
  | 0 => false
  | J + 1 =>
    match MBB[J]? with
    | some MI => isUnpredicatedTerminator MI
    | none => false

/-- The in/out arguments of `analyzeBranch`: the block, the two target
references (`none` is the null pointer) and the condition vector. -/
structure BranchInfo where
  MBB : List MachineInstr
  TBB : Option Nat := none
  FBB : Option Nat := none
  Cond : List MachineOperand := []
  deriving DecidableEq, Repr

/-- `parseCondBranch` (SimInstrInfo.cpp 185-194): the target that it stores and
the condition vector after the three `push_back`. -/
def parseCondBranch (LastInst : MachineInstr) (Cond : List MachineOperand) :
    Option (Nat × List MachineOperand) :=
  if !LastInst.MCID.isConditionalBranch then none
  else
    match LastInst.getOperand 2 with
    | none => none
    | some Op2 =>
      match Op2.getMBB with
      | none => none
      | some Target =>
        let CC := getCondFromBranchOpcode LastInst.getOpcode
        match LastInst.getOperand 0, LastInst.getOperand 1 with
        | some Op0, some Op1 =>
          some (Target, Cond ++ [MachineOperand.CreateImm CC.toImm, Op0, Op1])
        | _, _ => none

/-- The target of an unconditional branch,
`Inst->getOperand(0).getMBB()`. -/
def branchTarget (Inst : MachineInstr) : Option Nat :=
  match Inst.getOperand 0 with
  | none => none
  | some Op0 => Op0.getMBB

/-- How the loop of `analyzeBranch` (SimInstrInfo.cpp 233-245) is left: by the
`return` of line 240, the only terminator `LastInst` being at index `Last` of
the block, or because the loop condition is false, `SecondLastInst` being at
the iterator `I` and `LastInst` at index `Last`. -/
inductive LoopExit where
  | ret (MBB : List MachineInstr) (Last : Nat)
  | fall (MBB : List MachineInstr) (I : Nat) (Last : Nat)
  deriving DecidableEq, Repr

/-- The loop of `analyzeBranch` (SimInstrInfo.cpp 233-245), entered with
`SecondLastInst` at the iterator given last and `LastInst` at index `Last`. -/
def eraseLoop (MBB : List MachineInstr) (Last : Nat) : Nat → Option LoopExit
  | 0 =>
    match MBB[0]? with
    | none => none
    | some SecondLastInst =>
      if isUncondBranchOpcode SecondLastInst.getOpcode then
        some (LoopExit.ret (MBB.eraseIdx Last) 0)
      else some (LoopExit.fall MBB 0 Last)
  | I + 1 =>
    match MBB[I + 1]? with
    | none => none
    | some SecondLastInst =>
      if isUncondBranchOpcode SecondLastInst.getOpcode then
        if !prevIsTerminator (MBB.eraseIdx Last) (I + 1) then
          some (LoopExit.ret (MBB.eraseIdx Last) (I + 1))
        else eraseLoop (MBB.eraseIdx Last) (I + 1) I
      else some (LoopExit.fall MBB (I + 1) Last)

/-- Lines 248-276 of `analyzeBranch`: the block has at least two terminators,
`SecondLastInst` is at the iterator `I` and `LastInst` at index `Last`. -/
def analyzeTwoTerminators (s : BranchInfo) (AllowModify : Bool) (I Last : Nat) :
    Option (Bool × BranchInfo) :=
  match s.MBB[I]?, s.MBB[Last]? with
  | some SecondLastInst, some LastInst =>
    let SecondLastOpc := SecondLastInst.getOpcode
    let LastOpc := LastInst.getOpcode
    if prevIsTerminator s.MBB I then some (true, s)
    else if isCondBranchOpcode SecondLastOpc && isUncondBranchOpcode LastOpc then
      match parseCondBranch SecondLastInst s.Cond with
      | none => none
      | some (Target, Cond) =>
        match branchTarget LastInst with
        | none => none
        | some F => some (false, { s with TBB := some Target, FBB := some F, Cond := Cond })
    else if isUncondBranchOpcode SecondLastOpc && isUncondBranchOpcode LastOpc then
      match branchTarget SecondLastInst with
      | none => none
      | some Target => some (false, { s with TBB := some Target })
    else if isIndirectBranchOpcode SecondLastOpc && isUncondBranchOpcode LastOpc then
      if AllowModify then some (true, { s with MBB := s.MBB.eraseIdx Last })
      else some (true, s)
    else some (true, s)
  | _, _ => none

/-- `SimInstrInfo::analyzeBranch` (SimInstrInfo.cpp 196-277).  The result is
the returned flag (`false`: the block was analysed) and the in/out arguments
as the call leaves them. -/
def analyzeBranch (s : BranchInfo) (AllowModify : Bool) : Option (Bool × BranchInfo) :=
  match getLastNonDebugInstr s.MBB with
  | none => some (false, s)
  | some I =>
    match s.MBB[I]? with
    | none => none
    | some LastInst =>
      if !isUnpredicatedTerminator LastInst then some (false, s)
      else
        let LastOpc := LastInst.getOpcode
        if !prevIsTerminator s.MBB I then
          if isUncondBranchOpcode LastOpc then
            match branchTarget LastInst with
            | none => none
            | some Target => some (false, { s with TBB := some Target })
          else if isCondBranchOpcode LastOpc then
            match parseCondBranch LastInst s.Cond with
            | none => none
            | some (Target, Cond) => some (false, { s with TBB := some Target, Cond := Cond })
          else some (true, s)
        else if AllowModify && isUncondBranchOpcode LastOpc then
          match eraseLoop s.MBB I (I - 1) with
          | none => none
          | some (LoopExit.ret MBB Last) =>
            match MBB[Last]? with
            | none => none
            | some Only =>
              match branchTarget Only with
              | none => none
              | some Target => some (false, { s with MBB := MBB, TBB := some Target })
          | some (LoopExit.fall MBB J Last) =>
            analyzeTwoTerminators { s with MBB := MBB } AllowModify J Last
        else analyzeTwoTerminators s AllowModify (I - 1) I

/-! ## SimInstrInfo.cpp: insertBranch, removeBranch, reverseBranchCondition -/

/-- The instruction `BuildMI(&MBB, DL, get(SIM::B)).addMBB(Target)`. -/
def buildB (T : Opcode → MCInstrDesc) (DL : Nat) (Target : Nat) : MachineInstr :=
  { MCID := get T Opcode.B, Operands := [MachineOperand.MBB Target], DL := DL }

/-- `SimInstrInfo::insertBranch` (SimInstrInfo.cpp 279-308): the block after
the call and the returned count.  `BytesAdded` tells whether the pointer of
that name is non-null. -/
def insertBranch (T : Opcode → MCInstrDesc) (MBB : List MachineInstr) (TBB FBB : Option Nat)
    (Cond : List MachineOperand) (DL : Nat) (BytesAdded : Bool) :
    Option (List MachineInstr × Nat) :=
  match TBB with
  | none => none
  | some Target =>
    if !(Cond.length == 3 || Cond.length == 0) then none
    else if BytesAdded then none
    else if Cond.isEmpty then
      if FBB.isSome then none
      else some (MBB ++ [buildB T DL Target], 1)
    else
      match Cond with
      | [C0, C1, C2] =>
        match C0.getImm with
        | none => none
        | some Imm =>
          match CondCodes.ofImm Imm with
          | none => none
          | some CC =>
            match getBranchFromCond T CC, C1.getReg, C2.getReg with
            | some Desc, some R1, some R2 =>
              let Bcc : MachineInstr :=
                { MCID := Desc
                  Operands := [MachineOperand.Reg R1 false false, MachineOperand.Reg R2 false false,
                    MachineOperand.MBB Target]
                  DL := DL }
              match FBB with
              | none => some (MBB ++ [Bcc], 1)
              | some F => some ((MBB ++ [Bcc]) ++ [buildB T DL F], 2)
            | _, _, _ => none
      | _ => none

/-- The loop of `removeBranch` (SimInstrInfo.cpp 316-329), one erased
instruction per unit of fuel: from `MBB.end()` the iterator steps back over the
debug instructions; the loop ends when it reaches `MBB.begin()` or an
instruction that is not a branch, and otherwise erases the branch and starts
again from `MBB.end()`. -/
def removeBranchLoop : Nat → List MachineInstr → Nat → Option (List MachineInstr × Nat)
  | 0, _, _ => none
  | fuel + 1, MBB, Count =>
    match lastNonDebugBefore MBB MBB.length with
    | none => some (MBB, Count)
    | some I =>
      match MBB[I]? with
      | none => none
      | some MI =>
        if MI.getOpcode != Opcode.B && getCondFromBranchOpcode MI.getOpcode == CondCodes.INVALID then
          some (MBB, Count)
        else removeBranchLoop fuel (MBB.eraseIdx I) (Count + 1)

/-- `SimInstrInfo::removeBranch` (SimInstrInfo.cpp 310-331): the block after
the call and the returned count.  Each turn of the loop that does not end it
erases an instruction, so one more unit of fuel than the block has instructions
is enough. -/
def removeBranch (MBB : List MachineInstr) (BytesRemoved : Bool) :
    Option (List MachineInstr × Nat) :=
  if BytesRemoved then none
  else removeBranchLoop (MBB.length + 1) MBB 0

/-- `SimInstrInfo::reverseBranchCondition` (SimInstrInfo.cpp 333-339): the
returned flag and the condition vector after the call. -/
def reverseBranchCondition (Cond : List MachineOperand) : Option (Bool × List MachineOperand) :=
  if !(Cond.length == 1 || Cond.length == 3) then none
  else
    match Cond with
    | [] => none
    | C0 :: Rest =>
      match C0.getImm with
      | none => none
      | some Imm =>
        match CondCodes.ofImm Imm with
        | none => none
        | some CC =>
          match GetOppositeBranchCondition CC with
          | none => none
          | some Opp =>
            match C0.setImm Opp.toImm with
            | none => none
            | some C0new => some (false, C0new :: Rest)

/-! ## Frame information -/

/-- `CalleeSavedInfo`: a callee-saved register and the frame index of its spill
slot. -/
structure CalleeSavedInfo where
  Reg : Register
  FrameIdx : Int
  deriving DecidableEq, Repr

/-- A stack object of `MachineFrameInfo`: its byte offset from the incoming
stack pointer, its byte size and its alignment. -/
structure StackObject where
  SPOffset : Int
  Size : Nat := 0
  Alignment : Nat := 1
  deriving DecidableEq, Repr

/-- The part of `MachineFrameInfo` that frame lowering reads and writes.  The
object of frame index `FI` is the entry number `FI + NumFixedObjects` of
`Objects`. -/
structure MachineFrameInfo where
  StackSize : Nat := 0
  AdjustsStack : Bool := false
  HasCalls : Bool := false
  HasVarSizedObjects : Bool := false
  FrameAddressTaken : Bool := false
  CSInfo : List CalleeSavedInfo := []
  OffsetAdjustment : Int := 0
  NumFixedObjects : Nat := 0
  Objects : List StackObject := []
  deriving DecidableEq, Repr

/-- `SimMachineFunctionInfo` (SimMachineFunctionInfo.h). -/
structure SimMachineFunctionInfo where
  GlobalBaseReg : Register := Register.NoRegister
  VarArgsFrameOffset : Int := 0
  VarArgsSaveSize : Int := 0
  IsLeafProc : Bool := false
  deriving DecidableEq, Repr

/-- A machine function: its blocks (the entry block first), its frame
information, its target function information, the answer of
`Options.DisableFramePointerElim(MF)`, the answers of
`shouldRealignStack(MF)` and `canRealignStack(MF)` of the register
information, and the physical registers that the register information of the
function reports as used. -/
structure MachineFunction where
  Blocks : List (List MachineInstr)
  FrameInfo : MachineFrameInfo := {}
  FuncInfo : SimMachineFunctionInfo := {}
  DisableFramePointerElim : Bool := false
  ShouldRealignStack : Bool := false
  CanRealignStack : Bool := true
  UsedPhysRegs : List Register := []
  deriving DecidableEq, Repr

/-- `TargetRegisterInfo::hasStackRealignment` of the code generator framework:
the stack should be realigned and can be. -/
def hasStackRealignment (MF : MachineFunction) : Bool :=
  MF.ShouldRealignStack && MF.CanRealignStack

/-- `isInt<N>(x)`: `x` fits a signed integer of `N` bits. -/
def isInt (N : Nat) (x : Int) : Bool :=
  decide (-(2 ^ (N - 1) : Int) ≤ x) && decide (x < (2 ^ (N - 1) : Int))

/-- `alignTo(Size, A)` on `uint64_t`. -/
def alignTo (Size A : Nat) : Nat :=
  (Size + A - 1) % 2 ^ 64 / A * A % 2 ^ 64

/-- The stack alignment that the constructor of `SimFrameLowering` passes to
`TargetFrameLowering` (SimFrameLowering.cpp 36-38): `Align(1)`. -/
def getStackAlign : Nat := 1

/-- The conversion of a `uint64_t` to `int`: the low 32 bits, read as a signed
integer. -/
def truncToInt (x : Nat) : Int :=
  if x % 2 ^ 32 < 2 ^ 31 then ((x % 2 ^ 32 : Nat) : Int)
  else ((x % 2 ^ 32 : Nat) : Int) - 2 ^ 32

/-- The conversion of an `int` to `uint64_t`. -/
def toUInt64 (x : Int) : Nat := (x % 2 ^ 64).toNat

/-- The conversion of an integer value to a signed integer type of `w` bits
(`int` is 32 bits wide, `int64_t` 64 bits): the value modulo `2 ^ w` in two's
complement. -/
def wrapInt (w : Nat) (x : Int) : Int :=
  (x + 2 ^ (w - 1)) % 2 ^ w - 2 ^ (w - 1)

/-! ## SimFrameLowering.cpp: emitPrologue -/

/-- `SimFrameLowering::emitRegAdjustment` (SimFrameLowering.cpp 40-53): the
block after the `ADDi` has been inserted before the iterator `MBBI`. -/
def emitRegAdjustment (T : Opcode → MCInstrDesc) (MBB : List MachineInstr) (MBBI : Nat)
    (NumBytes : Int) (Flag : Nat) (Src Dest : Register) : Option (List MachineInstr) :=
  if !isInt 16 NumBytes then none
  else
    let MI : MachineInstr :=
      { MCID := get T Opcode.ADDi
        Operands := [MachineOperand.Reg Dest true false, MachineOperand.Reg Src false false,
          MachineOperand.Imm NumBytes]
        Flags := Flag
        DL := 0 }
    some (MBB.take MBBI ++ MI :: MBB.drop MBBI)

/-- `SimFrameLowering::hasFP` (SimFrameLowering.cpp 219-226). -/
def hasFP (MF : MachineFunction) : Bool :=
  MF.DisableFramePointerElim || hasStackRealignment MF || MF.FrameInfo.HasVarSizedObjects ||
    MF.FrameInfo.FrameAddressTaken

/-- `SimFrameLowering::emitPrologue` (SimFrameLowering.cpp 55-117) on the block
number `MBB` of the function: the function after the call.  The iterator `MBBI`
is `MBB.begin()`; once the first `ADDi` is inserted before it, it is the index
1, and `std::advance` moves it by the number of callee-saved registers (past the
end of the block the behaviour is undefined: the abort).  `NumBytes` is a
`uint64_t`, converted to `int` at the two calls of `emitRegAdjustment`. -/
def emitPrologue (T : Opcode → MCInstrDesc) (MF : MachineFunction) (MBB : Nat) :
    Option MachineFunction :=
  match MF.Blocks with
  | [] => none
  | Entry :: Others =>
    if MBB != 0 then none
    else if MF.ShouldRealignStack && !MF.CanRealignStack then none
    else
      let NumBytes := alignTo MF.FrameInfo.StackSize getStackAlign
      let NumBytes := NumBytes / 4
      let MF1 : MachineFunction := { MF with FrameInfo := { MF.FrameInfo with StackSize := NumBytes } }
      if NumBytes == 0 && !MF1.FrameInfo.AdjustsStack then some MF1
      else
        match emitRegAdjustment T Entry 0 (truncToInt ((2 ^ 64 - NumBytes) % 2 ^ 64))
            MIFlag.FrameSetup SIM.SP SIM.SP with
        | none => none
        | some Entry1 =>
          let MBBI := 1 + MF1.FrameInfo.CSInfo.length
          if Entry1.length < MBBI then none
          else if !hasFP MF1 then some { MF1 with Blocks := Entry1 :: Others }
          else
            let tmp := MF1.FuncInfo.VarArgsSaveSize
            let NumBytes := (NumBytes + 2 ^ 64 - toUInt64 (tmp.tdiv 4)) % 2 ^ 64
            match emitRegAdjustment T Entry1 MBBI (truncToInt NumBytes)
                MIFlag.FrameSetup SIM.SP SIM.FP with
            | none => none
            | some Entry2 => some { MF1 with Blocks := Entry2 :: Others }

/-- The frame-size finalisation at the head of `emitPrologue`
(SimFrameLowering.cpp 76-83): the recorded stack size is rounded to the stack
alignment, divided by 4 and recorded again. -/
def finalizeStackSize (MF : MachineFunction) : MachineFunction :=
  let NumBytes := alignTo MF.FrameInfo.StackSize getStackAlign
  let NumBytes := NumBytes / 4
  { MF with FrameInfo := { MF.FrameInfo with StackSize := NumBytes } }

/-! ## SimFrameLowering.cpp: emitEpilogue and the call frame pseudo instructions -/

/-- `SimFrameLowering::emitEpilogue` (SimFrameLowering.cpp 139-166) on the
block number `MBB` of the function: the function after the call.  `MBBI` is the
last non-debug instruction of the block, and it is dereferenced for its debug
location: a block without such an instruction is the abort. -/
def emitEpilogue (T : Opcode → MCInstrDesc) (MF : MachineFunction) (MBB : Nat) :
    Option MachineFunction :=
  match MF.Blocks[MBB]? with
  | none => none
  | some Block =>
    match getLastNonDebugInstr Block with
    | none => none
    | some MBBI =>
      let NumBytes := MF.FrameInfo.StackSize
      if NumBytes == 0 && !MF.FrameInfo.AdjustsStack then some MF
      else if MF.FrameInfo.HasVarSizedObjects && hasStackRealignment MF then none
      else
        match emitRegAdjustment T Block MBBI (truncToInt NumBytes)
            MIFlag.FrameDestroy SIM.SP SIM.SP with
        | none => none
        | some Block1 => some { MF with Blocks := MF.Blocks.set MBB Block1 }

/-- `SimFrameLowering::hasReservedCallFrame` (SimFrameLowering.cpp 211-214). -/
def hasReservedCallFrame (MF : MachineFunction) : Bool :=
  !MF.FrameInfo.HasVarSizedObjects

/-- `SimFrameLowering::eliminateCallFramePseudoInstr` (SimFrameLowering.cpp
119-137) on the instruction at the iterator `I` of the block: the block after
the call and the returned iterator. -/
def eliminateCallFramePseudoInstr (T : Opcode → MCInstrDesc) (MF : MachineFunction)
    (MBB : List MachineInstr) (I : Nat) : Option (List MachineInstr × Nat) :=
  match MBB[I]? with
  | none => none
  | some MI =>
    if !hasReservedCallFrame MF then
      match MI.getOperand 0 with
      | none => none
      | some Op0 =>
        match Op0.getImm with
        | none => none
        | some A =>
          let Size := wrapInt 32 A
          let Size := if MI.getOpcode == Opcode.ADJCALLSTACKDOWN then wrapInt 32 (-Size) else Size
          if Size != 0 then
            match emitRegAdjustment T MBB I (Size.tdiv 4) MIFlag.NoFlags SIM.SP SIM.SP with
            | none => none
            | some MBB1 => some (MBB1.eraseIdx (I + 1), I + 1)
          else some (MBB.eraseIdx I, I)
    else some (MBB.eraseIdx I, I)

/-! ## SimFrameLowering.cpp and SimRegisterInfo.cpp: frame indices -/

/-- `MachineFrameInfo::getObjectOffset`, which asserts that the frame index
names an object. -/
def getObjectOffset (MFI : MachineFrameInfo) (FI : Int) : Option Int :=
  if FI + (MFI.NumFixedObjects : Int) < 0 then none
  else
    match MFI.Objects[(FI + (MFI.NumFixedObjects : Int)).toNat]? with
    | none => none
    | some Obj => some Obj.SPOffset

/-- The offset of the local area that the constructor of `SimFrameLowering`
passes to `TargetFrameLowering` (SimFrameLowering.cpp 36-38): 0. -/
def getOffsetOfLocalArea : Int := 0

/-- `isFrameIndexInCalleeSavedRegion` (SimFrameLowering.cpp 228-242). -/
def isFrameIndexInCalleeSavedRegion (MFI : MachineFrameInfo) (FI : Int) : Bool :=
  let MinMax : Int × Int :=
    match MFI.CSInfo.head?, MFI.CSInfo.getLast? with
    | some First, some Last => (First.FrameIdx, Last.FrameIdx)
    | _, _ => (0, -1)
  decide (FI ≥ MinMax.1) && decide (FI ≤ MinMax.2)

/-- `SimRegisterInfo::getFrameRegister` (SimRegisterInfo.cpp 68-71). -/
def getFrameRegister (MF : MachineFunction) : Register :=
  if hasFP MF then SIM.FP else SIM.SP

/-- `SimFrameLowering::getFrameIndexReference` (SimFrameLowering.cpp 244-296):
the frame register that it stores and the fixed offset that it returns.
`FrameOffset` is an `int`; the sum with the stack size is made in `uint64_t` and
returned as an `int64_t`. -/
def getFrameIndexReference (MF : MachineFunction) (FI : Int) : Option (Register × Int) :=
  match getObjectOffset MF.FrameInfo FI with
  | none => none
  | some ObjectOffset =>
    let FrameOffset :=
      wrapInt 32 (ObjectOffset - getOffsetOfLocalArea + MF.FrameInfo.OffsetAdjustment)
    let UseFP : Bool :=
      if isFrameIndexInCalleeSavedRegion MF.FrameInfo FI then false
      else if MF.FuncInfo.IsLeafProc then false
      else if hasStackRealignment MF then true
      else true
    let FrameOffset := FrameOffset.tdiv 4
    if UseFP then some (getFrameRegister MF, FrameOffset)
    else
      some (SIM.SP,
        wrapInt 64 (((toUInt64 FrameOffset + MF.FrameInfo.StackSize) % 2 ^ 64 : Nat) : Int))

/-- `SimRegisterInfo::eliminateFrameIndex` (SimRegisterInfo.cpp 73-95) on the
instruction `MI` of the function: the instruction after the call.  `Offset` is
an `int`. -/
def eliminateFrameIndex (MF : MachineFunction) (MI : MachineInstr) (SPAdj : Int)
    (FIOperandNum : Nat) : Option MachineInstr :=
  if SPAdj != 0 then none
  else
    match MI.getOperand FIOperandNum with
    | none => none
    | some OpFI =>
      match OpFI.getIndex with
      | none => none
      | some FrameIndex =>
        match getFrameIndexReference MF FrameIndex with
        | none => none
        | some (FrameReg, Fixed) =>
          let Offset := wrapInt 32 Fixed
          match MI.getOperand (FIOperandNum + 1) with
          | none => none
          | some OpImm =>
            match OpImm.getImm with
            | none => none
            | some Imm =>
              let Offset := wrapInt 32 (Offset + Imm)
              if !isInt 16 Offset then none
              else
                some { MI with
                  Operands :=
                    (MI.Operands.set FIOperandNum (MachineOperand.Reg FrameReg false false)).set
                      (FIOperandNum + 1) (MachineOperand.Imm Offset) }

/-! ## SimFrameLowering.cpp: determineCalleeSaves -/

/-- A `BitVector` indexed by the registers. -/
def RegSet : Type := Register → Bool

/-- `BitVector::set` on the bit of a register. -/
def RegSet.set (S : RegSet) (R : Register) : RegSet :=
  fun X => if X = R then true else S X

/-- `MachineRegisterInfo::isPhysRegUsed`. -/
def isPhysRegUsed (MF : MachineFunction) (R : Register) : Bool :=
  decide (R ∈ MF.UsedPhysRegs)

/-- `SimFrameLowering::hasBP` (SimFrameLowering.cpp 298-303). -/
def hasBP (MF : MachineFunction) : Bool :=
  MF.FrameInfo.HasVarSizedObjects && hasStackRealignment MF

/-- `SimFrameLowering::remapRegsForLeafProc` (SimFrameLowering.cpp 305-343):
`llvm_unreachable("TBD")`. -/
def remapRegsForLeafProc (_MF : MachineFunction) : Option MachineFunction := none

/-- `SimFrameLowering::isLeafProc` (SimFrameLowering.cpp 345-355). -/
def isLeafProc (MF : MachineFunction) : Bool :=
  !(MF.FrameInfo.HasCalls || isPhysRegUsed MF (Register.R 12) || isPhysRegUsed MF SIM.SP ||
    hasFP MF)

/-- `SimFrameLowering::determineCalleeSaves` (SimFrameLowering.cpp 357-384):
the function and the set of saved registers after the call.  `SavedRegs` is the
set as `TargetFrameLowering::determineCalleeSaves` of the code generator
framework has computed it (line 360), and `DisableLeafProc` the value of the
command line option of that name. -/
def determineCalleeSaves (DisableLeafProc : Bool) (MF : MachineFunction) (SavedRegs : RegSet) :
    Option (MachineFunction × RegSet) :=
  if !DisableLeafProc && isLeafProc MF then
    match remapRegsForLeafProc { MF with FuncInfo := { MF.FuncInfo with IsLeafProc := true } } with
    | none => none
    | some MF1 => some (MF1, SavedRegs)
  else
    if hasFP MF then
      let SavedRegs := if MF.FrameInfo.HasCalls then SavedRegs.set SIM.RA else SavedRegs
      let SavedRegs := SavedRegs.set SIM.FP
      if hasBP MF then some (MF, SavedRegs.set SIM.BP)
      else some (MF, SavedRegs)
    else none

/-! ## SimISelLowering.cpp: condition codes of the selection DAG -/

namespace ISD

/-- `ISD::CondCode` of the code generator framework, in the order of its
enumerators (`SETFALSE` is 0, `SETCC_INVALID` is 24). -/
inductive CondCode where
  | SETFALSE
  | SETOEQ
  | SETOGT
  | SETOGE
  | SETOLT
  | SETOLE
  | SETONE
  | SETO
  | SETUO
  | SETUEQ
  | SETUGT
  | SETUGE
  | SETULT
  | SETULE
  | SETUNE
  | SETTRUE
  | SETFALSE2
  | SETEQ
  | SETGT
  | SETGE
  | SETLT
  | SETLE
  | SETNE
  | SETTRUE2
  | SETCC_INVALID
  deriving DecidableEq, Repr

/-- The enumerators of `ISD::CondCode` in the order of their values. -/
def CondCode.all : List CondCode :=
  [.SETFALSE, .SETOEQ, .SETOGT, .SETOGE, .SETOLT, .SETOLE, .SETONE, .SETO, .SETUO, .SETUEQ,
   .SETUGT, .SETUGE, .SETULT, .SETULE, .SETUNE, .SETTRUE, .SETFALSE2, .SETEQ, .SETGT, .SETGE,
   .SETLT, .SETLE, .SETNE, .SETTRUE2, .SETCC_INVALID]

/-- The integer value of an enumerator of `ISD::CondCode`. -/
def CondCode.toImm (CC : CondCode) : Int := (CondCode.all.indexOf CC : Nat)

/-- The cast `(ISD::CondCode)imm` of an `int64_t` that is then held in an
`unsigned`: the enumerator whose value is the low 32 bits of the integer,
nothing when there is none. -/
def CondCode.ofImm (v : Int) : Option CondCode :=
  CondCode.all[(v % 2 ^ 32).toNat]?

/-- Modelled from the spec: `ISD::getSetCCSwappedOperands` of the code generator
framework, which is not part of the sources: the kind of the same comparison
with its two operands exchanged (the less-than and greater-than bits of the kind
change places: LT and GT, LE and GE, and the ordered and unordered kinds
likewise; every other kind is kept). -/
def getSetCCSwappedOperands : CondCode → CondCode
  | .SETOGT => .SETOLT
  | .SETOGE => .SETOLE
  | .SETOLT => .SETOGT
  | .SETOLE => .SETOGE
  | .SETUGT => .SETULT
  | .SETUGE => .SETULE
  | .SETULT => .SETUGT
  | .SETULE => .SETUGE
  | .SETGT => .SETLT
  | .SETGE => .SETLE
  | .SETLT => .SETGT
  | .SETLE => .SETGE
  | CC => CC

end ISD

/-- `convertCondCodeToInstruction` (SimISelLowering.cpp 618-643); the `default`
case is the abort. -/
def convertCondCodeToInstruction : ISD.CondCode → Option Opcode
  | .SETUEQ => some Opcode.BEQ
  | .SETEQ => some Opcode.BEQ
  | .SETUNE => some Opcode.BNE
  | .SETNE => some Opcode.BNE
  | .SETULE => some Opcode.BLE
  | .SETLE => some Opcode.BLE
  | .SETUGT => some Opcode.BGT
  | .SETGT => some Opcode.BGT
  | _ => none

/-! ## SimISelLowering.cpp: expandSelectCC -/

/-- A basic block of the control flow graph: its instructions and the numbers of
its successor blocks.  The predecessor lists that the framework keeps are the
inverse of the successor lists (`addSuccessor` and `removeSuccessor` update
both), so a block `P` is a predecessor of `S` when `S` is in the successors of
`P`. -/
structure MachineBasicBlock where
  Insts : List MachineInstr := []
  Successors : List Nat := []
  deriving DecidableEq, Repr

/-- The blocks of a machine function as the select expander handles them:
`MBBNumbering[i]` is the block of number `i`, and `BasicBlocks` lists the
numbers of the blocks in layout order. -/
structure FunctionBlocks where
  MBBNumbering : List MachineBasicBlock
  BasicBlocks : List Nat
  deriving DecidableEq, Repr

/-- The operands of a `PHI` after its destination, `(value, block)*`, with the
incoming block `Old` replaced by `New`. -/
def replacePhiOperands (Old New : Nat) : List MachineOperand → List MachineOperand
  | V :: MachineOperand.MBB b :: Rest =>
    V :: MachineOperand.MBB (if b = Old then New else b) :: replacePhiOperands Old New Rest
  | Ops => Ops

/-- Modelled from the spec: `MachineBasicBlock::replacePhiUsesWith` of the code
generator framework, which is not part of the sources, on the instructions of a
block: in the `PHI` instructions at the head of the block, the incoming block
`Old` becomes `New`. -/
def replacePhiUsesWith (Old New : Nat) : List MachineInstr → List MachineInstr
  | [] => []
  | MI :: Rest =>
    if MI.getOpcode = Opcode.PHI then
      { MI with Operands := MI.Operands.take 1 ++ replacePhiOperands Old New (MI.Operands.drop 1) } ::
        replacePhiUsesWith Old New Rest
    else MI :: Rest

/-- The blocks, numbered from `i`, with `replacePhiUsesWith Old New` applied to
the ones whose number is in `Succs`. -/
def updatePHIs (Succs : List Nat) (Old New : Nat) : Nat → List MachineBasicBlock →
    List MachineBasicBlock
  | _, [] => []
  | i, X :: Rest =>
    (if i ∈ Succs then { X with Insts := replacePhiUsesWith Old New X.Insts } else X) ::
      updatePHIs Succs Old New (i + 1) Rest

/-- Modelled from the spec: `MachineBasicBlock::transferSuccessorsAndUpdatePHIs`
of the code generator framework, which is not part of the sources, called on the
block `This` with the block `FromMBB`: the successors of `FromMBB` become, in
their order, successors of `This`, `FromMBB` is left without successors, and the
`PHI` instructions of these successors name `This` where they named
`FromMBB`. -/
def transferSuccessorsAndUpdatePHIs (F : FunctionBlocks) (This FromMBB : Nat) : FunctionBlocks :=
  if This = FromMBB then F
  else
    let Succs : List Nat :=
      match F.MBBNumbering[FromMBB]? with
      | some Fr => Fr.Successors
      | none => []
    let Blocks1 :=
      F.MBBNumbering.modify (fun X => { X with Successors := X.Successors ++ Succs }) This
    let Blocks2 := Blocks1.modify (fun X => { X with Successors := [] }) FromMBB
    { F with MBBNumbering := updatePHIs Succs FromMBB This 0 Blocks2 }

/-- `MachineBasicBlock::addSuccessor` on the block `B` of the function. -/
def addSuccessor (F : FunctionBlocks) (B Succ : Nat) : FunctionBlocks :=
  { F with
    MBBNumbering := F.MBBNumbering.modify (fun X => { X with Successors := X.Successors ++ [Succ] }) B }

/-- The instructions of the block `B` of the function replaced by `f` of
them. -/
def setInsts (F : FunctionBlocks) (B : Nat) (f : List MachineInstr → List MachineInstr) :
    FunctionBlocks :=
  { F with MBBNumbering := F.MBBNumbering.modify (fun X => { X with Insts := f X.Insts }) B }

/-- The control flow part of `SimTargetLowering::expandSelectCC`
(SimISelLowering.cpp 677-713) on the instruction `MI` at the index `I` of the
block `BB`, whose content is `This` and whose place in the layout is `It`: the
function after the call and the number of the block `SinkMBB`.  `BROpcode` and
`LHS` are the local variables of these names, `Op0`, `Op2`, `Op3` and `Op4` the
registers of the operands 0, 2, 3 and 4 of `MI`.  The two new blocks take the
next two block numbers and are laid out right after `BB`. -/
def buildDiamond (T : Opcode → MCInstrDesc) (F : FunctionBlocks) (BB I : Nat)
    (This : MachineBasicBlock) (MI : MachineInstr) (It : Nat) (BROpcode : Opcode)
    (LHS Op2 Op0 Op3 Op4 : Register) : FunctionBlocks × Nat :=
  let ThisMBB := BB
  let IfFalseMBB := F.MBBNumbering.length
  let SinkMBB := F.MBBNumbering.length + 1
  let F0 : FunctionBlocks :=
    { MBBNumbering := F.MBBNumbering ++
        [{ Insts := [], Successors := [] }, { Insts := [], Successors := [] }]
      BasicBlocks := F.BasicBlocks.take (It + 1) ++ [IfFalseMBB, SinkMBB] ++
        F.BasicBlocks.drop (It + 1) }
  -- the remainder of `ThisMBB` and its successor edges go to `SinkMBB`
  let F1 := setInsts F0 SinkMBB (fun Insts => This.Insts.drop (I + 1) ++ Insts)
  let F2 := setInsts F1 ThisMBB (fun Insts => Insts.take (I + 1))
  let F3 := transferSuccessorsAndUpdatePHIs F2 SinkMBB ThisMBB
  let F4 := addSuccessor (addSuccessor F3 ThisMBB IfFalseMBB) ThisMBB SinkMBB
  let Branch : MachineInstr :=
    { MCID := get T BROpcode
      Operands := [MachineOperand.Reg LHS false false, MachineOperand.Reg Op2 false false,
        MachineOperand.MBB SinkMBB]
      DL := MI.DL }
  let F5 := setInsts F4 ThisMBB (fun Insts => Insts ++ [Branch])
  let F6 := addSuccessor F5 IfFalseMBB SinkMBB
  let Phi : MachineInstr :=
    { MCID := get T Opcode.PHI
      Operands := [MachineOperand.Reg Op0 true false, MachineOperand.Reg Op3 false false,
        MachineOperand.MBB ThisMBB, MachineOperand.Reg Op4 false false,
        MachineOperand.MBB IfFalseMBB]
      DL := MI.DL }
  let F7 := setInsts F6 SinkMBB (fun Insts => Phi :: Insts)
  let F8 := setInsts F7 ThisMBB (fun Insts => Insts.eraseIdx I)
  (F8, SinkMBB)

/-- `SimTargetLowering::expandSelectCC` (SimISelLowering.cpp 645-714) on the
instruction at the index `I` of the block `BB`: the function after the call and
the number of the returned block `SinkMBB`.  An operand that is not of the kind
the code reads it as, a kind without a branch opcode and a block that is not in
the function are the abort. -/
def expandSelectCC (T : Opcode → MCInstrDesc) (F : FunctionBlocks) (BB : Nat) (I : Nat) :
    Option (FunctionBlocks × Nat) :=
  match F.MBBNumbering[BB]? with
  | none => none
  | some This =>
    match This.Insts[I]? with
    | none => none
    | some MI =>
      match (MI.getOperand 5).bind MachineOperand.getImm,
        (MI.getOperand 1).bind MachineOperand.getReg,
        (MI.getOperand 2).bind MachineOperand.getReg with
      | some Imm, some LHS0, some RHS0 =>
        match ISD.CondCode.ofImm Imm with
        | none => none
        | some CC0 =>
          -- the `switch` of lines 652-662; after `std::swap(LHS, RHS)` only `LHS` is read
          let Swap : Bool := CC0 == .SETLT || CC0 == .SETGE || CC0 == .SETULT || CC0 == .SETUGE
          let CC := if Swap then ISD.getSetCCSwappedOperands CC0 else CC0
          let LHS := if Swap then RHS0 else LHS0
          match convertCondCodeToInstruction CC, F.BasicBlocks.indexOf? BB,
            (MI.getOperand 2).bind MachineOperand.getReg,
            (MI.getOperand 0).bind MachineOperand.getReg,
            (MI.getOperand 3).bind MachineOperand.getReg,
            (MI.getOperand 4).bind MachineOperand.getReg with
          | some BROpcode, some It, some Op2, some Op0, some Op3, some Op4 =>
            some (buildDiamond T F BB I This MI It BROpcode LHS Op2 Op0 Op3 Op4)
          | _, _, _, _, _, _ => none
      | _, _, _ => none

/-! ## SimISelLowering.cpp: the selection DAG -/

/-- The machine value types (`MVT`) that the lowering names, and `Other` and
`Glue`, the types of a chain and of a glue. -/
inductive MVT where
  | i1
  | i8
  | i16
  | i32
  | i64
  | f32
  | f64
  | Other
  | Glue
  deriving DecidableEq, Repr

/-- The node kinds of `ISD::NodeType` and `SIMISD::NodeType` that the lowering
builds or reads; `SIM_RET`, `SIM_CALL`, `SIM_BR_CC` and `SIM_SELECT_CC` are the
kinds of the `SIMISD` namespace. -/
inductive NodeType where
  | TokenFactor
  | CopyToReg
  | CopyFromReg
  | SIGN_EXTEND
  | ZERO_EXTEND
  | BITCAST
  | AssertSext
  | TRUNCATE
  | ADD
  | LOAD
  | STORE
  | CALLSEQ_START
  | CALLSEQ_END
  | BR_CC
  | SELECT_CC
  | SIM_RET
  | SIM_CALL
  | SIM_BR_CC
  | SIM_SELECT_CC
  deriving DecidableEq, Repr

/-- A value of the selection DAG (`SDValue`), as the term that builds it.
`Null` is `SDValue()`; `Input id VT` is a value that exists before the lowering
runs (an argument, the incoming chain, a branch target); `Node Opc VTs Ops R` is
the result number `R` of the node that `DAG.getNode(Opc, DL, VTs, Ops)` builds;
`Memcpy` is the chain that `DAG.getMemcpy` returns.  The simplifications that
the DAG applies while it builds a node keep the value the node denotes and are
not modelled. -/
inductive SDValue where
  | Null
  | Input (id : Nat) (VT : MVT)
  | Constant (v : Int) (VT : MVT) (isTarget : Bool)
  | Register (r : Register) (VT : MVT)
  | FrameIndex (FI : Int) (VT : MVT)
  | CondCode (CC : ISD.CondCode)
  | ValueType (VT : MVT)
  | RegisterMask
  | GlobalAddress (G : Nat) (VT : MVT) (isTarget : Bool)
  | ExternalSymbol (Sym : Nat) (VT : MVT) (isTarget : Bool)
  | Node (Opc : NodeType) (VTs : List MVT) (Ops : List SDValue) (ResNo : Nat)
  | Memcpy (Chain Dst Src Size : SDValue) (Alignment : Nat)
      (isVol AlwaysInline isTailCall : Bool)
  deriving Repr

namespace SDValue

/-- `SDValue::getNode() != nullptr`. -/
def isNull : SDValue → Bool
  | Null => true
  | _ => false

/-- `SDValue::getValueType`. -/
def getValueType : SDValue → MVT
  | Input _ VT => VT
  | Constant _ VT _ => VT
  | Register _ VT => VT
  | FrameIndex _ VT => VT
  | GlobalAddress _ VT _ => VT
  | ExternalSymbol _ VT _ => VT
  | Node _ VTs _ R => VTs.getD R MVT.Other
  | _ => MVT.Other

/-- `SDValue::getOperand`, which asserts that the index is in range. -/
def getOperand : SDValue → Nat → Option SDValue
  | Node _ _ Ops _, i => Ops[i]?
  | _, _ => none

/-- `SDValue::getValue`: another result of the same node. -/
def getValue : SDValue → Nat → SDValue
  | Node Opc VTs Ops _, R => Node Opc VTs Ops R
  | V, _ => V

end SDValue

/-- `SelectionDAG::getNode` with one result type. -/
def getNode (Opc : NodeType) (VT : MVT) (Ops : List SDValue) : SDValue :=
  SDValue.Node Opc [VT] Ops 0

/-- `SelectionDAG::getCopyToReg` with a glue operand, which is left out when it
is null: the chain result of the node. -/
def getCopyToReg (Chain : SDValue) (Reg : Register) (N Glue : SDValue) : SDValue :=
  SDValue.Node NodeType.CopyToReg [MVT.Other, MVT.Glue]
    ([Chain, SDValue.Register Reg N.getValueType, N] ++ (if Glue.isNull then [] else [Glue])) 0

/-- `SelectionDAG::getCopyFromReg` without glue. -/
def getCopyFromReg (Chain : SDValue) (Reg : Register) (VT : MVT) : SDValue :=
  SDValue.Node NodeType.CopyFromReg [VT, MVT.Other] [Chain, SDValue.Register Reg VT] 0

/-- `SelectionDAG::getCopyFromReg` with a glue operand, which is left out when
it is null. -/
def getCopyFromRegGlue (Chain : SDValue) (Reg : Register) (VT : MVT) (Glue : SDValue) :
    SDValue :=
  SDValue.Node NodeType.CopyFromReg [VT, MVT.Other, MVT.Glue]
    ([Chain, SDValue.Register Reg VT] ++ (if Glue.isNull then [] else [Glue])) 0

/-- `SelectionDAG::getLoad` of a value of type `VT` from the address `Ptr`. -/
def getLoad (VT : MVT) (Chain Ptr : SDValue) : SDValue :=
  SDValue.Node NodeType.LOAD [VT, MVT.Other] [Chain, Ptr] 0

/-- `SelectionDAG::getStore` of the value `Val` to the address `Ptr`. -/
def getStore (Chain Val Ptr : SDValue) : SDValue :=
  SDValue.Node NodeType.STORE [MVT.Other] [Chain, Val, Ptr] 0

/-- `SelectionDAG::getCALLSEQ_START`. -/
def getCALLSEQ_START (Chain : SDValue) (InSize OutSize : Nat) : SDValue :=
  SDValue.Node NodeType.CALLSEQ_START [MVT.Other, MVT.Glue]
    [Chain, SDValue.Constant InSize MVT.i32 true, SDValue.Constant OutSize MVT.i32 true] 0

/-- `SelectionDAG::getCALLSEQ_END`; a null glue is left out. -/
def getCALLSEQ_END (Chain Op1 Op2 InGlue : SDValue) : SDValue :=
  SDValue.Node NodeType.CALLSEQ_END [MVT.Other, MVT.Glue]
    ([Chain, Op1, Op2] ++ (if InGlue.isNull then [] else [InGlue])) 0

/-- `getPointerTy(DAG.getDataLayout())`: pointers of the target are 32 bits
wide. -/
def getPointerTy : MVT := MVT.i32

/-! ## SimISelLowering.cpp: convertValVTToLocVT and the branch conditions -/

/-- `CCValAssign::LocInfo` of the code generator framework. -/
inductive LocInfo where
  | Full
  | SExt
  | ZExt
  | AExt
  | SExtUpper
  | ZExtUpper
  | AExtUpper
  | BCvt
  | Trunc
  | VExt
  | FPExt
  | Indirect
  deriving DecidableEq, Repr

/-- The location of a `CCValAssign`: a register, or a byte offset in the
argument area. -/
inductive CCLoc where
  | Reg (r : Register)
  | Mem (Offset : Nat)
  deriving DecidableEq, Repr

/-- `CCValAssign` of the code generator framework: the assignment of one
argument or return value to its location. -/
structure CCValAssign where
  ValNo : Nat
  ValVT : MVT
  LocVT : MVT
  HTP : LocInfo
  Loc : CCLoc
  isCustom : Bool := false
  deriving DecidableEq, Repr

namespace CCValAssign

/-- `CCValAssign::isRegLoc`. -/
def isRegLoc (VA : CCValAssign) : Bool :=
  match VA.Loc with
  | CCLoc.Reg _ => true
  | CCLoc.Mem _ => false

/-- `CCValAssign::isMemLoc`. -/
def isMemLoc (VA : CCValAssign) : Bool := !VA.isRegLoc

/-- `CCValAssign::getLocReg`, which asserts that the location is a register. -/
def getLocReg (VA : CCValAssign) : Option Register :=
  match VA.Loc with
  | CCLoc.Reg r => some r
  | CCLoc.Mem _ => none

/-- `CCValAssign::getLocMemOffset`, which asserts that the location is in
memory. -/
def getLocMemOffset (VA : CCValAssign) : Option Nat :=
  match VA.Loc with
  | CCLoc.Reg _ => none
  | CCLoc.Mem o => some o

end CCValAssign

/-- `convertValVTToLocVT` (SimISelLowering.cpp 43-69); the two
`llvm_unreachable` are the abort. -/
def convertValVTToLocVT (Val : SDValue) (VA : CCValAssign) : Option SDValue :=
  let LocVT := VA.LocVT
  if VA.ValVT = MVT.f32 then none
  else
    match VA.HTP with
    | LocInfo.Full => some Val
    | LocInfo.SExt => some (getNode NodeType.SIGN_EXTEND LocVT [Val])
    | LocInfo.ZExt => some (getNode NodeType.ZERO_EXTEND LocVT [Val])
    | LocInfo.BCvt => some (getNode NodeType.BITCAST LocVT [Val])
    | _ => none

/-- `translateSetCCForBranch` (SimISelLowering.cpp 730-744): the values of
`LHS`, `RHS` and `CC` after the call. -/
def translateSetCCForBranch (LHS RHS : SDValue) (CC : ISD.CondCode) :
    SDValue × SDValue × ISD.CondCode :=
  match CC with
  | .SETLT => (RHS, LHS, ISD.getSetCCSwappedOperands CC)
  | .SETGE => (RHS, LHS, ISD.getSetCCSwappedOperands CC)
  | .SETULT => (RHS, LHS, ISD.getSetCCSwappedOperands CC)
  | .SETUGE => (RHS, LHS, ISD.getSetCCSwappedOperands CC)
  | _ => (LHS, RHS, CC)

/-- `translateUnorderedCondCodeForBranch` (SimISelLowering.cpp 746-769). -/
def translateUnorderedCondCodeForBranch : ISD.CondCode → ISD.CondCode
  | .SETUEQ => .SETEQ
  | .SETUNE => .SETNE
  | .SETULE => .SETLE
  | .SETUGT => .SETGT
  | .SETUGE => .SETGE
  | .SETULT => .SETLT
  | CC => CC

/-- `LowerBR_CC` (SimISelLowering.cpp 771-786) on the node `Op`, whose operands
are the chain, the condition code, the two compared values and the
destination; the `cast` of an operand 1 that is no condition code and the
`assert` on the type of `LHS` are the abort. -/
def LowerBR_CC (Op : SDValue) : Option SDValue :=
  match Op.getOperand 1, Op.getOperand 2, Op.getOperand 3, Op.getOperand 4, Op.getOperand 0 with
  | some (SDValue.CondCode CC0), some LHS0, some RHS0, some Dest, some Chain =>
    let CC1 := translateUnorderedCondCodeForBranch CC0
    if LHS0.getValueType ≠ MVT.i32 then none
    else
      match translateSetCCForBranch LHS0 RHS0 CC1 with
      | (LHS, RHS, CC) =>
        let TargetCC := SDValue.CondCode CC
        some (getNode NodeType.SIM_BR_CC Op.getValueType [Chain, LHS, RHS, TargetCC, Dest])
  | _, _, _, _, _ => none

/-! ## SimISelLowering.cpp: LowerReturn -/

/-- The loop of `LowerReturn` (SimISelLowering.cpp 94-107) from the return value
number `i` on: the chain, the flag and the operands of the return node after
it. -/
def LowerReturnLoop (OutVals : List SDValue) :
    List CCValAssign → Nat → SDValue → SDValue → List SDValue →
      Option (SDValue × SDValue × List SDValue)
  | [], _, Chain, Flag, RetOps => some (Chain, Flag, RetOps)
  | VA :: Rest, i, Chain, Flag, RetOps =>
    match VA.getLocReg, OutVals[i]? with
    | some Reg, some OutVal =>
      match convertValVTToLocVT OutVal VA with
      | none => none
      | some Arg =>
        if VA.isCustom then none
        else
          let Chain1 := getCopyToReg Chain Reg Arg Flag
          LowerReturnLoop OutVals Rest (i + 1) Chain1 (Chain1.getValue 1)
            (RetOps ++ [SDValue.Register Reg VA.LocVT])
    | _, _ => none

/-- `SimTargetLowering::LowerReturn` (SimISelLowering.cpp 71-121).  `RVLocs` are
the locations that `CCInfo.AnalyzeReturn(Outs, RetCC_Sim)` computes (the
generated `RetCC_Sim` is not part of the sources), `hasStructRetAttr` the
answer of `MF.getFunction().hasStructRetAttr()`. -/
def LowerReturn (Chain : SDValue) (IsVarArg : Bool) (RVLocs : List CCValAssign)
    (OutVals : List SDValue) (hasStructRetAttr : Bool) : Option SDValue :=
  if IsVarArg ≠ false then none
  else
    match LowerReturnLoop OutVals RVLocs 0 Chain SDValue.Null [Chain] with
    | none => none
    | some (Chain1, Flag, RetOps) =>
      if hasStructRetAttr then none
      else
        let RetOps := RetOps.set 0 Chain1
        let RetOps := if Flag.isNull then RetOps else RetOps ++ [Flag]
        some (getNode NodeType.SIM_RET MVT.Other RetOps)

/-! ## SimISelLowering.cpp: LowerFormalArguments -/

/-- The part of `MachineRegisterInfo` that `LowerFormalArguments` writes: the
number of virtual registers created so far and the live-in pairs (physical
register, virtual register). -/
structure MachineRegisterInfo where
  NumVirtRegs : Nat := 0
  LiveIns : List (Register × Register) := []
  deriving DecidableEq, Repr

/-- `MachineRegisterInfo::createVirtualRegister`: the new register and the
register information after the call. -/
def createVirtualRegister (RegInfo : MachineRegisterInfo) : Register × MachineRegisterInfo :=
  (Register.Virt RegInfo.NumVirtRegs, { RegInfo with NumVirtRegs := RegInfo.NumVirtRegs + 1 })

/-- `getRegClassFor`, which asserts that the type has a register class: the
constructor of `SimTargetLowering` registers one, `GPR`, for `i32` and `f32`
(SimISelLowering.cpp 516-517).  The result tells whether there is a class. -/
def getRegClassFor (VT : MVT) : Bool :=
  decide (VT = MVT.i32) || decide (VT = MVT.f32)

/-- Modelled from the spec: `MachineFrameInfo::CreateFixedObject` of the code
generator framework, which is not part of the sources: the object is put in
front of the table, and its frame index is the negated new number of fixed
objects.  The object index and the frame information after the
call. -/
def CreateFixedObject (MFI : MachineFrameInfo) (Size : Nat) (SPOffset : Int) :
    Int × MachineFrameInfo :=
  (-((MFI.NumFixedObjects : Int) + 1),
    { MFI with
      Objects := { SPOffset := SPOffset, Size := Size } :: MFI.Objects
      NumFixedObjects := MFI.NumFixedObjects + 1 })

/-- Modelled from the spec: `MachineFrameInfo::CreateStackObject` of the code
generator framework, which is not part of the sources: the object is put at the
end of the table, with the size and the alignment given (the stack of the
target can be realigned, so that the alignment is not clamped).  The object index and the frame information after the call. -/
def CreateStackObject (MFI : MachineFrameInfo) (Size : Nat) (Alignment : Nat) :
    Int × MachineFrameInfo :=
  ((MFI.Objects.length : Int) + 1 - (MFI.NumFixedObjects : Int) - 1,
    { MFI with
      Objects := MFI.Objects ++ [{ SPOffset := 0, Size := Size, Alignment := Alignment }] })

/-- The state that the loop of `LowerFormalArguments` updates. -/
structure FormalArguments where
  MFI : MachineFrameInfo
  RegInfo : MachineRegisterInfo
  InVals : List SDValue

/-- The loop of `LowerFormalArguments` (SimISelLowering.cpp 154-190). -/
def LowerFormalArgumentsLoop (Chain : SDValue) :
    List CCValAssign → FormalArguments → Option FormalArguments
  | [], s => some s
  | VA :: Rest, s =>
    match VA.Loc with
    | CCLoc.Reg LocReg =>
      let LocVT := VA.LocVT
      if !getRegClassFor LocVT then none
      else
        match createVirtualRegister s.RegInfo with
        | (VReg, RegInfo1) =>
          let RegInfo2 := { RegInfo1 with LiveIns := RegInfo1.LiveIns ++ [(LocReg, VReg)] }
          let Arg := getCopyFromReg Chain VReg MVT.i32
          let Arg :=
            if LocVT = MVT.f32 then getNode NodeType.BITCAST MVT.f32 [Arg]
            else if LocVT ≠ MVT.i32 then
              getNode NodeType.TRUNCATE LocVT
                [getNode NodeType.AssertSext MVT.i32 [Arg, SDValue.ValueType LocVT]]
            else Arg
          LowerFormalArgumentsLoop Chain Rest
            { s with RegInfo := RegInfo2, InVals := s.InVals ++ [Arg] }
    | CCLoc.Mem Offset =>
      match CreateFixedObject s.MFI 4 ((Offset % 2 ^ 32 : Nat) : Int) with
      | (FI, MFI1) =>
        let FIPtr := SDValue.FrameIndex FI getPointerTy
        if VA.ValVT = MVT.i32 ∨ VA.ValVT = MVT.f32 then
          let Load := getLoad VA.ValVT Chain FIPtr
          LowerFormalArgumentsLoop Chain Rest { s with MFI := MFI1, InVals := s.InVals ++ [Load] }
        else none

/-- `SimTargetLowering::LowerFormalArguments` (SimISelLowering.cpp 139-241): the
returned chain and the frame information, register information and `InVals`
after the call.  `ArgLocs` are the locations that
`CCInfo.AnalyzeFormalArguments(Ins, CC_Sim)` computes, `hasStructRetAttr` the
answer of `MF.getFunction().hasStructRetAttr()`. -/
def LowerFormalArguments (Chain : SDValue) (isVarArg : Bool) (ArgLocs : List CCValAssign)
    (hasStructRetAttr : Bool) (MFI : MachineFrameInfo) (RegInfo : MachineRegisterInfo)
    (InVals : List SDValue) : Option (SDValue × FormalArguments) :=
  match LowerFormalArgumentsLoop Chain ArgLocs { MFI := MFI, RegInfo := RegInfo, InVals := InVals } with
  | none => none
  | some s =>
    if hasStructRetAttr then none
    else if isVarArg then none
    else some (Chain, s)

/-! ## SimISelLowering.cpp: LowerCall -/

/-- The part of `ISD::ArgFlagsTy` that the lowering reads: the by-value flag,
the by-value size and the by-value alignment (0 when none is recorded). -/
structure ArgFlagsTy where
  isByVal : Bool := false
  ByValSize : Nat := 0
  ByValAlign : Nat := 0
  deriving DecidableEq, Repr

/-- `ISD::OutputArg`: the flags and the value type of an outgoing argument. -/
structure OutputArg where
  Flags : ArgFlagsTy := {}
  VT : MVT := MVT.i32
  deriving DecidableEq, Repr

/-- `ISD::InputArg`: the value type of an incoming value. -/
structure InputArg where
  VT : MVT := MVT.i32
  deriving DecidableEq, Repr

/-- What the lowering reads of a `CCState` after an analysis: the locations and
the size of the argument area (`getNextStackOffset`). -/
structure CCState where
  Locs : List CCValAssign
  StackOffset : Nat
  deriving DecidableEq, Repr

/-- The loop of `LowerCall` that creates the local copies of the by-value
arguments (SimISelLowering.cpp 275-300), from the argument number `i` on: the
frame information, the chain and `ByValArgs` after it. -/
def LowerCallByVal (OutVals : List SDValue) (isTailCall : Bool) :
    List OutputArg → Nat → MachineFrameInfo → SDValue → List SDValue →
      Option (MachineFrameInfo × SDValue × List SDValue)
  | [], _, MFI, Chain, ByValArgs => some (MFI, Chain, ByValArgs)
  | Out :: Rest, i, MFI, Chain, ByValArgs =>
    let Flags := Out.Flags
    if !Flags.isByVal then LowerCallByVal OutVals isTailCall Rest (i + 1) MFI Chain ByValArgs
    else
      match OutVals[i]? with
      | none => none
      | some Arg =>
        let Size := Flags.ByValSize % 2 ^ 32
        -- `getNonZeroByValAlign` asserts that an alignment is recorded
        if Flags.ByValAlign = 0 then none
        else
          let Alignment := Flags.ByValAlign
          if Size > 0 then
            match CreateStackObject MFI Size Alignment with
            | (FI, MFI1) =>
              let FIPtr := SDValue.FrameIndex FI getPointerTy
              let SizeNode := SDValue.Constant Size MVT.i32 false
              let Chain1 :=
                SDValue.Memcpy Chain FIPtr Arg SizeNode Alignment false (decide (Size ≤ 32))
                  isTailCall
              LowerCallByVal OutVals isTailCall Rest (i + 1) MFI1 Chain1 (ByValArgs ++ [FIPtr])
          else
            LowerCallByVal OutVals isTailCall Rest (i + 1) MFI Chain
              (ByValArgs ++ [SDValue.Null])

/-- The state that the loop of `LowerCall` over the argument locations
updates: the counter `j` of the by-value arguments, `RegsToPass` and
`MemOpChains`. -/
structure CallArguments where
  j : Nat := 0
  RegsToPass : List (Register × SDValue) := []
  MemOpChains : List SDValue := []

/-- The loop of `LowerCall` over the argument locations (SimISelLowering.cpp
307-394), from the argument number `i` on. -/
def LowerCallArgs (Outs : List OutputArg) (OutVals ByValArgs : List SDValue) (Chain : SDValue)
    (isTailCall : Bool) : List CCValAssign → Nat → CallArguments → Option CallArguments
  | [], _, s => some s
  | VA :: Rest, i, s =>
    match OutVals[i]?, Outs[i]? with
    | some ArgValue0, some Out =>
      let Flags := Out.Flags
      if VA.isCustom then none
      else if VA.HTP = LocInfo.Indirect then none
      else
        match convertValVTToLocVT ArgValue0 VA with
        | none => none
        | some ArgValue1 =>
          -- the local copy of a by-value argument
          match (if Flags.isByVal then ByValArgs[s.j]? else some ArgValue1) with
          | none => none
          | some ArgValue =>
            let j1 := if Flags.isByVal then s.j + 1 else s.j
            match VA.Loc with
            | CCLoc.Reg LocReg =>
              let RegsToPass1 :=
                if VA.LocVT ≠ MVT.f32 then s.RegsToPass ++ [(LocReg, ArgValue)]
                else s.RegsToPass
              let ArgValue2 := getNode NodeType.BITCAST MVT.i32 [ArgValue]
              LowerCallArgs Outs OutVals ByValArgs Chain isTailCall Rest (i + 1)
                { j := j1, RegsToPass := RegsToPass1 ++ [(LocReg, ArgValue2)],
                  MemOpChains := s.MemOpChains }
            | CCLoc.Mem Offset =>
              if isTailCall then none
              else
                let StackPtr := SDValue.Register SIM.SP MVT.i32
                let PtrOff := SDValue.Constant Offset getPointerTy false
                let PtrOff := getNode NodeType.ADD MVT.i32 [StackPtr, PtrOff]
                LowerCallArgs Outs OutVals ByValArgs Chain isTailCall Rest (i + 1)
                  { j := j1, RegsToPass := s.RegsToPass,
                    MemOpChains := s.MemOpChains ++ [getStore Chain ArgValue PtrOff] }
    | _, _ => none

/-- The chain of copy-to-register nodes of `LowerCall` (SimISelLowering.cpp
405-410): the chain and the glue after it. -/
def LowerCallCopies : List (Register × SDValue) → SDValue → SDValue → SDValue × SDValue
  | [], Chain, Glue => (Chain, Glue)
  | Reg :: Rest, Chain, Glue =>
    let Chain1 := getCopyToReg Chain Reg.1 Reg.2 Glue
    LowerCallCopies Rest Chain1 (Chain1.getValue 1)

/-- The loop of `LowerCall` that copies the results out of their registers
(SimISelLowering.cpp 463-484): the chain and `InVals` after it. -/
def LowerCallResults : List CCValAssign → SDValue → SDValue → List SDValue →
    Option (SDValue × List SDValue)
  | [], Chain, _, InVals => some (Chain, InVals)
  | VA :: Rest, Chain, Glue, InVals =>
    match VA.getLocReg with
    | none => none
    | some Reg =>
      let RetValue := getCopyFromRegGlue Chain Reg VA.LocVT Glue
      let Chain1 := RetValue.getValue 1
      let Glue1 := RetValue.getValue 2
      if VA.LocVT = MVT.i32 ∧ VA.ValVT = MVT.f64 then none
      else
        match convertValVTToLocVT RetValue VA with
        | none => none
        | some RetValue1 => LowerCallResults Rest Chain1 Glue1 (InVals ++ [RetValue1])

/-- What `LowerCall` returns and leaves behind: the returned chain, `InVals`
and the frame information after the call, and the values of its local
variables `ByValArgs`, `RegsToPass`, `MemOpChains` and `Ops` (the operands of
the call node), which are parts of the chain. -/
structure LoweredCall where
  Chain : SDValue
  InVals : List SDValue
  MFI : MachineFrameInfo
  ByValArgs : List SDValue
  RegsToPass : List (Register × SDValue)
  MemOpChains : List SDValue
  Ops : List SDValue

/-- `SimTargetLowering::LowerCall` (SimISelLowering.cpp 243-487).  The
generated `CC_Sim` and `RetCC_Sim` are not part of the sources:
`AnalyzeCallOperands isVarArg Outs` is the state of the `CCState` built with
the flag `isVarArg` after `CCInfo.AnalyzeCallOperands(Outs, CC_Sim)`, and
`AnalyzeCallResult isVarArg Ins` are the locations after
`RVInfo.AnalyzeCallResult(Ins, RetCC_Sim)`.  `isTailCall` is set to false
(line 259), and `hasStructRetAttr` is the constant false (line 397). -/
def LowerCall (AnalyzeCallOperands : Bool → List OutputArg → CCState)
    (AnalyzeCallResult : Bool → List InputArg → List CCValAssign)
    (Chain Callee : SDValue) (isVarArg : Bool) (Outs : List OutputArg) (OutVals : List SDValue)
    (Ins : List InputArg) (MFI : MachineFrameInfo) (InVals : List SDValue) :
    Option LoweredCall :=
  let isTailCall := false
  let CCInfo := AnalyzeCallOperands isVarArg Outs
  let ArgLocs := CCInfo.Locs
  let ArgsSize := CCInfo.StackOffset % 2 ^ 32
  match LowerCallByVal OutVals isTailCall Outs 0 MFI Chain [] with
  | none => none
  | some (MFI1, Chain1, ByValArgs) =>
    let Chain2 := getCALLSEQ_START Chain1 ArgsSize 0
    match LowerCallArgs Outs OutVals ByValArgs Chain2 isTailCall ArgLocs 0 {} with
    | none => none
    | some Args =>
      let RegsToPass := Args.RegsToPass
      let MemOpChains := Args.MemOpChains
      let Chain3 :=
        if !MemOpChains.isEmpty then getNode NodeType.TokenFactor MVT.Other MemOpChains
        else Chain2
      match LowerCallCopies RegsToPass Chain3 SDValue.Null with
      | (Chain4, Glue) =>
        let Callee1 :=
          match Callee with
          | SDValue.GlobalAddress G _ _ => SDValue.GlobalAddress G MVT.i32 true
          | SDValue.ExternalSymbol Sym _ _ => SDValue.ExternalSymbol Sym MVT.i32 true
          | _ => Callee
        let Ops := [Chain4, Callee1] ++
          RegsToPass.map (fun Reg => SDValue.Register Reg.1 Reg.2.getValueType) ++
          [SDValue.RegisterMask] ++ (if Glue.isNull then [] else [Glue])
        let Chain5 := SDValue.Node NodeType.SIM_CALL [MVT.Other, MVT.Glue] Ops 0
        let Glue1 := Chain5.getValue 1
        let Chain6 :=
          getCALLSEQ_END Chain5 (SDValue.Constant ArgsSize getPointerTy true)
            (SDValue.Constant 0 getPointerTy true) Glue1
        let Glue2 := Chain6.getValue 1
        match LowerCallResults (AnalyzeCallResult isVarArg Ins) Chain6 Glue2 InVals with
        | none => none
        | some (Chain7, InVals1) =>
          some { Chain := Chain7, InVals := InVals1, MFI := MFI1, ByValArgs := ByValArgs,
                 RegsToPass := RegsToPass, MemOpChains := MemOpChains, Ops := Ops }

/-! ## The argument assignment -/

/-- Modelled from the spec: the walk of `AssignArguments` from the parameter
number `ValNo` on, `Used` argument registers being taken and the argument area
being `Offset` bytes long: a parameter takes the next unused argument register;
once the list is exhausted it takes the next slot of 4 bytes, at an offset
aligned to 4 bytes. -/
def AssignArgumentsFrom (ArgRegs : List Register) :
    List MVT → Nat → Nat → Nat → List CCValAssign × Nat
  | [], _, _, Offset => ([], Offset)
  | VT :: Rest, ValNo, Used, Offset =>
    match ArgRegs[Used]? with
    | some Reg =>
      let Tail := AssignArgumentsFrom ArgRegs Rest (ValNo + 1) (Used + 1) Offset
      ({ ValNo := ValNo, ValVT := VT, LocVT := VT, HTP := LocInfo.Full, Loc := CCLoc.Reg Reg } ::
        Tail.1, Tail.2)
    | none =>
      let Slot := (Offset + 3) / 4 * 4
      let Tail := AssignArgumentsFrom ArgRegs Rest (ValNo + 1) Used (Slot + 4)
      ({ ValNo := ValNo, ValVT := VT, LocVT := VT, HTP := LocInfo.Full, Loc := CCLoc.Mem Slot } ::
        Tail.1, Tail.2)

/-- Modelled from the spec: the argument assignment (`AssignArguments` of the
spec, the generated `CC_Sim` of SimGenCallingConv.inc, which is not part of the
sources, as `CCState::AnalyzeCallOperands` and `CCState::AnalyzeFormalArguments`
of the code generator framework run it) for the scalar parameters of a
signature, given by their types, in one walk from left to right.  `ArgRegs` is
the fixed ordered list of the argument registers. -/
def AssignArguments (ArgRegs : List Register) (ArgVTs : List MVT) : CCState :=
  let R := AssignArgumentsFrom ArgRegs ArgVTs 0 0 0
  { Locs := R.1, StackOffset := R.2 }

/-! ## SimInstrInfo.cpp: verifyInstruction -/

namespace SimOp

/-- `SimOp::OPERAND_SIMM16` (SimInfo.h 29), `FT` being the value of
`MCOI::OPERAND_FIRST_TARGET` of the code generator framework. -/
def OPERAND_SIMM16 (FT : Nat) : Nat := FT

/-- `SimOp::OPERAND_UIMM16` (SimInfo.h 30). -/
def OPERAND_UIMM16 (FT : Nat) : Nat := FT + 1

/-- `SimOp::OPERAND_UIMM5` (SimInfo.h 31). -/
def OPERAND_UIMM5 (FT : Nat) : Nat := FT + 2

end SimOp

/-- `isUInt<N>(x)` on an `int64_t` converted to `uint64_t`: `x` fits an
unsigned integer of `N` bits. -/
def isUInt (N : Nat) (x : Int) : Bool :=
  decide (toUInt64 x < 2 ^ N)

/-- The loop of `verifyInstruction` (SimInstrInfo.cpp 78-105) from the operand
number `i` on: the returned value when the loop returns, `true` when it runs to
its end. -/
def verifyOperands (FT : Nat) (MI : MachineInstr) : Nat → List MCOperandInfo → Option Bool
  | _, [] => some true
  | i, OI :: Rest =>
    let OpType := OI.OperandType
    if SimOp.OPERAND_SIMM16 FT ≤ OpType ∧ OpType ≤ SimOp.OPERAND_UIMM5 FT then
      match MI.getOperand i with
      | none => none
      | some (MachineOperand.Imm Imm) =>
        let Ok : Bool :=
          if OpType = SimOp.OPERAND_SIMM16 FT then isInt 16 Imm
          else if OpType = SimOp.OPERAND_UIMM16 FT then isUInt 16 Imm
          else isUInt 5 Imm
        if !Ok then some false
        else verifyOperands FT MI (i + 1) Rest
      | some _ => verifyOperands FT MI (i + 1) Rest
    else verifyOperands FT MI (i + 1) Rest

/-- `SimInstrInfo::verifyInstruction` (SimInstrInfo.cpp 73-108): the returned
value and `ErrInfo` after the call.  `T` is the descriptor table of the
subtarget. -/
def verifyInstruction (FT : Nat) (T : Opcode → MCInstrDesc) (MI : MachineInstr)
    (ErrInfo : String) : Option (Bool × String) :=
  let Desc := get T MI.getOpcode
  match verifyOperands FT MI 0 Desc.operands with
  | none => none
  | some true => some (true, ErrInfo)
  | some false => some (false, "Invalid immediate")

/-! ## The meaning of comparisons, branches and addresses -/

/-- Modelled from the spec: the truth value of the integer comparison of kind
`CC` on two 32-bit values, given as signed integers: the signed kinds compare
the values, the unsigned kinds their 32-bit patterns; the kinds that are not
integer comparisons are left false. -/
def compareCC (CC : ISD.CondCode) (a b : Int) : Bool :=
  match CC with
  | .SETEQ => decide (a = b)
  | .SETNE => decide (a ≠ b)
  | .SETLT => decide (a < b)
  | .SETGT => decide (a > b)
  | .SETLE => decide (a ≤ b)
  | .SETGE => decide (a ≥ b)
  | .SETULT => decide (a % 2 ^ 32 < b % 2 ^ 32)
  | .SETUGT => decide (a % 2 ^ 32 > b % 2 ^ 32)
  | .SETULE => decide (a % 2 ^ 32 ≤ b % 2 ^ 32)
  | .SETUGE => decide (a % 2 ^ 32 ≥ b % 2 ^ 32)
  | _ => false

/-- Modelled from the spec: whether a conditional branch is taken, `BEQ`, `BNE`,
`BLE` and `BGT` branching exactly when their first operand is equal to, not
equal to, at most, greater than their second. -/
def branchTaken (Opc : Opcode) (a b : Int) : Option Bool :=
  match Opc with
  | .BEQ => some (decide (a = b))
  | .BNE => some (decide (a ≠ b))
  | .BLE => some (decide (a ≤ b))
  | .BGT => some (decide (a > b))
  | _ => none

/-- Modelled from the spec: the value that a diamond delivers to the
destination of its merge, the registers holding the values `Regs`.  The last
instruction of the block `ThisMBB` is the conditional branch; when it is taken
control reaches the merge block `SinkMBB` on the edge from `ThisMBB`, when it is
not, control falls through to the block laid out after `ThisMBB` and reaches the
merge block on the edge from there.  The `PHI` at the head of the merge block
delivers the value paired with the block of the edge. -/
def selectResult (F : FunctionBlocks) (ThisMBB SinkMBB : Nat) (Regs : Register → Int) :
    Option Int :=
  match F.MBBNumbering[ThisMBB]?, F.MBBNumbering[SinkMBB]?, F.BasicBlocks.indexOf? ThisMBB with
  | some This, some Sink, some It =>
    match This.Insts.getLast?, Sink.Insts.head?, F.BasicBlocks[It + 1]? with
    | some Br, some Phi, some Next =>
      match Br.Operands, Phi.Operands with
      | [MachineOperand.Reg R1 _ _, MachineOperand.Reg R2 _ _, MachineOperand.MBB _],
        [MachineOperand.Reg _ _ _, MachineOperand.Reg V1 _ _, MachineOperand.MBB B1,
          MachineOperand.Reg V2 _ _, MachineOperand.MBB B2] =>
        match branchTaken Br.getOpcode (Regs R1) (Regs R2) with
        | none => none
        | some Taken =>
          let Edge := if Taken then ThisMBB else Next
          if Edge = B1 then some (Regs V1)
          else if Edge = B2 then some (Regs V2)
          else none
      | _, _ => none
    | _, _, _ => none
  | _, _, _ => none

/-- Modelled from the spec: the address that an address computation of the DAG
denotes, the registers holding the values `Regs`: a register, a constant, or a
sum of two of them. -/
def addressOf (Regs : Register → Int) : SDValue → Option Int
  | SDValue.Register r _ => some (Regs r)
  | SDValue.Constant v _ _ => some v
  | SDValue.Node NodeType.ADD _ [SDValue.Register r _, SDValue.Constant v _ _] _ =>
    some (Regs r + v)
  | _ => none

/-- Modelled from the spec: the values of the registers after the instructions
that the prologue has marked as frame setup, an `ADDi` setting its destination
to its source plus its immediate (the decrement of the stack pointer and the
computation of the frame pointer). -/
def runFrameSetup (Regs : Register → Int) : List MachineInstr → Register → Int
  | [] => Regs
  | MI :: Rest =>
    match MI.getOpcode, MI.Operands with
    | Opcode.ADDi, [MachineOperand.Reg Dest _ _, MachineOperand.Reg Src _ _,
        MachineOperand.Imm v] =>
      if MI.Flags = MIFlag.FrameSetup then
        runFrameSetup (fun r => if r = Dest then Regs Src + v else Regs r) Rest
      else runFrameSetup Regs Rest
    | _, _ => runFrameSetup Regs Rest

/-- Modelled from the spec: the address to which the caller stores the memory
argument number `k` of a lowered call, the registers holding the values `Regs`
at the call: the address operand of the store number `k` of `MemOpChains`. -/
def callerArgumentAddress (L : LoweredCall) (k : Nat) (Regs : Register → Int) : Option Int :=
  (L.MemOpChains[k]?).bind (fun St => (St.getOperand 2).bind (addressOf Regs))

/-- Modelled from the spec: the address from which the callee loads the object
of frame index `FI`, the registers holding the values `Regs` at its entry: the
frame reference of the object, resolved after the prologue has run and
evaluated with the register values that the prologue establishes. -/
def calleeArgumentAddress (T : Opcode → MCInstrDesc) (MF : MachineFunction) (FI : Int)
    (Regs : Register → Int) : Option Int :=
  match emitPrologue T MF 0 with
  | none => none
  | some MF1 =>
    match MF1.Blocks.head?, getFrameIndexReference MF1 FI with
    | some Entry, some (Reg, Offset) => some (runFrameSetup Regs Entry Reg + Offset)
    | _, _ => none

/-- `SimInstrInfo::isLoadFromStackSlot` (SimInstrInfo.cpp 44-54): the returned
register (`NoRegister` is 0) and `FrameIndex` after the call.  The operands 1
and 2 are read in this order, the second only when the first is a frame
index. -/
def isLoadFromStackSlot (MI : MachineInstr) (FrameIndex : Int) : Option (Register × Int) :=
  if MI.getOpcode == Opcode.LDi then
    match MI.getOperand 1 with
    | none => none
    | some (MachineOperand.FI Idx) =>
      match MI.getOperand 2 with
      | none => none
      | some (MachineOperand.Imm v) =>
        if v == 0 then
          match MI.getOperand 0 with
          | none => none
          | some Op0 =>
            match Op0.getReg with
            | none => none
            | some Reg => some (Reg, Idx)
        else some (Register.NoRegister, FrameIndex)
      | some _ => some (Register.NoRegister, FrameIndex)
    | some _ => some (Register.NoRegister, FrameIndex)
  else some (Register.NoRegister, FrameIndex)

/-- `SimInstrInfo::isStoreToStackSlot` (SimInstrInfo.cpp 61-71): the returned
register (`NoRegister` is 0) and `FrameIndex` after the call. -/
def isStoreToStackSlot (MI : MachineInstr) (FrameIndex : Int) : Option (Register × Int) :=
  if MI.getOpcode == Opcode.STi then
    match MI.getOperand 1 with
    | none => none
    | some (MachineOperand.FI Idx) =>
      match MI.getOperand 2 with
      | none => none
      | some (MachineOperand.Imm v) =>
        if v == 0 then
          match MI.getOperand 0 with
          | none => none
          | some Op0 =>
            match Op0.getReg with
            | none => none
            | some Reg => some (Reg, Idx)
        else some (Register.NoRegister, FrameIndex)
      | some _ => some (Register.NoRegister, FrameIndex)
    | some _ => some (Register.NoRegister, FrameIndex)
  else some (Register.NoRegister, FrameIndex)

/-- `MachineFrameInfo::getObjectSize`, which asserts that the frame index names
an object. -/
def getObjectSize (MFI : MachineFrameInfo) (FI : Int) : Option Nat :=
  if FI + (MFI.NumFixedObjects : Int) < 0 then none
  else
    match MFI.Objects[(FI + (MFI.NumFixedObjects : Int)).toNat]? with
    | none => none
    | some Obj => some Obj.Size

/-- `MachineFrameInfo::getObjectAlign`, which asserts that the frame index names
an object. -/
def getObjectAlign (MFI : MachineFrameInfo) (FI : Int) : Option Nat :=
  if FI + (MFI.NumFixedObjects : Int) < 0 then none
  else
    match MFI.Objects[(FI + (MFI.NumFixedObjects : Int)).toNat]? with
    | none => none
    | some Obj => some Obj.Alignment

/-- The debug location that `storeRegToStackSlot` and `loadRegFromStackSlot`
give to the instruction they build: the one of the instruction at the iterator
`I`, the unknown location when `I` is `MBB.end()`. -/
def debugLocAt (MBB : List MachineInstr) (I : Nat) : Nat :=
  match MBB[I]? with
  | some X => X.DL
  | none => 0

/-- `SimInstrInfo::storeRegToStackSlot` (SimInstrInfo.cpp 354-376): the block
after the `STi` has been inserted before the iterator `I`.  The memory operand
attached to the instruction describes the slot (its size and its alignment, read
from the frame information, which asserts that the frame index names an object)
and is no operand of the instruction. -/
def storeRegToStackSlot (T : Opcode → MCInstrDesc) (MFI : MachineFrameInfo)
    (MBB : List MachineInstr) (I : Nat) (SrcReg : Register) (isKill : Bool) (FI : Int) :
    Option (List MachineInstr) :=
  let DL := debugLocAt MBB I
  match getObjectSize MFI FI, getObjectAlign MFI FI with
  | some _, some _ =>
    let MI : MachineInstr :=
      { MCID := get T Opcode.STi
        Operands := [MachineOperand.Reg SrcReg false isKill, MachineOperand.FI FI,
          MachineOperand.Imm 0]
        DL := DL }
    some (MBB.take I ++ MI :: MBB.drop I)
  | _, _ => none

/-- `SimInstrInfo::loadRegFromStackSlot` (SimInstrInfo.cpp 378-399): the block
after the `LDi` has been inserted before the iterator `I`. -/
def loadRegFromStackSlot (T : Opcode → MCInstrDesc) (MFI : MachineFrameInfo)
    (MBB : List MachineInstr) (I : Nat) (DestReg : Register) (FI : Int) :
    Option (List MachineInstr) :=
  let DL := debugLocAt MBB I
  match getObjectSize MFI FI, getObjectAlign MFI FI with
  | some _, some _ =>
    let MI : MachineInstr :=
      { MCID := get T Opcode.LDi
        Operands := [MachineOperand.Reg DestReg true false, MachineOperand.FI FI,
          MachineOperand.Imm 0]
        DL := DL }
    some (MBB.take I ++ MI :: MBB.drop I)
  | _, _ => none

/-! ## SimFrameLowering.cpp: the callee-saved registers -/

/-- `Register::isPhysicalRegister` of the code generator framework. -/
def isPhysicalRegister : Register → Bool
  | Register.R _ => true
  | _ => false

/-- Modelled from the spec: `TargetRegisterInfo::getMinimalPhysRegClass` of the
code generator framework, which asserts that the register is a physical one and
has a register class.  The register classes of the target are generated and not
part of the sources: the class is named by a number, and every physical
register is in the class 0 of the general purpose registers. -/
def getMinimalPhysRegClass (Reg : Register) : Option Nat :=
  if isPhysicalRegister Reg then some 0 else none

/-- The loop of `spillCalleeSavedRegisters` (SimFrameLowering.cpp 178-184): the
block and the iterator `MI` after it.  `LiveIns` are the registers that are
live into the block.  The iterator keeps naming the instruction it named, one
place further after each insertion. -/
def spillLoop (T : Opcode → MCInstrDesc) (MFI : MachineFrameInfo) (LiveIns : List Register) :
    List CalleeSavedInfo → List MachineInstr → Nat → Option (List MachineInstr × Nat)
  | [], MBB, MI => some (MBB, MI)
  | CS :: Rest, MBB, MI =>
    let Reg := CS.Reg
    match getMinimalPhysRegClass Reg with
    | none => none
    | some _ =>
      match storeRegToStackSlot T MFI MBB MI Reg (!decide (Reg ∈ LiveIns)) CS.FrameIdx with
      | none => none
      | some MBB1 => spillLoop T MFI LiveIns Rest MBB1 (MI + 1)

/-- `SimFrameLowering::spillCalleeSavedRegisters` (SimFrameLowering.cpp
168-187): the block after the call and the returned flag. -/
def spillCalleeSavedRegisters (T : Opcode → MCInstrDesc) (MFI : MachineFrameInfo)
    (LiveIns : List Register) (MBB : List MachineInstr) (MI : Nat)
    (CSI : List CalleeSavedInfo) : Option (List MachineInstr × Bool) :=
  if CSI.isEmpty then some (MBB, true)
  else
    match spillLoop T MFI LiveIns CSI MBB MI with
    | none => none
    | some R => some (R.1, true)

/-- The loop of `restoreCalleeSavedRegisters` (SimFrameLowering.cpp 201-206)
over the entries given, which are the callee-saved registers in reverse order:
the block and the iterator `MI` after it. -/
def restoreLoop (T : Opcode → MCInstrDesc) (MFI : MachineFrameInfo) :
    List CalleeSavedInfo → List MachineInstr → Nat → Option (List MachineInstr × Nat)
  | [], MBB, MI => some (MBB, MI)
  | CS :: Rest, MBB, MI =>
    let Reg := CS.Reg
    match getMinimalPhysRegClass Reg with
    | none => none
    | some _ =>
      match loadRegFromStackSlot T MFI MBB MI Reg CS.FrameIdx with
      | none => none
      | some MBB1 =>
        -- the assertion that the iterator is not `MBB.begin()`
        if MI + 1 == 0 then none
        else restoreLoop T MFI Rest MBB1 (MI + 1)

/-- `SimFrameLowering::restoreCalleeSavedRegisters` (SimFrameLowering.cpp
189-209): the block after the call and the returned flag. -/
def restoreCalleeSavedRegisters (T : Opcode → MCInstrDesc) (MFI : MachineFrameInfo)
    (MBB : List MachineInstr) (MI : Nat) (CSI : List CalleeSavedInfo) :
    Option (List MachineInstr × Bool) :=
  if CSI.isEmpty then some (MBB, true)
  else
    match restoreLoop T MFI CSI.reverse MBB MI with
    | none => none
    | some R => some (R.1, true)

/-! ## Concrete instructions for the examples -/

/-- A descriptor table of the shape the target description gives: the branches
and the return are terminators, `B`, `BR` and `RET` are barriers. -/
def sampleTable : Opcode → MCInstrDesc
  | .B => { Opcode := .B, isTerminator := true, isBranch := true, isBarrier := true }
  | .BR => { Opcode := .BR, isTerminator := true, isBranch := true, isBarrier := true }
  | .RET => { Opcode := .RET, isTerminator := true, isBarrier := true }
  | .BEQ => { Opcode := .BEQ, isTerminator := true, isBranch := true }
  | .BNE => { Opcode := .BNE, isTerminator := true, isBranch := true }
  | .BGT => { Opcode := .BGT, isTerminator := true, isBranch := true }
  | .BLE => { Opcode := .BLE, isTerminator := true, isBranch := true }
  | Opc => { Opcode := Opc }

/-- The instruction `B Target`. -/
def sampleB (Target : Nat) : MachineInstr :=
  { MCID := get sampleTable Opcode.B, Operands := [MachineOperand.MBB Target] }

/-- The instruction `Opc R1, R2, Target`, the second register being killed. -/
def sampleBcc (Opc : Opcode) (R1 R2 : Nat) (Target : Nat) : MachineInstr :=
  { MCID := get sampleTable Opc
    Operands := [MachineOperand.Reg (Register.R R1) false false,
      MachineOperand.Reg (Register.R R2) false true, MachineOperand.MBB Target] }

/-- The instruction `ADDi R5, R5, 1`. -/
def sampleAdd : MachineInstr :=
  { MCID := get sampleTable Opcode.ADDi
    Operands := [MachineOperand.Reg (Register.R 5) true false,
      MachineOperand.Reg (Register.R 5) false false, MachineOperand.Imm 1] }

/-- The instruction `RET`. -/
def sampleRet : MachineInstr :=
  { MCID := get sampleTable Opcode.RET, Operands := [] }

/-- A debug value. -/
def sampleDbg : MachineInstr :=
  { MCID := get sampleTable Opcode.DBG_VALUE, Operands := [] }

/-- The spill `STi R, FI, 0` of a callee-saved register. -/
def sampleSpill (R : Nat) (FI : Int) : MachineInstr :=
  { MCID := get sampleTable Opcode.STi
    Operands := [MachineOperand.Reg (Register.R R) false true, MachineOperand.FI FI,
      MachineOperand.Imm 0] }

/-- A function with a frame of 40 bytes, one callee-saved register (the frame
pointer, spilled by the first instruction of the entry block) and frame pointer
elimination disabled. -/
def sampleFunction : MachineFunction :=
  { Blocks := [[sampleSpill 3 0] ++ [sampleAdd, sampleRet]]
    FrameInfo := { StackSize := 40, HasCalls := true
                   CSInfo := [{ Reg := SIM.FP, FrameIdx := 0 }] }
    DisableFramePointerElim := true }

/-- A function with an empty frame that does not adjust the stack, frame
pointer elimination being disabled. -/
def sampleEmptyFrame : MachineFunction :=
  { Blocks := [[] ++ [sampleRet]]
    FrameInfo := { StackSize := 0 }
    DisableFramePointerElim := true }

/-- The instruction `ADDi Dest, SP, Imm` with the flag `Flag`, as
`emitRegAdjustment` builds it. -/
def sampleAdjust (Dest : Register) (Imm : Int) (Flag : Nat) : MachineInstr :=
  { MCID := get sampleTable Opcode.ADDi
    Operands := [MachineOperand.Reg Dest true false, MachineOperand.Reg SIM.SP false false,
      MachineOperand.Imm Imm]
    Flags := Flag
    DL := 0 }

/-- The function `sampleFunction` as `emitPrologue` leaves it. -/
def samplePrologued : MachineFunction :=
  { sampleFunction with
    FrameInfo := { sampleFunction.FrameInfo with StackSize := 10 }
    Blocks := [[sampleAdjust SIM.SP (-10) MIFlag.FrameSetup, sampleSpill 3 0,
      sampleAdjust SIM.FP 10 MIFlag.FrameSetup, sampleAdd] ++ sampleRet :: []] }

/-- A function with a frame of 131072 bytes, 32768 words, that needs no frame
pointer. -/
def sampleLargeFrame : MachineFunction :=
  { Blocks := [[sampleRet]]
    FrameInfo := { StackSize := 131072 } }

/-- The function `sampleFunction` with variable sized objects and a stack to
realign. -/
def sampleRealigned : MachineFunction :=
  { sampleFunction with
    FrameInfo := { sampleFunction.FrameInfo with HasVarSizedObjects := true }
    ShouldRealignStack := true }

/-- The function `samplePrologued` with three stack objects: the spill slot of
the frame pointer at -4, a word at -8 and an object of 6 bytes at -14. -/
def sampleFrame : MachineFunction :=
  { samplePrologued with
    FrameInfo := { samplePrologued.FrameInfo with
      Objects := [{ SPOffset := -4, Size := 4 }, { SPOffset := -8, Size := 4 },
        { SPOffset := -14, Size := 6 }] } }

/-- The function `sampleFrame` with a stack that should be realigned, and can
be. -/
def sampleRealignedFrame : MachineFunction :=
  { sampleFrame with ShouldRealignStack := true }

/-- The call frame pseudo instruction `Opc A, 0`. -/
def samplePseudo (Opc : Opcode) (A : Int) : MachineInstr :=
  { MCID := get sampleTable Opc, Operands := [MachineOperand.Imm A, MachineOperand.Imm 0] }

/-- The function `sampleFunction` with variable sized objects. -/
def sampleVarSized : MachineFunction :=
  { sampleFunction with
    FrameInfo := { sampleFunction.FrameInfo with HasVarSizedObjects := true } }

/-- The function `sampleFunction` with a frame of 42 bytes and an object of 6
bytes at the offset -6, after the spill slot. -/
def sampleOddFrame : MachineFunction :=
  { sampleFunction with
    FrameInfo := { sampleFunction.FrameInfo with
      StackSize := 42
      Objects := [{ SPOffset := -4, Size := 4 }, { SPOffset := -10, Size := 6 }] } }

/-- A function without calls, that uses neither R12 nor SP and needs no frame
pointer. -/
def sampleLeaf : MachineFunction :=
  { Blocks := [[sampleAdd, sampleRet]]
    UsedPhysRegs := [Register.R 5] }

/-- The select pseudo-instruction `%0 = PseudoSELECT_CC %1, %2, %3, %4, CC` on
virtual registers. -/
def sampleSelect (CC : ISD.CondCode) : MachineInstr :=
  { MCID := get sampleTable Opcode.PseudoSELECT_CC
    Operands := [MachineOperand.Reg (Register.Virt 0) true false,
      MachineOperand.Reg (Register.Virt 1) false false,
      MachineOperand.Reg (Register.Virt 2) false false,
      MachineOperand.Reg (Register.Virt 3) false false,
      MachineOperand.Reg (Register.Virt 4) false false,
      MachineOperand.Imm CC.toImm] }

/-- A function of two blocks: the block 0 holds a select between two other
instructions and a branch to the block 1, its only successor. -/
def sampleBlocks (CC : ISD.CondCode) : FunctionBlocks :=
  { MBBNumbering :=
      [{ Insts := [sampleAdd] ++ sampleSelect CC :: [sampleAdd, sampleB 1], Successors := [1] },
       { Insts := [sampleRet], Successors := [] }]
    BasicBlocks := [0, 1] }

/-- Register values: `%1` holds 1, `%2` holds 2, `%3` holds 10 and `%4` holds
20; the stack pointer holds 1000. -/
def sampleRegs : Register → Int
  | Register.Virt 1 => 1
  | Register.Virt 2 => 2
  | Register.Virt 3 => 10
  | Register.Virt 4 => 20
  | Register.R 2 => 1000
  | _ => 0

/-- Six argument registers. -/
def sampleArgRegs : List Register :=
  [Register.R 10, Register.R 11, Register.R 12, Register.R 13, Register.R 14, Register.R 15]

/-- An analysis of call operands of the shape the spec gives: the argument
assignment over `sampleArgRegs`, whatever the variadic flag. -/
def sampleAnalyzeCallOperands (_isVarArg : Bool) (Outs : List OutputArg) : CCState :=
  AssignArguments sampleArgRegs (Outs.map (fun O => O.VT))

/-- An analysis of call results: every result in a register of
`sampleArgRegs`. -/
def sampleAnalyzeCallResult (_isVarArg : Bool) (Ins : List InputArg) : List CCValAssign :=
  (AssignArguments sampleArgRegs (Ins.map (fun I => I.VT))).Locs

/-- The outgoing arguments of a call with `n` scalar arguments of type
`i32`. -/
def sampleOuts (n : Nat) : List OutputArg := List.replicate n {}

/-- The values of `n` arguments: the inputs number 1 to `n`. -/
def sampleOutVals (n : Nat) : List SDValue :=
  (List.range n).map (fun i => SDValue.Input (i + 1) MVT.i32)

/-- The lowering of a call of a global function with `n` scalar arguments of
type `i32` and no result, the variadic flag being `isVarArg`. -/
def sampleCall (isVarArg : Bool) (n : Nat) : Option LoweredCall :=
  LowerCall sampleAnalyzeCallOperands sampleAnalyzeCallResult (SDValue.Input 0 MVT.Other)
    (SDValue.GlobalAddress 0 MVT.i32 false) isVarArg (sampleOuts n) (sampleOutVals n) [] {} []

/-- The lowering of the formal arguments of a function with `n` scalar
parameters of type `i32`, whose frame has 40 bytes. -/
def sampleFormals (n : Nat) : Option (SDValue × FormalArguments) :=
  LowerFormalArguments (SDValue.Input 0 MVT.Other) false
    (AssignArguments sampleArgRegs (List.replicate n MVT.i32)).Locs false
    { StackSize := 40 } {} []

/-- The callee of `sampleCall false 8`: a function with 8 scalar parameters of
type `i32`, the two fixed objects that `LowerFormalArguments` creates for the
parameters passed in memory, a frame of 40 bytes, a single block, and frame
pointer elimination disabled. -/
def sampleCalleeFunction : MachineFunction :=
  { Blocks := [[sampleRet]]
    FrameInfo := { StackSize := 40, NumFixedObjects := 2
                   Objects := [{ SPOffset := 4, Size := 4 }, { SPOffset := 0, Size := 4 }] }
    DisableFramePointerElim := true }

/-- A descriptor table with the declared operand types of `ADDi`: two
registers (`MCOI::OPERAND_REGISTER`, 2) and a signed immediate of 16 bits, the
first operand type of the target being 13. -/
def sampleOperandTable : Opcode → MCInstrDesc
  | .ADDi => { Opcode := .ADDi, operands := [{ OperandType := 2 }, { OperandType := 2 },
                                             { OperandType := SimOp.OPERAND_SIMM16 13 }] }
  | Opc => { Opcode := Opc }

/-- The function `sampleCalleeFunction` as `emitPrologue` leaves it: a frame of
10 words, the stack pointer moved down by 10 and the frame pointer set 10 above
it. -/
def sampleProloguedCallee : MachineFunction :=
  { sampleCalleeFunction with
    FrameInfo := { sampleCalleeFunction.FrameInfo with StackSize := 10 }
    Blocks := [[sampleAdjust SIM.SP (-10) MIFlag.FrameSetup,
      sampleAdjust SIM.FP 10 MIFlag.FrameSetup, sampleRet]] }

/-- The instruction `BR Target`, read by `analyzeBranch` as a branch to the block
`Target`. -/
def sampleBR (Target : Nat) : MachineInstr :=
  { MCID := get sampleTable Opcode.BR, Operands := [MachineOperand.MBB Target] }

/-- The instruction `BR R6`, a branch to the address in a register. -/
def sampleBRReg : MachineInstr :=
  { MCID := get sampleTable Opcode.BR
    Operands := [MachineOperand.Reg (Register.R 6) false false] }

/-- The frame information of a function with two spill slots, the objects 0 and
1. -/
def sampleSpillFrame : MachineFrameInfo :=
  { Objects := [{ SPOffset := -4, Size := 4 }, { SPOffset := -8, Size := 4 }] }

/-- Two callee-saved registers: the frame pointer in the slot 0 and the return
address in the slot 1. -/
def sampleCSI : List CalleeSavedInfo :=
  [{ Reg := SIM.FP, FrameIdx := 0 }, { Reg := SIM.RA, FrameIdx := 1 }]

/-- The load `LDi R, FI, 0` that restores a callee-saved register. -/
def sampleReload (R : Nat) (FI : Int) : MachineInstr :=
  { MCID := get sampleTable Opcode.LDi
    Operands := [MachineOperand.Reg (Register.R R) true false, MachineOperand.FI FI,
      MachineOperand.Imm 0] }

/-- The load `LDi R7, FI#1, Imm`. -/
def sampleLoad (Imm : Int) : MachineInstr :=
  { MCID := get sampleTable Opcode.LDi
    Operands := [MachineOperand.Reg (Register.R 7) true false, MachineOperand.FI 1,
      MachineOperand.Imm Imm] }

/-- Register values: `%1` holds the pattern 0xFFFFFFFF, which is -1 as a signed
value, `%2` holds 1, `%3` holds 10 and `%4` holds 20. -/
def sampleUnsignedRegs : Register → Int
  | Register.Virt 1 => -1
  | Register.Virt 2 => 1
  | Register.Virt 3 => 10
  | Register.Virt 4 => 20
  | _ => 0

/-! ## Theorems -/

/-! ### Lists and iterators -/

theorem list_nil_or_snoc {α : Type} (l : List α) : l = [] ∨ ∃ p t, l = p ++ [t] := by
  rcases List.eq_nil_or_concat l with h | ⟨p, t, h⟩
  · exact Or.inl h
  · exact Or.inr ⟨p, t, by rw [h, List.concat_eq_append]⟩

theorem getElem_append_zero {α : Type} (pre : List α) (a : α) (l : List α) :
    (pre ++ a :: l)[pre.length]? = some a := by
  rw [List.getElem?_append_right (le_refl _)]
  simp

theorem getElem_append_one {α : Type} (pre : List α) (a b : α) (l : List α) :
    (pre ++ a :: b :: l)[pre.length + 1]? = some b := by
  rw [List.getElem?_append_right (by omega)]
  simp

theorem getElem_append_two {α : Type} (pre : List α) (a b c : α) (l : List α) :
    (pre ++ a :: b :: c :: l)[pre.length + 1 + 1]? = some c := by
  rw [List.getElem?_append_right (by omega)]
  have h : pre.length + 1 + 1 - pre.length = 0 + 1 + 1 := by omega
  rw [h, List.getElem?_cons_succ, List.getElem?_cons_succ, List.getElem?_cons_zero]

theorem getElem_append_left {α : Type} (pre l : List α) (i : Nat) (h : i < pre.length) :
    (pre ++ l)[i]? = pre[i]? :=
  List.getElem?_append_left h

theorem eraseIdx_append_zero {α : Type} (pre : List α) (a : α) (l : List α) :
    (pre ++ a :: l).eraseIdx pre.length = pre ++ l := by
  rw [List.eraseIdx_append_of_length_le (le_refl _)]
  simp

theorem eraseIdx_append_one {α : Type} (pre : List α) (a b : α) (l : List α) :
    (pre ++ a :: b :: l).eraseIdx (pre.length + 1) = pre ++ a :: l := by
  rw [List.eraseIdx_append_of_length_le (by omega)]
  simp

theorem lastNonDebugBefore_append_left (xs ys : List MachineInstr) (n : Nat) (h : n ≤ xs.length) :
    lastNonDebugBefore (xs ++ ys) n = lastNonDebugBefore xs n := by
  induction n with
  | zero => rfl
  | succ k ih =>
    have hk : k < xs.length := h
    simp only [lastNonDebugBefore, List.getElem?_append_left hk, ih (Nat.le_of_lt hk)]

theorem lastNonDebugBefore_skip (xs d : List MachineInstr)
    (hd : ∀ y ∈ d, y.isDebugInstr = true) :
    lastNonDebugBefore (xs ++ d) (xs ++ d).length = lastNonDebugBefore xs xs.length := by
  induction d using List.reverseRecOn with
  | nil => simp
  | append_singleton d y ih =>
    have hy : y.isDebugInstr = true := hd y (by simp)
    have hlen : (xs ++ (d ++ [y])).length = (xs ++ d).length + 1 := by simp; omega
    have hget : (xs ++ (d ++ [y]))[(xs ++ d).length]? = some y := by
      rw [← List.append_assoc]; exact getElem_append_zero _ _ _
    rw [hlen, lastNonDebugBefore, hget]
    simp only [hy, if_true]
    rw [← List.append_assoc, lastNonDebugBefore_append_left _ _ _ (le_refl _)]
    exact ih (fun z hz => hd z (by simp [hz]))

theorem getLastNonDebugInstr_last (pre : List MachineInstr) (x : MachineInstr)
    (d : List MachineInstr) (hx : x.isDebugInstr = false)
    (hd : ∀ y ∈ d, y.isDebugInstr = true) :
    getLastNonDebugInstr (pre ++ x :: d) = some pre.length := by
  have h1 : pre ++ x :: d = (pre ++ [x]) ++ d := by simp
  unfold getLastNonDebugInstr
  rw [h1, lastNonDebugBefore_skip _ _ hd]
  have hlen : (pre ++ [x]).length = pre.length + 1 := by simp
  rw [hlen, lastNonDebugBefore]
  simp [hx]

theorem prevIsTerminator_append (pre l : List MachineInstr) :
    prevIsTerminator (pre ++ l) pre.length = prevIsTerminator pre pre.length := by
  rcases list_nil_or_snoc pre with h | ⟨p, t, h⟩
  · subst h; rfl
  · subst h
    have hlen : (p ++ [t]).length = p.length + 1 := by simp
    rw [hlen]
    simp only [prevIsTerminator]
    rw [List.append_assoc, List.singleton_append, getElem_append_zero, getElem_append_zero]

theorem prevIsTerminator_getLast (pre : List MachineInstr) (t : MachineInstr)
    (h : pre.getLast? = some t) :
    prevIsTerminator pre pre.length = isUnpredicatedTerminator t := by
  rcases list_nil_or_snoc pre with h0 | ⟨p, u, h0⟩
  · subst h0; simp at h
  · subst h0
    simp at h
    subst h
    have hlen : (p ++ [u]).length = p.length + 1 := by simp
    rw [hlen]
    simp only [prevIsTerminator, getElem_append_zero]

theorem prevIsTerminator_false (pre : List MachineInstr)
    (h : ∀ t, pre.getLast? = some t → isUnpredicatedTerminator t = false) :
    prevIsTerminator pre pre.length = false := by
  rcases list_nil_or_snoc pre with h0 | ⟨p, u, h0⟩
  · subst h0; rfl
  · rw [prevIsTerminator_getLast pre u (by simp [h0])]
    exact h u (by simp [h0])

theorem prevIsTerminator_succ (pre : List MachineInstr) (a : MachineInstr)
    (l : List MachineInstr) :
    prevIsTerminator (pre ++ a :: l) (pre.length + 1) = isUnpredicatedTerminator a := by
  simp only [prevIsTerminator, getElem_append_zero]

theorem prevIsTerminator_succ_succ (pre : List MachineInstr) (a b : MachineInstr)
    (l : List MachineInstr) :
    prevIsTerminator (pre ++ a :: b :: l) (pre.length + 1 + 1) = isUnpredicatedTerminator b := by
  simp only [prevIsTerminator, getElem_append_one]

theorem isDebugInstr_of_uncond (MI : MachineInstr)
    (h : isUncondBranchOpcode MI.getOpcode = true) : MI.isDebugInstr = false := by
  unfold MachineInstr.isDebugInstr
  cases hO : MI.getOpcode <;> simp_all [isUncondBranchOpcode]

theorem isDebugInstr_of_cond (MI : MachineInstr)
    (h : isCondBranchOpcode MI.getOpcode = true) : MI.isDebugInstr = false := by
  unfold MachineInstr.isDebugInstr
  cases hO : MI.getOpcode <;> simp_all [isCondBranchOpcode]

theorem isUncond_of_cond (Opc : Opcode) (h : isCondBranchOpcode Opc = true) :
    isUncondBranchOpcode Opc = false := by
  cases Opc <;> simp_all [isCondBranchOpcode, isUncondBranchOpcode]

theorem getLastNonDebugInstr_last_two (pre : List MachineInstr) (a x : MachineInstr)
    (d : List MachineInstr) (hx : x.isDebugInstr = false)
    (hd : ∀ y ∈ d, y.isDebugInstr = true) :
    getLastNonDebugInstr (pre ++ a :: x :: d) = some (pre.length + 1) := by
  have h := getLastNonDebugInstr_last (pre ++ [a]) x d hx hd
  simpa using h

theorem getOperand_eq (MI : MachineInstr) (i : Nat) : MI.getOperand i = MI.Operands[i]? := rfl

/-! ### removeBranch -/

theorem notBranch_iff (Opc : Opcode) :
    (Opc != Opcode.B && getCondFromBranchOpcode Opc == CondCodes.INVALID) = true ↔
      Opc ∉ [Opcode.B, Opcode.BEQ, Opcode.BNE, Opcode.BLE, Opcode.BGT] := by
  cases Opc <;> simp [getCondFromBranchOpcode]

theorem isDebugInstr_of_branch (MI : MachineInstr)
    (h : MI.getOpcode ∈ [Opcode.B, Opcode.BEQ, Opcode.BNE, Opcode.BLE, Opcode.BGT]) :
    MI.isDebugInstr = false := by
  unfold MachineInstr.isDebugInstr
  cases hO : MI.getOpcode <;> simp_all

theorem lastNonDebugBefore_lt (xs : List MachineInstr) (n i : Nat)
    (h : lastNonDebugBefore xs n = some i) : i < n := by
  induction n with
  | zero => simp [lastNonDebugBefore] at h
  | succ k ih =>
    simp only [lastNonDebugBefore] at h
    split at h
    · split at h
      · exact Nat.lt_succ_of_lt (ih h)
      · simp at h; omega
    · exact Nat.lt_succ_of_lt (ih h)

theorem removeBranchLoop_spec (Pre : List MachineInstr)
    (hStop : ∀ i MI, lastNonDebugBefore Pre Pre.length = some i → Pre[i]? = some MI →
      MI.getOpcode ∉ [Opcode.B, Opcode.BEQ, Opcode.BNE, Opcode.BLE, Opcode.BGT]) :
    ∀ (Tail D : List MachineInstr) (fuel Count : Nat),
      (∀ x ∈ Tail, x.isDebugInstr = true ∨
        x.getOpcode ∈ [Opcode.B, Opcode.BEQ, Opcode.BNE, Opcode.BLE, Opcode.BGT]) →
      (∀ y ∈ D, y.isDebugInstr = true) →
      (Tail.filter (fun x => !x.isDebugInstr)).length < fuel →
      removeBranchLoop fuel (Pre ++ Tail ++ D) Count
        = some (Pre ++ Tail.filter (fun x => x.isDebugInstr) ++ D,
            Count + (Tail.filter (fun x => !x.isDebugInstr)).length) := by
  intro Tail
  induction Tail using List.reverseRecOn with
  | nil =>
    intro D fuel Count _ hD hfuel
    obtain ⟨f, rfl⟩ : ∃ f, fuel = f + 1 := ⟨fuel - 1, by omega⟩
    simp only [List.append_nil, List.filter_nil, List.length_nil, Nat.add_zero]
    rw [removeBranchLoop, lastNonDebugBefore_skip Pre D hD]
    cases hL : lastNonDebugBefore Pre Pre.length with
    | none => rfl
    | some i =>
      have hi : i < Pre.length := lastNonDebugBefore_lt _ _ _ hL
      simp only [List.getElem?_append_left hi]
      cases hG : Pre[i]? with
      | none =>
        rw [List.getElem?_eq_none_iff] at hG
        omega
      | some MI =>
        have hnb := (notBranch_iff MI.getOpcode).2 (hStop i MI hL hG)
        simp only [hnb, if_true]
  | append_singleton t x ih =>
    intro D fuel Count hTail hD hfuel
    have hT : ∀ z ∈ t, z.isDebugInstr = true ∨
        z.getOpcode ∈ [Opcode.B, Opcode.BEQ, Opcode.BNE, Opcode.BLE, Opcode.BGT] :=
      fun z hz => hTail z (by simp [hz])
    cases hx : x.isDebugInstr with
    | true =>
      have hD2 : ∀ y ∈ x :: D, y.isDebugInstr = true := by
        intro y hy
        rcases List.mem_cons.1 hy with h | h
        · rw [h]; exact hx
        · exact hD y h
      have h1 := ih (x :: D) fuel Count hT hD2 (by simpa [List.filter_append, hx] using hfuel)
      simpa [List.filter_append, hx] using h1
    | false =>
      have hbr : x.getOpcode ∈ [Opcode.B, Opcode.BEQ, Opcode.BNE, Opcode.BLE, Opcode.BGT] := by
        rcases hTail x (by simp) with h | h
        · rw [hx] at h; exact absurd h (by simp)
        · exact h
      have hlen : (List.filter (fun x => !x.isDebugInstr) (t ++ [x])).length
          = (List.filter (fun x => !x.isDebugInstr) t).length + 1 := by
        simp [List.filter_append, hx]
      obtain ⟨f, rfl⟩ : ∃ f, fuel = f + 1 := ⟨fuel - 1, by omega⟩
      have hshape : Pre ++ (t ++ [x]) ++ D = (Pre ++ t) ++ x :: D := by simp
      have hL : lastNonDebugBefore ((Pre ++ t) ++ x :: D) ((Pre ++ t) ++ x :: D).length
          = some (Pre ++ t).length := getLastNonDebugInstr_last (Pre ++ t) x D hx hD
      have hnb : (x.getOpcode != Opcode.B &&
          getCondFromBranchOpcode x.getOpcode == CondCodes.INVALID) = false := by
        cases h : (x.getOpcode != Opcode.B &&
          getCondFromBranchOpcode x.getOpcode == CondCodes.INVALID)
        · rfl
        · exact absurd hbr ((notBranch_iff _).1 h)
      rw [hshape, removeBranchLoop, hL]
      simp only [getElem_append_zero, hnb, eraseIdx_append_zero]
      have h1 := ih D f (Count + 1) hT hD (by omega)
      rw [hlen]
      simpa [List.filter_append, hx, Nat.add_assoc, Nat.add_comm 1] using h1

theorem stop_of_no_branch (Pre : List MachineInstr)
    (h : ∀ x ∈ Pre, x.getOpcode ∉ [Opcode.B, Opcode.BEQ, Opcode.BNE, Opcode.BLE, Opcode.BGT]) :
    ∀ i MI, lastNonDebugBefore Pre Pre.length = some i → Pre[i]? = some MI →
      MI.getOpcode ∉ [Opcode.B, Opcode.BEQ, Opcode.BNE, Opcode.BLE, Opcode.BGT] := by
  intro i MI _ hG
  exact h MI (List.getElem?_mem hG)

theorem stop_of_getLast (Pre : List MachineInstr)
    (h : ∀ t, Pre.getLast? = some t → t.isDebugInstr = false ∧
      t.getOpcode ∉ [Opcode.B, Opcode.BEQ, Opcode.BNE, Opcode.BLE, Opcode.BGT]) :
    ∀ i MI, lastNonDebugBefore Pre Pre.length = some i → Pre[i]? = some MI →
      MI.getOpcode ∉ [Opcode.B, Opcode.BEQ, Opcode.BNE, Opcode.BLE, Opcode.BGT] := by
  intro i MI hL hG
  rcases list_nil_or_snoc Pre with h0 | ⟨p, t, h0⟩
  · subst h0; simp at hG
  · subst h0
    have ht := h t (by simp)
    have hL2 := getLastNonDebugInstr_last p t [] ht.1 (by simp)
    unfold getLastNonDebugInstr at hL2
    rw [hL2] at hL
    have hi : p.length = i := by simpa using hL
    subst hi
    rw [getElem_append_zero] at hG
    have : t = MI := by simpa using hG
    subst this
    exact ht.2

theorem trailing_run_exists (MBB : List MachineInstr) :
    ∃ Pre Tail, MBB = Pre ++ Tail ∧
      (∀ x ∈ Tail, x.isDebugInstr = true ∨
        x.getOpcode ∈ [Opcode.B, Opcode.BEQ, Opcode.BNE, Opcode.BLE, Opcode.BGT]) ∧
      (∀ t, Pre.getLast? = some t → t.isDebugInstr = false ∧
        t.getOpcode ∉ [Opcode.B, Opcode.BEQ, Opcode.BNE, Opcode.BLE, Opcode.BGT]) := by
  induction MBB using List.reverseRecOn with
  | nil => exact ⟨[], [], rfl, by simp, by simp⟩
  | append_singleton m x ih =>
    obtain ⟨Pre, Tail, hm, hT, hP⟩ := ih
    by_cases hx : x.isDebugInstr = true ∨
        x.getOpcode ∈ [Opcode.B, Opcode.BEQ, Opcode.BNE, Opcode.BLE, Opcode.BGT]
    · refine ⟨Pre, Tail ++ [x], by rw [hm, List.append_assoc], ?_, hP⟩
      intro y hy
      rcases List.mem_append.1 hy with h | h
      · exact hT y h
      · have : y = x := by simpa using h
        rw [this]; exact hx
    · refine ⟨m ++ [x], [], by simp, by simp, ?_⟩
      intro t ht
      have : x = t := by simpa using ht
      subst this
      constructor
      · cases h : x.isDebugInstr
        · rfl
        · exact absurd (Or.inl h) hx
      · exact fun h => hx (Or.inr h)

theorem removeBranch_eq (Pre Tail : List MachineInstr)
    (hStop : ∀ i MI, lastNonDebugBefore Pre Pre.length = some i → Pre[i]? = some MI →
      MI.getOpcode ∉ [Opcode.B, Opcode.BEQ, Opcode.BNE, Opcode.BLE, Opcode.BGT])
    (hTail : ∀ x ∈ Tail, x.isDebugInstr = true ∨
        x.getOpcode ∈ [Opcode.B, Opcode.BEQ, Opcode.BNE, Opcode.BLE, Opcode.BGT]) :
    removeBranch (Pre ++ Tail) false
      = some (Pre ++ Tail.filter (fun x => x.isDebugInstr),
          (Tail.filter (fun x => !x.isDebugInstr)).length) := by
  have h := removeBranchLoop_spec Pre hStop Tail [] ((Pre ++ Tail).length + 1) 0 hTail (by simp)
    (by
      have := List.length_filter_le (fun x : MachineInstr => !x.isDebugInstr) Tail
      simp only [List.length_append]
      omega)
  simpa [removeBranch] using h

theorem eraseLoop_fall (MBB : List MachineInstr) (Last I : Nat) (S : MachineInstr)
    (hG : MBB[I]? = some S) (hS : isUncondBranchOpcode S.getOpcode = false) :
    eraseLoop MBB Last I = some (LoopExit.fall MBB I Last) := by
  cases I with
  | zero => simp only [eraseLoop, hG, hS]; simp
  | succ J => simp only [eraseLoop, hG, hS]; simp

theorem removeBranch_two (Pre : List MachineInstr) (A B : MachineInstr)
    (hPre : ∀ x ∈ Pre, x.getOpcode ∉ [Opcode.B, Opcode.BEQ, Opcode.BNE, Opcode.BLE, Opcode.BGT])
    (hA : A.getOpcode ∈ [Opcode.B, Opcode.BEQ, Opcode.BNE, Opcode.BLE, Opcode.BGT])
    (hB : B.getOpcode ∈ [Opcode.B, Opcode.BEQ, Opcode.BNE, Opcode.BLE, Opcode.BGT]) :
    removeBranch (Pre ++ [A, B]) false = some (Pre, 2) := by
  have h := removeBranch_eq Pre [A, B] (stop_of_no_branch Pre hPre) (by
    intro x hx
    simp only [List.mem_cons, List.mem_singleton, List.not_mem_nil, or_false] at hx
    rcases hx with h | h <;> subst h
    · exact Or.inr hA
    · exact Or.inr hB)
  simpa [isDebugInstr_of_branch A hA, isDebugInstr_of_branch B hB] using h

theorem removeBranch_one (Pre : List MachineInstr) (A : MachineInstr)
    (hPre : ∀ x ∈ Pre, x.getOpcode ∉ [Opcode.B, Opcode.BEQ, Opcode.BNE, Opcode.BLE, Opcode.BGT])
    (hA : A.getOpcode ∈ [Opcode.B, Opcode.BEQ, Opcode.BNE, Opcode.BLE, Opcode.BGT]) :
    removeBranch (Pre ++ [A]) false = some (Pre, 1) := by
  have h := removeBranch_eq Pre [A] (stop_of_no_branch Pre hPre) (by
    intro x hx
    simp only [List.mem_singleton] at hx
    subst hx
    exact Or.inr hA)
  simpa [isDebugInstr_of_branch A hA] using h

theorem isCond_of_mem (Opc : Opcode)
    (h : Opc ∈ [Opcode.BEQ, Opcode.BNE, Opcode.BLE, Opcode.BGT]) :
    isCondBranchOpcode Opc = true := by
  simp only [List.mem_cons, List.mem_singleton, List.not_mem_nil, or_false] at h
  rcases h with h | h | h | h <;> subst h <;> rfl

theorem getBranchFromCond_getCond (T : Opcode → MCInstrDesc) (Opc : Opcode)
    (h : Opc ∈ [Opcode.BEQ, Opcode.BNE, Opcode.BLE, Opcode.BGT]) :
    (CondCodes.ofImm (getCondFromBranchOpcode Opc).toImm).bind (getBranchFromCond T)
      = some (get T Opc) := by
  simp only [List.mem_cons, List.mem_singleton, List.not_mem_nil, or_false] at h
  rcases h with h | h | h | h <;> subst h <;> rfl

theorem insertBranch_cond (T : Opcode → MCInstrDesc) (MBB : List MachineInstr) (Opc : Opcode)
    (h : Opc ∈ [Opcode.BEQ, Opcode.BNE, Opcode.BLE, Opcode.BGT]) (Target DL : Nat)
    (FBB : Option Nat) (R1 R2 : Register) (D1 K1 D2 K2 : Bool) :
    insertBranch T MBB (some Target) FBB
        [MachineOperand.Imm (getCondFromBranchOpcode Opc).toImm, MachineOperand.Reg R1 D1 K1,
          MachineOperand.Reg R2 D2 K2] DL false
      = some (MBB ++ { MCID := get T Opc
                       Operands := [MachineOperand.Reg R1 false false,
                         MachineOperand.Reg R2 false false, MachineOperand.MBB Target]
                       DL := DL } ::
                (match FBB with
                 | none => []
                 | some F => [{ MCID := get T Opcode.B, Operands := [MachineOperand.MBB F],
                                DL := DL }]),
              match FBB with
              | none => 1
              | some _ => 2) := by
  simp only [List.mem_cons, List.mem_singleton, List.not_mem_nil, or_false] at h
  rcases h with h | h | h | h <;> subst h <;> cases FBB <;>
    simp [insertBranch, CondCodes.toImm, CondCodes.ofImm, getCondFromBranchOpcode,
      MachineOperand.getImm, MachineOperand.getReg, getBranchFromCond, buildB]

theorem analyzeBranch_cond_uncond (Pre : List MachineInstr) (C U : MachineInstr)
    (O1 O2 : MachineOperand) (Target F : Nat) (A : Bool)
    (hPre : ∀ t, Pre.getLast? = some t → isUnpredicatedTerminator t = false)
    (hT : isUnpredicatedTerminator C = true) (hC : isCondBranchOpcode C.getOpcode = true)
    (hCB : C.MCID.isConditionalBranch = true) (h0 : C.getOperand 0 = some O1)
    (h1 : C.getOperand 1 = some O2) (h2 : C.getOperand 2 = some (MachineOperand.MBB Target))
    (hTU : isUnpredicatedTerminator U = true) (hU : isUncondBranchOpcode U.getOpcode = true)
    (hF : branchTarget U = some F) :
    analyzeBranch { MBB := Pre ++ [C, U] } A
      = some (false, { MBB := Pre ++ [C, U], TBB := some Target, FBB := some F
                       Cond := [MachineOperand.Imm (getCondFromBranchOpcode C.getOpcode).toImm,
                         O1, O2] }) := by
  have hP := prevIsTerminator_false Pre hPre
  have hTwo : analyzeTwoTerminators { MBB := Pre ++ [C, U] } A Pre.length (Pre.length + 1)
      = some (false, { MBB := Pre ++ [C, U], TBB := some Target, FBB := some F
                       Cond := [MachineOperand.Imm (getCondFromBranchOpcode C.getOpcode).toImm,
                         O1, O2] }) := by
    simp only [analyzeTwoTerminators, getElem_append_one, getElem_append_zero,
      prevIsTerminator_append, hP, hC, hU, parseCondBranch, hCB, h0, h1, h2,
      MachineOperand.getMBB, MachineOperand.CreateImm, hF]
    simp
  simp only [analyzeBranch,
    getLastNonDebugInstr_last_two Pre C U [] (isDebugInstr_of_uncond U hU) (by simp),
    getElem_append_one, hTU, prevIsTerminator_succ, hT, hU, Nat.add_sub_cancel]
  cases A
  · simpa using hTwo
  · simp only [eraseLoop_fall _ _ _ C (getElem_append_zero _ _ _) (isUncond_of_cond _ hC)]
    simpa using hTwo

theorem analyzeBranch_single_cond (Pre : List MachineInstr) (C : MachineInstr)
    (O1 O2 : MachineOperand) (Target : Nat) (A : Bool)
    (hPre : ∀ t, Pre.getLast? = some t → isUnpredicatedTerminator t = false)
    (hT : isUnpredicatedTerminator C = true) (hC : isCondBranchOpcode C.getOpcode = true)
    (hCB : C.MCID.isConditionalBranch = true) (h0 : C.getOperand 0 = some O1)
    (h1 : C.getOperand 1 = some O2) (h2 : C.getOperand 2 = some (MachineOperand.MBB Target)) :
    analyzeBranch { MBB := Pre ++ [C] } A
      = some (false, { MBB := Pre ++ [C], TBB := some Target, FBB := none
                       Cond := [MachineOperand.Imm (getCondFromBranchOpcode C.getOpcode).toImm,
                         O1, O2] }) := by
  have hP := prevIsTerminator_false Pre hPre
  simp only [analyzeBranch, getLastNonDebugInstr_last Pre C [] (isDebugInstr_of_cond C hC) (by simp),
    getElem_append_zero, hT, prevIsTerminator_append, hP, hC, isUncond_of_cond _ hC,
    parseCondBranch, hCB, h0, h1, h2, MachineOperand.getMBB, MachineOperand.CreateImm]
  simp

theorem analyzeBranch_single_uncond (Pre : List MachineInstr) (U : MachineInstr)
    (Target : Nat) (A : Bool)
    (hPre : ∀ t, Pre.getLast? = some t → isUnpredicatedTerminator t = false)
    (hT : isUnpredicatedTerminator U = true) (hU : isUncondBranchOpcode U.getOpcode = true)
    (hTgt : branchTarget U = some Target) :
    analyzeBranch { MBB := Pre ++ [U] } A
      = some (false, { MBB := Pre ++ [U], TBB := some Target }) := by
  have hP := prevIsTerminator_false Pre hPre
  simp only [analyzeBranch, getLastNonDebugInstr_last Pre U [] (isDebugInstr_of_uncond U hU) (by simp),
    getElem_append_zero, hT, prevIsTerminator_append, hP, hU, hTgt]
  simp

theorem getLast_of_mem {α : Type} (Pre : List α) (P : α → Prop) (h : ∀ x ∈ Pre, P x) :
    ∀ t, Pre.getLast? = some t → P t :=
  fun t ht => h t (List.mem_of_getLast?_eq_some ht)

/-! ### The loop of analyzeBranch -/

theorem eraseLoop_run (Pre D : List MachineInstr)
    (hMax : ∀ t, Pre.getLast? = some t → isUnpredicatedTerminator t = true →
      isUncondBranchOpcode t.getOpcode = false) :
    ∀ (Us : List MachineInstr) (Y X U1 : MachineInstr),
      (∀ u ∈ Us, isUnpredicatedTerminator u = true ∧ isUncondBranchOpcode u.getOpcode = true) →
      isUncondBranchOpcode Y.getOpcode = true →
      (Us ++ [Y]).head? = some U1 →
      eraseLoop ((Pre ++ Us) ++ Y :: X :: D) ((Pre ++ Us).length + 1) (Pre ++ Us).length
        = some (if prevIsTerminator Pre Pre.length then
            LoopExit.fall (Pre ++ U1 :: D) (Pre.length - 1) Pre.length
          else LoopExit.ret (Pre ++ U1 :: D) Pre.length) := by
  intro Us
  induction Us using List.reverseRecOn with
  | nil =>
    intro Y X U1 _ hY hHead
    have hU1 : Y = U1 := by simpa using hHead
    subst hU1
    simp only [List.append_nil]
    rcases list_nil_or_snoc Pre with h | ⟨p, t, h⟩
    · subst h
      simp [eraseLoop, hY, prevIsTerminator]
    · subst h
      have hlen : (p ++ [t]).length = p.length + 1 := by simp
      have hshape : ∀ l : List MachineInstr, (p ++ [t]) ++ l = p ++ t :: l := by simp
      have hE : (p ++ t :: Y :: X :: D).eraseIdx (p.length + 1 + 1) = p ++ t :: Y :: D := by
        have h := eraseIdx_append_one (p ++ [t]) Y X D
        simpa using h
      have hG : (p ++ t :: Y :: X :: D)[p.length + 1]? = some Y := getElem_append_one _ _ _ _
      rw [prevIsTerminator_getLast (p ++ [t]) t (by simp), hlen, hshape, hshape, eraseLoop]
      simp only [hG, hY, if_true, hE, prevIsTerminator_succ, Nat.add_sub_cancel]
      cases hT : isUnpredicatedTerminator t with
      | false => simp
      | true =>
        have ht := hMax t (by simp) hT
        simp only [Bool.not_true, if_false, if_true]
        rw [eraseLoop_fall _ _ _ t (getElem_append_zero _ _ _) ht]
        simp
  | append_singleton us z ih =>
    intro Y X U1 hUs hY hHead
    have hz := hUs z (by simp)
    have hus : ∀ u ∈ us, isUnpredicatedTerminator u = true ∧
        isUncondBranchOpcode u.getOpcode = true := fun u hu => hUs u (by simp [hu])
    have hHead2 : (us ++ [z]).head? = some U1 := by
      cases us with
      | nil => simpa using hHead
      | cons a l => simpa using hHead
    have hlen : (Pre ++ (us ++ [z])).length = (Pre ++ us).length + 1 := by
      simp only [List.length_append, List.length_singleton]; omega
    have hshape : ∀ l : List MachineInstr, (Pre ++ (us ++ [z])) ++ l = (Pre ++ us) ++ z :: l := by
      simp
    have hE : ((Pre ++ us) ++ z :: Y :: X :: D).eraseIdx ((Pre ++ us).length + 1 + 1)
        = (Pre ++ us) ++ z :: Y :: D := by
      have h := eraseIdx_append_one ((Pre ++ us) ++ [z]) Y X D
      simpa using h
    have hG : ((Pre ++ us) ++ z :: Y :: X :: D)[(Pre ++ us).length + 1]? = some Y :=
      getElem_append_one _ _ _ _
    rw [hlen, hshape, eraseLoop]
    simp only [hG, hY, if_true, hE, prevIsTerminator_succ, hz.1, Bool.not_true, if_false]
    exact ih z Y U1 hus hz.2 hHead2

theorem analyzeTwoTerminators_keeps (s : BranchInfo) (A : Bool) (I Last : Nat)
    (S L : MachineInstr) (hS : s.MBB[I]? = some S) (hL : s.MBB[Last]? = some L)
    (hNU : isUncondBranchOpcode S.getOpcode = false)
    (hWF : isCondBranchOpcode S.getOpcode = true → (parseCondBranch S s.Cond).isSome = true)
    (hTgt : (branchTarget L).isSome = true) :
    ∃ r, analyzeTwoTerminators s A I Last = some r ∧ r.2.MBB = s.MBB := by
  have hNI : isIndirectBranchOpcode S.getOpcode = false := hNU
  simp only [analyzeTwoTerminators, hS, hL, hNU, hNI, Bool.false_and]
  cases hThird : prevIsTerminator s.MBB I with
  | true => exact ⟨(true, s), by simp, rfl⟩
  | false =>
    cases hC : isCondBranchOpcode S.getOpcode with
    | false => exact ⟨(true, s), by simp, rfl⟩
    | true =>
      cases hUL : isUncondBranchOpcode L.getOpcode with
      | false => exact ⟨(true, s), by simp, rfl⟩
      | true =>
        obtain ⟨pc, hpc⟩ := Option.isSome_iff_exists.1 (hWF hC)
        obtain ⟨tg, htg⟩ := Option.isSome_iff_exists.1 hTgt
        exact ⟨(false, { s with TBB := some pc.1, FBB := some tg, Cond := pc.2 }),
          by simp [hpc, htg], rfl⟩

theorem parseCondBranch_isSome (C : MachineInstr) (Cond : List MachineOperand)
    (hCB : C.MCID.isConditionalBranch = true)
    (hOps : ∃ O1 O2 Target, C.getOperand 0 = some O1 ∧ C.getOperand 1 = some O2 ∧
      C.getOperand 2 = some (MachineOperand.MBB Target)) :
    (parseCondBranch C Cond).isSome = true := by
  obtain ⟨O1, O2, Target, h0, h1, h2⟩ := hOps
  simp [parseCondBranch, hCB, h0, h1, h2, MachineOperand.getMBB]

theorem run_last_two {α : Type} (U1 : α) (Rest : List α) (h : Rest ≠ []) :
    ∃ Us Y X, U1 :: Rest = Us ++ [Y, X] ∧ (Us ++ [Y]).head? = some U1 := by
  rcases list_nil_or_snoc Rest with h0 | ⟨r, X, h0⟩
  · exact absurd h0 h
  · subst h0
    rcases list_nil_or_snoc (U1 :: r) with h1 | ⟨q, Y, h1⟩
    · simp at h1
    · refine ⟨q, Y, X, ?_, ?_⟩
      · rw [← List.cons_append, h1]; simp
      · rw [← h1]; rfl

/-! ### Frame arithmetic -/

theorem take_one_add {α : Type} (a : α) (Spills Rest : List α) (n : Nat)
    (h : Spills.length = n) : List.take (1 + n) (a :: (Spills ++ Rest)) = a :: Spills := by
  rw [Nat.add_comm, List.take_succ_cons, ← h, List.take_left]

theorem drop_one_add {α : Type} (a : α) (Spills Rest : List α) (n : Nat)
    (h : Spills.length = n) : List.drop (1 + n) (a :: (Spills ++ Rest)) = Rest := by
  rw [Nat.add_comm, List.drop_succ_cons, ← h, List.drop_left]

theorem alignTo_one (S : Nat) (h : S < 2 ^ 64) : alignTo S getStackAlign = S := by
  unfold alignTo getStackAlign
  simp only [Nat.add_sub_cancel, Nat.div_one, Nat.mul_one, Nat.mod_mod]
  exact Nat.mod_eq_of_lt h

theorem truncToInt_neg (N : Nat) (h : N ≤ 32768) :
    truncToInt ((2 ^ 64 - N) % 2 ^ 64) = -(N : Int) := by
  unfold truncToInt
  norm_num
  split_ifs <;> omega

theorem truncToInt_small (N : Nat) (h : N ≤ 32768) : truncToInt N = (N : Int) := by
  unfold truncToInt
  norm_num
  split_ifs <;> omega

theorem isInt16_neg (N : Nat) (h : N ≤ 32768) : isInt 16 (-(N : Int)) = true := by
  unfold isInt
  norm_num
  omega

theorem isInt16_pos (N : Nat) (h : N ≤ 32767) : isInt 16 (N : Int) = true := by
  unfold isInt
  norm_num
  omega

theorem emitPrologue_emits (T : Opcode → MCInstrDesc) (MF : MachineFunction)
    (Spills Rest : List MachineInstr) (Others : List (List MachineInstr))
    (hBlocks : MF.Blocks = (Spills ++ Rest) :: Others)
    (hSpills : Spills.length = MF.FrameInfo.CSInfo.length)
    (hRealign : (MF.ShouldRealignStack && !MF.CanRealignStack) = false)
    (hEmit : MF.FrameInfo.StackSize / 4 ≠ 0 ∨ MF.FrameInfo.AdjustsStack = true)
    (hSize : MF.FrameInfo.StackSize / 4 ≤ 32767)
    (hVar : MF.FuncInfo.VarArgsSaveSize = 0) :
    emitPrologue T MF 0
      = some { MF with
          FrameInfo := { MF.FrameInfo with StackSize := MF.FrameInfo.StackSize / 4 }
          Blocks :=
            (if hasFP MF then
              [{ MCID := get T Opcode.ADDi
                 Operands := [MachineOperand.Reg SIM.SP true false,
                   MachineOperand.Reg SIM.SP false false,
                   MachineOperand.Imm (-((MF.FrameInfo.StackSize / 4 : Nat) : Int))]
                 Flags := MIFlag.FrameSetup
                 DL := 0 }] ++ Spills ++
              [{ MCID := get T Opcode.ADDi
                 Operands := [MachineOperand.Reg SIM.FP true false,
                   MachineOperand.Reg SIM.SP false false,
                   MachineOperand.Imm ((MF.FrameInfo.StackSize / 4 : Nat) : Int)]
                 Flags := MIFlag.FrameSetup
                 DL := 0 }] ++ Rest
            else
              [{ MCID := get T Opcode.ADDi
                 Operands := [MachineOperand.Reg SIM.SP true false,
                   MachineOperand.Reg SIM.SP false false,
                   MachineOperand.Imm (-((MF.FrameInfo.StackSize / 4 : Nat) : Int))]
                 Flags := MIFlag.FrameSetup
                 DL := 0 }] ++ Spills ++ Rest) :: Others } := by
  obtain ⟨Blocks, FI, FuncInfo, DFPE, SRS, CRS, Used⟩ := MF
  obtain ⟨S, AS, HC, HV, FAT, CSI, OA, NFO, Objs⟩ := FI
  simp only at hBlocks hSpills hRealign hEmit hSize hVar
  subst hBlocks
  have hS : S < 2 ^ 64 := by
    have : S < 4 * 32768 := by omega
    exact lt_of_lt_of_le this (by norm_num)
  have hle : S / 4 ≤ 32768 := by omega
  have hskip : (S / 4 == 0 && !AS) = false := by
    rcases hEmit with h | h
    · simp [h]
    · simp [h]
  have hU : toUInt64 (Int.tdiv 0 4) = 0 := by decide
  have hmod : (S / 4 + 2 ^ 64 - 0) % 2 ^ 64 = S / 4 := by
    have : S / 4 < 2 ^ 64 := lt_of_le_of_lt hle (by norm_num)
    rw [Nat.sub_zero, Nat.add_mod_right]
    exact Nat.mod_eq_of_lt this
  have htake := fun a : MachineInstr => take_one_add a Spills Rest CSI.length hSpills
  have hdrop := fun a : MachineInstr => drop_one_add a Spills Rest CSI.length hSpills
  have hlen : ¬ (Spills.length + Rest.length + 1 < 1 + CSI.length) := by omega
  simp only [emitPrologue, hRealign, alignTo_one S hS, hskip, emitRegAdjustment,
    truncToInt_neg _ hle, isInt16_neg _ hle, List.take_zero, List.drop_zero, List.nil_append,
    hVar, hU, hmod, truncToInt_small _ hle, isInt16_pos _ hSize, htake, hdrop,
    List.length_cons, List.length_append, hlen, hasFP, hasStackRealignment]
  cases hFP : (DFPE || SRS && CRS || HV || FAT) <;> simp [htake, hdrop] <;> omega

theorem tdiv_four_cases (o : Int) :
    (0 ≤ o ∧ o.tdiv 4 = o / 4) ∨ (o < 0 ∧ o.tdiv 4 = -((-o) / 4)) := by
  rcases le_or_lt 0 o with h | h
  · exact Or.inl ⟨h, Int.tdiv_eq_ediv h (by decide)⟩
  · refine Or.inr ⟨h, ?_⟩
    have h1 : o = -(-o) := by omega
    rw [h1, Int.neg_tdiv, Int.tdiv_eq_ediv (by omega) (by decide)]
    simp

theorem wrapInt32_id (x : Int) (h1 : -2147483648 ≤ x) (h2 : x < 2147483648) :
    wrapInt 32 x = x := by
  unfold wrapInt
  norm_num
  omega

theorem wrapInt64_sum (F : Int) (S : Nat) (h1 : -2147483648 ≤ F) (h2 : F < 2147483648)
    (h3 : S < 2147483648) :
    wrapInt 64 (((toUInt64 F + S) % 2 ^ 64 : Nat) : Int) = F + S := by
  unfold wrapInt toUInt64
  norm_num
  omega

theorem emitPrologue_inv (T : Opcode → MCInstrDesc) (MF MF1 : MachineFunction)
    (h : emitPrologue T MF 0 = some MF1) :
    MF1.FrameInfo = { MF.FrameInfo with
      StackSize := alignTo MF.FrameInfo.StackSize getStackAlign / 4 } ∧
    MF1.FuncInfo = MF.FuncInfo ∧
    MF1.DisableFramePointerElim = MF.DisableFramePointerElim ∧
    MF1.ShouldRealignStack = MF.ShouldRealignStack ∧
    MF1.CanRealignStack = MF.CanRealignStack ∧
    MF1.UsedPhysRegs = MF.UsedPhysRegs ∧
    ((alignTo MF.FrameInfo.StackSize getStackAlign / 4 == 0 && !MF.FrameInfo.AdjustsStack) = true →
      MF1.Blocks = MF.Blocks) ∧
    ((alignTo MF.FrameInfo.StackSize getStackAlign / 4 == 0 && !MF.FrameInfo.AdjustsStack) = false →
      isInt 16 (truncToInt
        ((2 ^ 64 - alignTo MF.FrameInfo.StackSize getStackAlign / 4) % 2 ^ 64)) = true ∧
      ∃ Tail Others, MF1.Blocks =
        ({ MCID := get T Opcode.ADDi
           Operands := [MachineOperand.Reg SIM.SP true false,
             MachineOperand.Reg SIM.SP false false,
             MachineOperand.Imm (truncToInt
               ((2 ^ 64 - alignTo MF.FrameInfo.StackSize getStackAlign / 4) % 2 ^ 64))]
           Flags := MIFlag.FrameSetup
           DL := 0 } :: Tail) :: Others) := by
  unfold emitPrologue at h
  split at h
  · exact absurd h (by simp)
  · rename_i Entry Others hB
    simp only [bne_self_eq_false, Bool.false_eq_true, if_false] at h
    split at h
    · exact absurd h (by simp)
    · split at h
      · rename_i hskip
        simp only [Option.some.injEq] at h
        subst h
        exact ⟨rfl, rfl, rfl, rfl, rfl, rfl, fun _ => rfl, fun hn => by
          rw [hn] at hskip; exact absurd hskip (by simp)⟩
      · rename_i hskip
        have hskip2 : (alignTo MF.FrameInfo.StackSize getStackAlign / 4 == 0 &&
            !MF.FrameInfo.AdjustsStack) = false := by
          simpa using hskip
        unfold emitRegAdjustment at h
        split at h
        · exact absurd h (by simp)
        · rename_i Entry1 hE1
          split at hE1
          · exact absurd hE1 (by simp)
          · rename_i hI16
            simp only [List.take_zero, List.drop_zero, List.nil_append, Option.some.injEq] at hE1
            subst hE1
            have hI : isInt 16 (truncToInt
                ((2 ^ 64 - alignTo MF.FrameInfo.StackSize getStackAlign / 4) % 2 ^ 64)) = true := by
              simpa using hI16
            split at h
            · exact absurd h (by simp)
            · split at h
              · simp only [Option.some.injEq] at h
                subst h
                exact ⟨rfl, rfl, rfl, rfl, rfl, rfl, fun hy => by
                  rw [hskip2] at hy; exact absurd hy (by simp), fun _ => ⟨hI, Entry, Others, rfl⟩⟩
              · split at h
                · exact absurd h (by simp)
                · rename_i Entry2 hE2
                  split at hE2
                  · exact absurd hE2 (by simp)
                  · simp only [Option.some.injEq] at hE2 h
                    subst h
                    subst hE2
                    refine ⟨rfl, rfl, rfl, rfl, rfl, rfl, fun hy => by
                      rw [hskip2] at hy; exact absurd hy (by simp), fun _ => ⟨hI, ?_⟩⟩
                    rw [Nat.add_comm 1, List.take_succ_cons]
                    exact ⟨_, Others, rfl⟩

/-! ### Claims -/

/-- C1 (the code fails the claim): the trailing terminators of the block
`ADDi; BEQ R5, R6 -> bb1; DBG_VALUE; B -> bb2` are exactly `BEQ -> bb1; B -> bb2`,
with no terminator before them and a debug instruction between them.
`analyzeBranch`, with or without the permission to modify, steps back from the
`B` onto the debug instruction (the `--I` of line 213 skips no debug
instruction), takes the `B` for the only terminator and reports TBB = bb2, no
FBB and an empty Cond.  `removeBranch`, which skips debug instructions on every
step, removes both branches and returns 2.  `insertBranch` with what
`analyzeBranch` reported appends the `B` alone and returns 1: the conditional
branch is lost.  Without the debug instruction the same terminators are
reported as TBB = bb1, FBB = bb2 and the condition EQ on R5 and R6. -/
theorem branch_roundtrip_debug :
    analyzeBranch { MBB := [sampleAdd, sampleBcc Opcode.BEQ 5 6 1, sampleDbg, sampleB 2] } false
      = some (false, { MBB := [sampleAdd, sampleBcc Opcode.BEQ 5 6 1, sampleDbg, sampleB 2]
                       TBB := some 2, FBB := none, Cond := [] }) ∧
    analyzeBranch { MBB := [sampleAdd, sampleBcc Opcode.BEQ 5 6 1, sampleDbg, sampleB 2] } true
      = some (false, { MBB := [sampleAdd, sampleBcc Opcode.BEQ 5 6 1, sampleDbg, sampleB 2]
                       TBB := some 2, FBB := none, Cond := [] }) ∧
    removeBranch [sampleAdd, sampleBcc Opcode.BEQ 5 6 1, sampleDbg, sampleB 2] false
      = some ([sampleAdd, sampleDbg], 2) ∧
    insertBranch sampleTable [sampleAdd, sampleDbg] (some 2) none [] 0 false
      = some ([sampleAdd, sampleDbg, sampleB 2], 1) ∧
    analyzeBranch { MBB := [sampleAdd, sampleBcc Opcode.BEQ 5 6 1, sampleB 2] } false
      = some (false, { MBB := [sampleAdd, sampleBcc Opcode.BEQ 5 6 1, sampleB 2]
                       TBB := some 1, FBB := some 2
                       Cond := [MachineOperand.Imm CondCodes.EQ.toImm,
                         MachineOperand.Reg (Register.R 5) false false,
                         MachineOperand.Reg (Register.R 6) false true] }) ∧
    isUnpredicatedTerminator sampleAdd = false ∧
    isUnpredicatedTerminator (sampleBcc Opcode.BEQ 5 6 1) = true ∧
    isUnpredicatedTerminator sampleDbg = false ∧
    isUnpredicatedTerminator (sampleB 2) = true :=
  ⟨by decide, by decide, by decide, by decide, by decide, rfl, rfl, rfl, rfl⟩

/-- The round trip of the three branch hooks on a block that ends with its
terminators: for a block whose last instructions are `Bcc R1, R2 -> T`, or
`Bcc R1, R2 -> T; B -> F`, or `B -> T`, with Bcc one of BEQ, BNE, BLE, BGT, no
debug instruction after or between them, and neither a terminator nor a branch
before them: `analyzeBranch` (with or without permission to modify) reports the
block analyzable with (TBB, FBB, Cond) read from those terminators;
`removeBranch` then removes exactly those terminators; and `insertBranch` with
that (TBB, FBB, Cond) appends instructions of the same opcodes, on the same two
condition registers and to the same targets, and returns the count that
`removeBranch` returned. -/
theorem branch_roundtrip (T : Opcode → MCInstrDesc) (Pre : List MachineInstr) (DL : Nat)
    (AllowModify : Bool)
    (hPre : ∀ x ∈ Pre, isUnpredicatedTerminator x = false ∧
      x.getOpcode ∉ [Opcode.B, Opcode.BEQ, Opcode.BNE, Opcode.BLE, Opcode.BGT]) :
    (∀ (C : MachineInstr) (R1 R2 : Register) (D1 K1 D2 K2 : Bool) (Target : Nat),
      C.getOpcode ∈ [Opcode.BEQ, Opcode.BNE, Opcode.BLE, Opcode.BGT] →
      isUnpredicatedTerminator C = true → C.MCID.isConditionalBranch = true →
      C.Operands = [MachineOperand.Reg R1 D1 K1, MachineOperand.Reg R2 D2 K2,
        MachineOperand.MBB Target] →
      ∃ Cond, analyzeBranch { MBB := Pre ++ [C] } AllowModify
          = some (false, { MBB := Pre ++ [C], TBB := some Target, FBB := none, Cond := Cond }) ∧
        removeBranch (Pre ++ [C]) false = some (Pre, 1) ∧
        insertBranch T Pre (some Target) none Cond DL false
          = some (Pre ++ [{ MCID := get T C.getOpcode
                            Operands := [MachineOperand.Reg R1 false false,
                              MachineOperand.Reg R2 false false, MachineOperand.MBB Target]
                            DL := DL }], 1) ∧
        (get T C.getOpcode).Opcode = C.getOpcode) ∧
    (∀ (C U : MachineInstr) (R1 R2 : Register) (D1 K1 D2 K2 : Bool) (Target F : Nat),
      C.getOpcode ∈ [Opcode.BEQ, Opcode.BNE, Opcode.BLE, Opcode.BGT] →
      isUnpredicatedTerminator C = true → C.MCID.isConditionalBranch = true →
      C.Operands = [MachineOperand.Reg R1 D1 K1, MachineOperand.Reg R2 D2 K2,
        MachineOperand.MBB Target] →
      U.getOpcode = Opcode.B → isUnpredicatedTerminator U = true →
      U.Operands = [MachineOperand.MBB F] →
      ∃ Cond, analyzeBranch { MBB := Pre ++ [C, U] } AllowModify
          = some (false, { MBB := Pre ++ [C, U], TBB := some Target, FBB := some F
                           Cond := Cond }) ∧
        removeBranch (Pre ++ [C, U]) false = some (Pre, 2) ∧
        insertBranch T Pre (some Target) (some F) Cond DL false
          = some (Pre ++ [{ MCID := get T C.getOpcode
                            Operands := [MachineOperand.Reg R1 false false,
                              MachineOperand.Reg R2 false false, MachineOperand.MBB Target]
                            DL := DL },
                          { MCID := get T U.getOpcode, Operands := [MachineOperand.MBB F],
                            DL := DL }], 2) ∧
        (get T C.getOpcode).Opcode = C.getOpcode ∧ (get T U.getOpcode).Opcode = U.getOpcode) ∧
    (∀ (U : MachineInstr) (Target : Nat),
      U.getOpcode = Opcode.B → isUnpredicatedTerminator U = true →
      U.Operands = [MachineOperand.MBB Target] →
      ∃ Cond, analyzeBranch { MBB := Pre ++ [U] } AllowModify
          = some (false, { MBB := Pre ++ [U], TBB := some Target, FBB := none, Cond := Cond }) ∧
        removeBranch (Pre ++ [U]) false = some (Pre, 1) ∧
        insertBranch T Pre (some Target) none Cond DL false
          = some (Pre ++ [{ MCID := get T U.getOpcode, Operands := [MachineOperand.MBB Target],
                            DL := DL }], 1) ∧
        (get T U.getOpcode).Opcode = U.getOpcode) := by
  have hLast : ∀ t, Pre.getLast? = some t → isUnpredicatedTerminator t = false :=
    getLast_of_mem Pre _ (fun x hx => (hPre x hx).1)
  have hNoBr : ∀ x ∈ Pre,
      x.getOpcode ∉ [Opcode.B, Opcode.BEQ, Opcode.BNE, Opcode.BLE, Opcode.BGT] :=
    fun x hx => (hPre x hx).2
  have hsub : ∀ Opc : Opcode, Opc ∈ [Opcode.BEQ, Opcode.BNE, Opcode.BLE, Opcode.BGT] →
      Opc ∈ [Opcode.B, Opcode.BEQ, Opcode.BNE, Opcode.BLE, Opcode.BGT] :=
    fun Opc h => List.mem_cons_of_mem _ h
  refine ⟨?_, ?_, ?_⟩
  · intro C R1 R2 D1 K1 D2 K2 Target hOp hT hCB hOps
    refine ⟨_, analyzeBranch_single_cond Pre C (MachineOperand.Reg R1 D1 K1)
      (MachineOperand.Reg R2 D2 K2) Target AllowModify hLast hT
      (isCond_of_mem _ hOp) hCB (by simp [getOperand_eq, hOps]) (by simp [getOperand_eq, hOps])
      (by simp [getOperand_eq, hOps]), removeBranch_one Pre C hNoBr (hsub _ hOp), ?_, rfl⟩
    exact insertBranch_cond T Pre C.getOpcode hOp Target DL none R1 R2 D1 K1 D2 K2
  · intro C U R1 R2 D1 K1 D2 K2 Target F hOp hT hCB hOps hU hTU hUOps
    refine ⟨_, analyzeBranch_cond_uncond Pre C U (MachineOperand.Reg R1 D1 K1)
      (MachineOperand.Reg R2 D2 K2) Target F AllowModify hLast hT
      (isCond_of_mem _ hOp) hCB (by simp [getOperand_eq, hOps]) (by simp [getOperand_eq, hOps])
      (by simp [getOperand_eq, hOps]) hTU (by simp [hU, isUncondBranchOpcode])
      (by simp [branchTarget, getOperand_eq, hUOps, MachineOperand.getMBB]),
      removeBranch_two Pre C U hNoBr (hsub _ hOp) (by simp [hU]), ?_, rfl, rfl⟩
    rw [hU]
    exact insertBranch_cond T Pre C.getOpcode hOp Target DL (some F) R1 R2 D1 K1 D2 K2
  · intro U Target hU hTU hUOps
    refine ⟨[], analyzeBranch_single_uncond Pre U Target AllowModify hLast hTU
      (by simp [hU, isUncondBranchOpcode])
      (by simp [branchTarget, getOperand_eq, hUOps, MachineOperand.getMBB]),
      removeBranch_one Pre U hNoBr (by simp [hU]), ?_, rfl⟩
    rw [hU]
    rfl

/-- The round trip at the block `ADDi; BLE R5, R6, bb7; B bb8`. -/
theorem branch_roundtrip_witness :
    ∃ Cond, analyzeBranch { MBB := [sampleAdd] ++ [sampleBcc Opcode.BLE 5 6 7, sampleB 8] } true
        = some (false, { MBB := [sampleAdd] ++ [sampleBcc Opcode.BLE 5 6 7, sampleB 8]
                         TBB := some 7
                         FBB := some 8
                         Cond := Cond }) ∧
      removeBranch ([sampleAdd] ++ [sampleBcc Opcode.BLE 5 6 7, sampleB 8]) false
        = some ([sampleAdd], 2) ∧
      insertBranch sampleTable [sampleAdd] (some 7) (some 8) Cond 0 false
        = some ([sampleAdd] ++ [{ MCID := get sampleTable (sampleBcc Opcode.BLE 5 6 7).getOpcode
                                  Operands := [MachineOperand.Reg (Register.R 5) false false,
                                    MachineOperand.Reg (Register.R 6) false false,
                                    MachineOperand.MBB 7]
                                  DL := 0 },
                                { MCID := get sampleTable (sampleB 8).getOpcode
                                  Operands := [MachineOperand.MBB 8], DL := 0 }], 2) ∧
      (get sampleTable (sampleBcc Opcode.BLE 5 6 7).getOpcode).Opcode
        = (sampleBcc Opcode.BLE 5 6 7).getOpcode ∧
      (get sampleTable (sampleB 8).getOpcode).Opcode = (sampleB 8).getOpcode :=
  (branch_roundtrip sampleTable [sampleAdd] 0 true
    (fun x hx => by simp at hx; subst hx; exact ⟨rfl, by decide⟩)).2.1
    (sampleBcc Opcode.BLE 5 6 7) (sampleB 8) (Register.R 5) (Register.R 6) false false false true
    7 8 (by decide) rfl rfl rfl rfl rfl rfl

/-- C3: every block is a prefix followed by a maximal trailing run of branch
instructions (B, BEQ, BNE, BLE, BGT) and debug instructions, the prefix being
empty or ending in an instruction that is neither; `removeBranch` deletes
exactly the branches of that run, keeps the debug instructions of the run and
the prefix in their order, and returns the number of instructions deleted.  In
particular, when the only terminators of a block are its last two
instructions `BEQ; B`, it returns 2 and the block is left without a
terminator. -/
theorem removeBranch_trailing_run :
    (∀ MBB : List MachineInstr, ∃ Pre Tail, MBB = Pre ++ Tail ∧
      (∀ x ∈ Tail, x.isDebugInstr = true ∨
        x.getOpcode ∈ [Opcode.B, Opcode.BEQ, Opcode.BNE, Opcode.BLE, Opcode.BGT]) ∧
      (∀ t, Pre.getLast? = some t → t.isDebugInstr = false ∧
        t.getOpcode ∉ [Opcode.B, Opcode.BEQ, Opcode.BNE, Opcode.BLE, Opcode.BGT]) ∧
      removeBranch MBB false
        = some (Pre ++ Tail.filter (fun x => x.isDebugInstr),
            (Tail.filter (fun x => !x.isDebugInstr)).length)) ∧
    (∀ (Pre : List MachineInstr) (Beq Br : MachineInstr),
      (∀ x ∈ Pre, isUnpredicatedTerminator x = false ∧
        x.getOpcode ∉ [Opcode.B, Opcode.BEQ, Opcode.BNE, Opcode.BLE, Opcode.BGT]) →
      Beq.getOpcode = Opcode.BEQ → Br.getOpcode = Opcode.B →
      ∃ MBB, removeBranch (Pre ++ [Beq, Br]) false = some (MBB, 2) ∧ MBB = Pre ∧
        ∀ x ∈ MBB, isUnpredicatedTerminator x = false) := by
  constructor
  · intro MBB
    obtain ⟨Pre, Tail, hM, hT, hP⟩ := trailing_run_exists MBB
    refine ⟨Pre, Tail, hM, hT, hP, ?_⟩
    rw [hM]
    exact removeBranch_eq Pre Tail (stop_of_getLast Pre hP) hT
  · intro Pre Beq Br hPre hBeq hBr
    refine ⟨Pre, ?_, rfl, fun x hx => (hPre x hx).1⟩
    exact removeBranch_two Pre Beq Br (fun x hx => (hPre x hx).2) (by simp [hBeq]) (by simp [hBr])

/-- Witness of C3 at the block `ADDi; BEQ R5, R6, bb7; B bb8`. -/
theorem removeBranch_trailing_run_witness :
    ∃ MBB, removeBranch ([sampleAdd] ++ [sampleBcc Opcode.BEQ 5 6 7, sampleB 8]) false
        = some (MBB, 2) ∧ MBB = [sampleAdd] ∧
      ∀ x ∈ MBB, isUnpredicatedTerminator x = false :=
  removeBranch_trailing_run.2 [sampleAdd] (sampleBcc Opcode.BEQ 5 6 7) (sampleB 8)
    (fun x hx => by simp at hx; subst hx; exact ⟨rfl, by decide⟩) rfl rfl

/-- C4: for a target TBB, `insertBranch` appends to the end of the block, the
instructions already there being kept: (a) with an empty Cond one `B` to TBB,
a non-null FBB being rejected; (b) with Cond = [kind, R1, R2], kind one of EQ,
NE, LE, GT, and no FBB, the conditional branch of the opcode of the kind on
(R1, R2) to TBB; (c) with an FBB that conditional branch and then one `B` to
FBB.  The returned count is 1, 1 and 2: the number of instructions appended. -/
theorem insertBranch_appends (T : Opcode → MCInstrDesc) (MBB : List MachineInstr)
    (Target DL : Nat) :
    insertBranch T MBB (some Target) none [] DL false
      = some (MBB ++ [{ MCID := get T Opcode.B, Operands := [MachineOperand.MBB Target], DL := DL }],
          1) ∧
    (∀ F : Nat, insertBranch T MBB (some Target) (some F) [] DL false = none) ∧
    (∀ (CC : CondCodes) (R1 R2 : Register) (D1 K1 D2 K2 : Bool),
      CC ∈ [CondCodes.EQ, CondCodes.NE, CondCodes.LE, CondCodes.GT] →
      ∃ Desc : MCInstrDesc, getBranchFromCond T CC = some Desc ∧
        getCondFromBranchOpcode Desc.Opcode = CC ∧
        insertBranch T MBB (some Target) none
            [MachineOperand.Imm CC.toImm, MachineOperand.Reg R1 D1 K1, MachineOperand.Reg R2 D2 K2]
            DL false
          = some (MBB ++ [{ MCID := Desc
                            Operands := [MachineOperand.Reg R1 false false,
                              MachineOperand.Reg R2 false false, MachineOperand.MBB Target]
                            DL := DL }], 1) ∧
        ∀ F : Nat, insertBranch T MBB (some Target) (some F)
            [MachineOperand.Imm CC.toImm, MachineOperand.Reg R1 D1 K1, MachineOperand.Reg R2 D2 K2]
            DL false
          = some (MBB ++ [{ MCID := Desc
                            Operands := [MachineOperand.Reg R1 false false,
                              MachineOperand.Reg R2 false false, MachineOperand.MBB Target]
                            DL := DL },
                          { MCID := get T Opcode.B, Operands := [MachineOperand.MBB F], DL := DL }],
              2)) := by
  refine ⟨rfl, fun F => rfl, ?_⟩
  intro CC R1 R2 D1 K1 D2 K2 h
  simp only [List.mem_cons, List.mem_singleton, List.not_mem_nil, or_false] at h
  rcases h with h | h | h | h <;> subst h <;>
    exact ⟨_, rfl, rfl, rfl, fun F => by simp [insertBranch, CondCodes.toImm, CondCodes.ofImm,
      MachineOperand.getImm, MachineOperand.getReg, getBranchFromCond, buildB]⟩

/-- Witness of C4: `LE R1, R2` with both targets, appended to `ADDi`. -/
theorem insertBranch_appends_witness :
    ∃ Desc : MCInstrDesc, getBranchFromCond sampleTable CondCodes.LE = some Desc ∧
      getCondFromBranchOpcode Desc.Opcode = CondCodes.LE ∧
      insertBranch sampleTable [sampleAdd] (some 3) (some 4)
          [MachineOperand.Imm CondCodes.LE.toImm, MachineOperand.Reg (Register.R 1) false false,
            MachineOperand.Reg (Register.R 2) false true] 0 false
        = some ([sampleAdd] ++ [{ MCID := Desc
                                  Operands := [MachineOperand.Reg (Register.R 1) false false,
                                    MachineOperand.Reg (Register.R 2) false false,
                                    MachineOperand.MBB 3]
                                  DL := 0 },
                                { MCID := get sampleTable Opcode.B
                                  Operands := [MachineOperand.MBB 4], DL := 0 }], 2) :=
  match (insertBranch_appends sampleTable [sampleAdd] 3 0).2.2 CondCodes.LE (Register.R 1)
      (Register.R 2) false false false true (by decide) with
  | ⟨Desc, h1, h2, _, h4⟩ => ⟨Desc, h1, h2, h4 4⟩

/-- C5: `reverseBranchCondition` replaces the condition kind of `Cond[0]` by
its negation (EQ and NE, LT and GE, GT and LE are exchanged), leaves the two
operand entries as they are and reports success (`false`); and applying it
twice gives the original vector back, for each of the six condition kinds. -/
theorem reverseBranchCondition_involution (O1 O2 : MachineOperand) :
    reverseBranchCondition [MachineOperand.Imm CondCodes.EQ.toImm, O1, O2]
        = some (false, [MachineOperand.Imm CondCodes.NE.toImm, O1, O2]) ∧
    reverseBranchCondition [MachineOperand.Imm CondCodes.NE.toImm, O1, O2]
        = some (false, [MachineOperand.Imm CondCodes.EQ.toImm, O1, O2]) ∧
    reverseBranchCondition [MachineOperand.Imm CondCodes.LT.toImm, O1, O2]
        = some (false, [MachineOperand.Imm CondCodes.GE.toImm, O1, O2]) ∧
    reverseBranchCondition [MachineOperand.Imm CondCodes.GE.toImm, O1, O2]
        = some (false, [MachineOperand.Imm CondCodes.LT.toImm, O1, O2]) ∧
    reverseBranchCondition [MachineOperand.Imm CondCodes.GT.toImm, O1, O2]
        = some (false, [MachineOperand.Imm CondCodes.LE.toImm, O1, O2]) ∧
    reverseBranchCondition [MachineOperand.Imm CondCodes.LE.toImm, O1, O2]
        = some (false, [MachineOperand.Imm CondCodes.GT.toImm, O1, O2]) ∧
    ∀ CC : CondCodes, CC ≠ CondCodes.INVALID →
      (reverseBranchCondition [MachineOperand.Imm CC.toImm, O1, O2]).bind
          (fun r => reverseBranchCondition r.2)
        = some (false, [MachineOperand.Imm CC.toImm, O1, O2]) := by
  refine ⟨rfl, rfl, rfl, rfl, rfl, rfl, ?_⟩
  intro CC hCC
  cases CC <;> first | rfl | exact absurd rfl hCC

/-- Witness of C5 at the condition `LE R1, R2`. -/
theorem reverseBranchCondition_involution_witness :
    CondCodes.LE ≠ CondCodes.INVALID ∧
    (reverseBranchCondition [MachineOperand.Imm CondCodes.LE.toImm,
        MachineOperand.Reg (Register.R 1) false false,
        MachineOperand.Reg (Register.R 2) false false]).bind
          (fun r => reverseBranchCondition r.2)
      = some (false, [MachineOperand.Imm CondCodes.LE.toImm,
        MachineOperand.Reg (Register.R 1) false false,
        MachineOperand.Reg (Register.R 2) false false]) :=
  ⟨by decide,
    (reverseBranchCondition_involution (MachineOperand.Reg (Register.R 1) false false)
      (MachineOperand.Reg (Register.R 2) false false)).2.2.2.2.2.2 CondCodes.LE (by decide)⟩

/-- C6: `getBranchFromCond` and `getCondFromBranchOpcode` are mutually inverse
between the conditions EQ, NE, LE, GT and the opcodes BEQ, BNE, BLE, BGT, and
`getCondFromBranchOpcode` gives INVALID for every other opcode. -/
theorem branch_cond_bijection (T : Opcode → MCInstrDesc) :
    (∀ CC : CondCodes, CC ∈ [CondCodes.EQ, CondCodes.NE, CondCodes.LE, CondCodes.GT] →
      ∃ D, getBranchFromCond T CC = some D ∧
        D.Opcode ∈ [Opcode.BEQ, Opcode.BNE, Opcode.BLE, Opcode.BGT] ∧
        getCondFromBranchOpcode D.Opcode = CC) ∧
    (∀ Opc : Opcode, Opc ∈ [Opcode.BEQ, Opcode.BNE, Opcode.BLE, Opcode.BGT] →
      getCondFromBranchOpcode Opc ∈ [CondCodes.EQ, CondCodes.NE, CondCodes.LE, CondCodes.GT] ∧
      getBranchFromCond T (getCondFromBranchOpcode Opc) = some (get T Opc) ∧
      (get T Opc).Opcode = Opc) ∧
    (∀ Opc : Opcode, Opc ∉ [Opcode.BEQ, Opcode.BNE, Opcode.BLE, Opcode.BGT] →
      getCondFromBranchOpcode Opc = CondCodes.INVALID) := by
  refine ⟨?_, ?_, ?_⟩
  · intro CC h
    simp only [List.mem_cons, List.mem_singleton, List.not_mem_nil, or_false] at h
    rcases h with h | h | h | h <;> subst h <;>
      exact ⟨_, rfl, by simp [get], rfl⟩
  · intro Opc h
    simp only [List.mem_cons, List.mem_singleton, List.not_mem_nil, or_false] at h
    rcases h with h | h | h | h <;> subst h <;>
      exact ⟨by simp [getCondFromBranchOpcode], rfl, rfl⟩
  · intro Opc h
    simp only [List.mem_cons, List.mem_singleton, List.not_mem_nil, or_false, not_or] at h
    obtain ⟨h1, h2, h3, h4⟩ := h
    cases Opc <;> simp_all [getCondFromBranchOpcode]

/-- Witness of C6 at the condition LE, the opcode BGT and the opcode B. -/
theorem branch_cond_bijection_witness :
    (∃ D, getBranchFromCond sampleTable CondCodes.LE = some D ∧
        D.Opcode ∈ [Opcode.BEQ, Opcode.BNE, Opcode.BLE, Opcode.BGT] ∧
        getCondFromBranchOpcode D.Opcode = CondCodes.LE) ∧
    getBranchFromCond sampleTable (getCondFromBranchOpcode Opcode.BGT)
      = some (get sampleTable Opcode.BGT) ∧
    getCondFromBranchOpcode Opcode.B = CondCodes.INVALID :=
  ⟨(branch_cond_bijection sampleTable).1 CondCodes.LE (by decide),
    ((branch_cond_bijection sampleTable).2.1 Opcode.BGT (by decide)).2.1,
    (branch_cond_bijection sampleTable).2.2 Opcode.B (by decide)⟩

/-- C7, the code at the failing input: the two opcodes that
`isIndirectBranchOpcode` accepts are those that `isUncondBranchOpcode` accepts,
so a block that ends in `B bb1; B bb2` is taken by the test for two
unconditional branches (line 261) before the test for an indirect branch (line
268) is reached: it is reported analyzable with TBB = bb1, whether or not
modification is permitted. -/
theorem analyzeBranch_indirect_then_uncond :
    (∀ Opc : Opcode, isIndirectBranchOpcode Opc = isUncondBranchOpcode Opc) ∧
    isIndirectBranchOpcode (sampleB 1).getOpcode = true ∧
    isUncondBranchOpcode (sampleB 2).getOpcode = true ∧
    analyzeBranch { MBB := [sampleAdd, sampleB 1, sampleB 2] } false
      = some (false, { MBB := [sampleAdd, sampleB 1, sampleB 2], TBB := some 1 }) ∧
    analyzeBranch { MBB := [sampleAdd, sampleB 1, sampleB 2] } true
      = some (false, { MBB := [sampleAdd, sampleB 1], TBB := some 1 }) :=
  ⟨fun _ => rfl, rfl, rfl, rfl, rfl⟩

/-- C8: when a block ends (trailing debug instructions apart) in a maximal run
of two or more unconditional branches `U1 :: Rest`, the first of which names its
target and a conditional branch before which, if any, is well formed,
`analyzeBranch` with modification permitted returns, and the block it leaves is
the former one without `Rest`: the last k-1 branches of the run are deleted, the
first is kept and nothing else changes.  When the run is all of the terminators
of the block, the block is reported analyzable (`false`) with TBB the target of
the kept branch, no FBB and an empty Cond. -/
theorem analyzeBranch_dead_branches (Pre Rest Dbg : List MachineInstr) (U1 : MachineInstr)
    (Target : Nat) (hk : Rest ≠ [])
    (hRun : ∀ u ∈ U1 :: Rest,
      isUnpredicatedTerminator u = true ∧ isUncondBranchOpcode u.getOpcode = true)
    (hTgt : branchTarget U1 = some Target)
    (hDbg : ∀ y ∈ Dbg, y.isDebugInstr = true)
    (hMax : ∀ t, Pre.getLast? = some t → isUnpredicatedTerminator t = true →
      isUncondBranchOpcode t.getOpcode = false)
    (hWF : ∀ t, Pre.getLast? = some t → isCondBranchOpcode t.getOpcode = true →
      t.MCID.isConditionalBranch = true ∧
      ∃ O1 O2 Tgt, t.getOperand 0 = some O1 ∧ t.getOperand 1 = some O2 ∧
        t.getOperand 2 = some (MachineOperand.MBB Tgt)) :
    ∃ r, analyzeBranch { MBB := Pre ++ (U1 :: Rest) ++ Dbg } true = some r ∧
      r.2.MBB = Pre ++ U1 :: Dbg ∧
      ((∀ t, Pre.getLast? = some t → isUnpredicatedTerminator t = false) →
        r = (false, { MBB := Pre ++ U1 :: Dbg, TBB := some Target, FBB := none, Cond := [] })) := by
  obtain ⟨Us, Y, X, hEq, hHead⟩ := run_last_two U1 Rest hk
  have hUs : ∀ u ∈ Us, isUnpredicatedTerminator u = true ∧
      isUncondBranchOpcode u.getOpcode = true :=
    fun u hu => hRun u (by rw [hEq]; simp [hu])
  have hY := hRun Y (by rw [hEq]; simp)
  have hX := hRun X (by rw [hEq]; simp)
  have hShape : Pre ++ (U1 :: Rest) ++ Dbg = (Pre ++ Us) ++ Y :: X :: Dbg := by
    rw [hEq]; simp
  have hLoop := eraseLoop_run Pre Dbg hMax Us Y X U1 hUs hY.2 hHead
  rw [hShape]
  cases hP : prevIsTerminator Pre Pre.length with
  | false =>
    rw [hP] at hLoop
    simp only [Bool.false_eq_true, if_false] at hLoop
    refine ⟨(false, { MBB := Pre ++ U1 :: Dbg, TBB := some Target, FBB := none, Cond := [] }),
      ?_, rfl, fun _ => rfl⟩
    simp only [analyzeBranch,
      getLastNonDebugInstr_last_two (Pre ++ Us) Y X Dbg (isDebugInstr_of_uncond X hX.2) hDbg,
      getElem_append_one, hX.1, prevIsTerminator_succ, hY.1, hX.2, Nat.add_sub_cancel, hLoop,
      getElem_append_zero, hTgt]
    simp
  | true =>
    rw [hP] at hLoop
    simp only [if_true] at hLoop
    rcases list_nil_or_snoc Pre with h0 | ⟨p, t, h0⟩
    · subst h0; simp [prevIsTerminator] at hP
    · subst h0
      have hT : isUnpredicatedTerminator t = true := by
        rw [prevIsTerminator_getLast (p ++ [t]) t (by simp)] at hP
        exact hP
      have hlen : (p ++ [t]).length - 1 = p.length := by simp
      have hGS : (p ++ [t] ++ U1 :: Dbg)[p.length]? = some t := by
        rw [List.append_assoc]; exact getElem_append_zero _ _ _
      have hGL : (p ++ [t] ++ U1 :: Dbg)[(p ++ [t]).length]? = some U1 :=
        getElem_append_zero _ _ _
      obtain ⟨r, hr, hrM⟩ := analyzeTwoTerminators_keeps
        { MBB := p ++ [t] ++ U1 :: Dbg } true p.length (p ++ [t]).length t U1 hGS hGL
        (hMax t (by simp) hT)
        (fun hc => parseCondBranch_isSome t [] (hWF t (by simp) hc).1 (hWF t (by simp) hc).2)
        (by simp [hTgt])
      refine ⟨r, ?_, hrM, ?_⟩
      · rw [hlen] at hLoop
        simp only [analyzeBranch,
          getLastNonDebugInstr_last_two (p ++ [t] ++ Us) Y X Dbg (isDebugInstr_of_uncond X hX.2)
            hDbg,
          getElem_append_one, hX.1, prevIsTerminator_succ, hY.1, hX.2, Nat.add_sub_cancel, hLoop]
        simpa using hr
      · intro hno
        have := hno t (by simp)
        rw [hT] at this
        exact absurd this (by simp)

/-- Witness of C8 at the block `ADDi; B bb7; B bb8; B bb9; DBG_VALUE`. -/
theorem analyzeBranch_dead_branches_witness :
    ∃ r, analyzeBranch { MBB := [sampleAdd] ++ (sampleB 7 :: [sampleB 8, sampleB 9])
          ++ [sampleDbg] } true = some r ∧
      r.2.MBB = [sampleAdd] ++ sampleB 7 :: [sampleDbg] ∧
      ((∀ t, [sampleAdd].getLast? = some t → isUnpredicatedTerminator t = false) →
        r = (false, { MBB := [sampleAdd] ++ sampleB 7 :: [sampleDbg], TBB := some 7, FBB := none
                      Cond := [] })) :=
  analyzeBranch_dead_branches [sampleAdd] [sampleB 8, sampleB 9] [sampleDbg] (sampleB 7) 7
    (by simp)
    (fun u hu => by
      simp only [List.mem_cons, List.mem_singleton, List.not_mem_nil, or_false] at hu
      rcases hu with h | h | h <;> subst h <;> exact ⟨rfl, rfl⟩)
    rfl
    (fun y hy => by simp at hy; subst hy; rfl)
    (fun t ht _ => by cases ht; rfl)
    (fun t ht hc => by cases ht; exact absurd hc (by decide))

/-- C9: when the last three instructions of a block (trailing debug
instructions apart) are unpredicated terminators, the last of them not being a
debug instruction, `analyzeBranch` without permission to modify reports the
block unanalyzable (`true`) and leaves the block, TBB, FBB and Cond as they
were; with modification permitted the same holds when the last two terminators
are not both unconditional branches. -/
theorem analyzeBranch_three_terminators (s : BranchInfo) (Pre Dbg : List MachineInstr)
    (T1 T2 T3 : MachineInstr) (hMBB : s.MBB = Pre ++ T1 :: T2 :: T3 :: Dbg)
    (hDbg : ∀ y ∈ Dbg, y.isDebugInstr = true)
    (h1 : isUnpredicatedTerminator T1 = true) (h2 : isUnpredicatedTerminator T2 = true)
    (h3 : isUnpredicatedTerminator T3 = true) (hND : T3.isDebugInstr = false) :
    analyzeBranch s false = some (true, s) ∧
    (¬ (isUncondBranchOpcode T2.getOpcode = true ∧ isUncondBranchOpcode T3.getOpcode = true) →
      analyzeBranch s true = some (true, s)) := by
  obtain ⟨MBB, TBB, FBB, Cond⟩ := s
  simp only at hMBB
  subst hMBB
  have hL : getLastNonDebugInstr (Pre ++ T1 :: T2 :: T3 :: Dbg) = some (Pre.length + 1 + 1) := by
    have h := getLastNonDebugInstr_last (Pre ++ [T1, T2]) T3 Dbg hND hDbg
    simpa using h
  have hG2 : (Pre ++ T1 :: T2 :: T3 :: Dbg)[Pre.length + 1 + 1]? = some T3 :=
    getElem_append_two Pre T1 T2 T3 Dbg
  have hTwo : ∀ A : Bool, analyzeTwoTerminators
      { MBB := Pre ++ T1 :: T2 :: T3 :: Dbg, TBB := TBB, FBB := FBB, Cond := Cond } A
      (Pre.length + 1) (Pre.length + 1 + 1)
      = some (true, { MBB := Pre ++ T1 :: T2 :: T3 :: Dbg, TBB := TBB, FBB := FBB, Cond := Cond }) := by
    intro A
    simp only [analyzeTwoTerminators, getElem_append_one, hG2, prevIsTerminator_succ, h1, if_true]
  constructor
  · simp only [analyzeBranch, hL, hG2, h3, prevIsTerminator_succ_succ, h2, Nat.add_sub_cancel]
    simpa using hTwo false
  · intro hnot
    simp only [analyzeBranch, hL, hG2, h3, prevIsTerminator_succ_succ, h2, Nat.add_sub_cancel]
    cases hU3 : isUncondBranchOpcode T3.getOpcode
    · simpa using hTwo true
    · have hU2 : isUncondBranchOpcode T2.getOpcode = false := by
        cases h : isUncondBranchOpcode T2.getOpcode
        · rfl
        · exact absurd ⟨h, hU3⟩ hnot
      simp only [eraseLoop, getElem_append_one, hU2]
      simpa using hTwo true

/-- Witness of C9 at the block `ADDi; BEQ R5, R6, bb7; BNE R5, R6, bb8; B bb9`. -/
theorem analyzeBranch_three_terminators_witness :
    analyzeBranch
        { MBB := ([sampleAdd] ++ sampleBcc Opcode.BEQ 5 6 7 :: sampleBcc Opcode.BNE 5 6 8 ::
            sampleB 9 :: []) } false
      = some (true,
        { MBB := ([sampleAdd] ++ sampleBcc Opcode.BEQ 5 6 7 :: sampleBcc Opcode.BNE 5 6 8 ::
            sampleB 9 :: []) }) :=
  (analyzeBranch_three_terminators
    { MBB := ([sampleAdd] ++ sampleBcc Opcode.BEQ 5 6 7 :: sampleBcc Opcode.BNE 5 6 8 ::
        sampleB 9 :: []) }
    [sampleAdd] [] (sampleBcc Opcode.BEQ 5 6 7) (sampleBcc Opcode.BNE 5 6 8) (sampleB 9) rfl
    (fun y h => by simp at h) rfl rfl rfl rfl).1

/-- C10, the claim as stated fails: a function that requires a frame pointer,
has no variadic save area, a frame size of 0 bytes (a multiple of 4, 0 / 4 <=
32767) and no callee-saved spill, and that does not adjust the stack, gets no
instruction at all from `emitPrologue`, not two; and for the function with a
frame of 40 bytes and one spill, `emitPrologue` aborts with the fatal error of
lines 70-74 when the stack should be realigned and cannot be. -/
theorem emitPrologue_empty_frame :
    hasFP sampleEmptyFrame = true ∧
    sampleEmptyFrame.FuncInfo.VarArgsSaveSize = 0 ∧
    sampleEmptyFrame.FrameInfo.StackSize % 4 = 0 ∧
    sampleEmptyFrame.FrameInfo.StackSize / 4 ≤ 32767 ∧
    sampleEmptyFrame.FrameInfo.CSInfo.length = 0 ∧
    sampleEmptyFrame.Blocks = [[sampleRet]] ∧
    emitPrologue sampleTable sampleEmptyFrame 0 = some sampleEmptyFrame ∧
    hasFP { sampleFunction with ShouldRealignStack := true, CanRealignStack := false } = true ∧
    emitPrologue sampleTable
      { sampleFunction with ShouldRealignStack := true, CanRealignStack := false } 0 = none :=
  ⟨rfl, rfl, rfl, by decide, rfl, rfl, rfl, rfl, rfl⟩

/-- C10, amended: for a function that does not need a stack realignment that
cannot be done, that has a frame of S bytes with S / 4 <= 32767 and either S / 4
non-zero or stack adjustments, that has no variadic save area, and whose entry
block starts with the n callee-saved spill instructions, `emitPrologue` records
S / 4 as the stack size and leaves every other block as it was; when a frame
pointer is required the entry block becomes `ADDi SP, SP, -(S/4)`, the n spill
instructions, `ADDi FP, SP, +(S/4)`, the rest of the block; when none is
required only the first instruction is added. -/
theorem emitPrologue_frame (T : Opcode → MCInstrDesc) (MF : MachineFunction)
    (Spills Rest : List MachineInstr) (Others : List (List MachineInstr))
    (hBlocks : MF.Blocks = (Spills ++ Rest) :: Others)
    (hSpills : Spills.length = MF.FrameInfo.CSInfo.length)
    (hRealign : (MF.ShouldRealignStack && !MF.CanRealignStack) = false)
    (hEmit : MF.FrameInfo.StackSize / 4 ≠ 0 ∨ MF.FrameInfo.AdjustsStack = true)
    (hSize : MF.FrameInfo.StackSize / 4 ≤ 32767)
    (hVar : MF.FuncInfo.VarArgsSaveSize = 0) :
    emitPrologue T MF 0
      = some { MF with
          FrameInfo := { MF.FrameInfo with StackSize := MF.FrameInfo.StackSize / 4 }
          Blocks :=
            (if hasFP MF then
              [{ MCID := get T Opcode.ADDi
                 Operands := [MachineOperand.Reg SIM.SP true false,
                   MachineOperand.Reg SIM.SP false false,
                   MachineOperand.Imm (-((MF.FrameInfo.StackSize / 4 : Nat) : Int))]
                 Flags := MIFlag.FrameSetup
                 DL := 0 }] ++ Spills ++
              [{ MCID := get T Opcode.ADDi
                 Operands := [MachineOperand.Reg SIM.FP true false,
                   MachineOperand.Reg SIM.SP false false,
                   MachineOperand.Imm ((MF.FrameInfo.StackSize / 4 : Nat) : Int)]
                 Flags := MIFlag.FrameSetup
                 DL := 0 }] ++ Rest
            else
              [{ MCID := get T Opcode.ADDi
                 Operands := [MachineOperand.Reg SIM.SP true false,
                   MachineOperand.Reg SIM.SP false false,
                   MachineOperand.Imm (-((MF.FrameInfo.StackSize / 4 : Nat) : Int))]
                 Flags := MIFlag.FrameSetup
                 DL := 0 }] ++ Spills ++ Rest) :: Others } :=
  emitPrologue_emits T MF Spills Rest Others hBlocks hSpills hRealign hEmit hSize hVar

/-- Witness of C10: a frame of 40 bytes, one callee-saved register and a frame
pointer give a decrement of the stack pointer by 10, the spill, and the frame
pointer set to the stack pointer plus 10. -/
theorem emitPrologue_frame_witness :
    emitPrologue sampleTable sampleFunction 0
      = some { sampleFunction with
          FrameInfo := { sampleFunction.FrameInfo with StackSize := 10 }
          Blocks :=
            [[{ MCID := get sampleTable Opcode.ADDi
                Operands := [MachineOperand.Reg SIM.SP true false,
                  MachineOperand.Reg SIM.SP false false, MachineOperand.Imm (-10)]
                Flags := MIFlag.FrameSetup
                DL := 0 },
              sampleSpill 3 0,
              { MCID := get sampleTable Opcode.ADDi
                Operands := [MachineOperand.Reg SIM.FP true false,
                  MachineOperand.Reg SIM.SP false false, MachineOperand.Imm 10]
                Flags := MIFlag.FrameSetup
                DL := 0 },
              sampleAdd, sampleRet]] } :=
  (emitPrologue_frame sampleTable sampleFunction [sampleSpill 3 0] [sampleAdd, sampleRet] []
    rfl rfl rfl (Or.inl (by decide)) (by decide) rfl).trans rfl

/-- C11, the claim as stated fails: for a frame of 131072 bytes and no frame
pointer `emitPrologue` emits the decrement by 32768 words, and `emitEpilogue`
aborts on the assertion of `emitRegAdjustment` (+32768 is not a 16 bit signed
immediate); and for a function with variable sized objects and a stack to
realign `emitPrologue` emits the decrement by 10 words, and `emitEpilogue`
aborts on the assertion of line 155. -/
theorem emitEpilogue_aborts :
    (∃ MF1, emitPrologue sampleTable sampleLargeFrame 0 = some MF1 ∧
      MF1.Blocks = [[sampleAdjust SIM.SP (-32768) MIFlag.FrameSetup, sampleRet]] ∧
      emitEpilogue sampleTable MF1 0 = none) ∧
    (∃ MF1, emitPrologue sampleTable sampleRealigned 0 = some MF1 ∧
      MF1.Blocks = [[sampleAdjust SIM.SP (-10) MIFlag.FrameSetup, sampleSpill 3 0,
        sampleAdjust SIM.FP 10 MIFlag.FrameSetup, sampleAdd, sampleRet]] ∧
      emitEpilogue sampleTable MF1 0 = none) :=
  ⟨⟨_, rfl, rfl, rfl⟩, ⟨_, rfl, rfl, rfl⟩⟩

/-- C11, amended: let `emitPrologue` have run on a function with a frame of S
bytes, W = S / 4 <= 32767, that does not both have variable sized objects and
a stack to realign.  It has recorded W as the stack size.  If W is not 0 or the
function adjusts the stack, the prologue has emitted `ADDi SP, SP, -W` at the
head of the entry block, and `emitEpilogue` on a block with a last non-debug
instruction inserts exactly one instruction, `ADDi SP, SP, +W`, immediately
before that instruction and changes nothing else: the two immediates sum to
zero.  Otherwise neither of them emits an instruction. -/
theorem emitEpilogue_restores (T : Opcode → MCInstrDesc) (MF MF1 : MachineFunction) (k : Nat)
    (Pre Dbg : List MachineInstr) (Last : MachineInstr)
    (hPro : emitPrologue T MF 0 = some MF1)
    (hW : MF.FrameInfo.StackSize / 4 ≤ 32767)
    (hTBD : (MF.FrameInfo.HasVarSizedObjects && hasStackRealignment MF) = false)
    (hBlock : MF1.Blocks[k]? = some (Pre ++ Last :: Dbg))
    (hLast : Last.isDebugInstr = false) (hDbg : ∀ y ∈ Dbg, y.isDebugInstr = true) :
    MF1.FrameInfo.StackSize = MF.FrameInfo.StackSize / 4 ∧
    ((MF.FrameInfo.StackSize / 4 ≠ 0 ∨ MF.FrameInfo.AdjustsStack = true) →
      (∃ Tail Others, MF1.Blocks =
        ({ MCID := get T Opcode.ADDi
           Operands := [MachineOperand.Reg SIM.SP true false,
             MachineOperand.Reg SIM.SP false false,
             MachineOperand.Imm (-((MF.FrameInfo.StackSize / 4 : Nat) : Int))]
           Flags := MIFlag.FrameSetup
           DL := 0 } :: Tail) :: Others) ∧
      emitEpilogue T MF1 k
        = some { MF1 with
            Blocks := MF1.Blocks.set k
              (Pre ++
                { MCID := get T Opcode.ADDi
                  Operands := [MachineOperand.Reg SIM.SP true false,
                    MachineOperand.Reg SIM.SP false false,
                    MachineOperand.Imm ((MF.FrameInfo.StackSize / 4 : Nat) : Int)]
                  Flags := MIFlag.FrameDestroy
                  DL := 0 } :: Last :: Dbg) } ∧
      -((MF.FrameInfo.StackSize / 4 : Nat) : Int) + ((MF.FrameInfo.StackSize / 4 : Nat) : Int) = 0) ∧
    (¬ (MF.FrameInfo.StackSize / 4 ≠ 0 ∨ MF.FrameInfo.AdjustsStack = true) →
      MF1.Blocks = MF.Blocks ∧ emitEpilogue T MF1 k = some MF1) := by
  have hS : MF.FrameInfo.StackSize < 2 ^ 64 := by
    have : MF.FrameInfo.StackSize < 4 * 32768 := by omega
    exact lt_of_lt_of_le this (by norm_num)
  have hle : MF.FrameInfo.StackSize / 4 ≤ 32768 := by omega
  obtain ⟨hFI, _, hD, hSR, hCR, _, hSkip, hEmit⟩ := emitPrologue_inv T MF MF1 hPro
  rw [alignTo_one _ hS] at hFI hSkip hEmit
  have hSS : MF1.FrameInfo.StackSize = MF.FrameInfo.StackSize / 4 := by rw [hFI]
  have hAS : MF1.FrameInfo.AdjustsStack = MF.FrameInfo.AdjustsStack := by rw [hFI]
  have hHV : MF1.FrameInfo.HasVarSizedObjects = MF.FrameInfo.HasVarSizedObjects := by rw [hFI]
  have hRe : hasStackRealignment MF1 = hasStackRealignment MF := by
    simp only [hasStackRealignment, hSR, hCR]
  have hL := getLastNonDebugInstr_last Pre Last Dbg hLast hDbg
  refine ⟨hSS, ?_, ?_⟩
  · intro hc
    have hskip : (MF.FrameInfo.StackSize / 4 == 0 && !MF.FrameInfo.AdjustsStack) = false := by
      rcases hc with h | h
      · simp [h]
      · simp [h]
    obtain ⟨_, Tail, Others, hB⟩ := hEmit hskip
    rw [truncToInt_neg _ hle] at hB
    refine ⟨⟨Tail, Others, hB⟩, ?_, by omega⟩
    simp only [emitEpilogue, hBlock, hL, hSS, hAS, hskip, hHV, hRe, hTBD, emitRegAdjustment,
      truncToInt_small _ hle, isInt16_pos _ hW, List.take_left, List.drop_left]
    simp
  · intro hc
    have hskip : (MF.FrameInfo.StackSize / 4 == 0 && !MF.FrameInfo.AdjustsStack) = true := by
      have h1 : MF.FrameInfo.StackSize / 4 = 0 := by
        by_contra h; exact hc (Or.inl h)
      have h2 : MF.FrameInfo.AdjustsStack = false := by
        cases h : MF.FrameInfo.AdjustsStack
        · rfl
        · exact absurd (Or.inr h) hc
      simp [h1, h2]
    refine ⟨hSkip hskip, ?_⟩
    simp only [emitEpilogue, hBlock, hL, hSS, hAS, hskip]
    simp

/-- Witness of C11: after the prologue of the function with a frame of 40
bytes, the epilogue inserts `ADDi SP, SP, 10` before the `RET`. -/
theorem emitEpilogue_restores_witness :
    emitEpilogue sampleTable samplePrologued 0
      = some { samplePrologued with
          Blocks := samplePrologued.Blocks.set 0
            ([sampleAdjust SIM.SP (-10) MIFlag.FrameSetup, sampleSpill 3 0,
                sampleAdjust SIM.FP 10 MIFlag.FrameSetup, sampleAdd] ++
              { MCID := get sampleTable Opcode.ADDi
                Operands := [MachineOperand.Reg SIM.SP true false,
                  MachineOperand.Reg SIM.SP false false,
                  MachineOperand.Imm ((sampleFunction.FrameInfo.StackSize / 4 : Nat) : Int)]
                Flags := MIFlag.FrameDestroy
                DL := 0 } :: sampleRet :: []) } :=
  ((emitEpilogue_restores sampleTable sampleFunction samplePrologued 0
    [sampleAdjust SIM.SP (-10) MIFlag.FrameSetup, sampleSpill 3 0,
      sampleAdjust SIM.FP 10 MIFlag.FrameSetup, sampleAdd] [] sampleRet
    rfl (by decide) rfl rfl rfl (fun y hy => by simp at hy)).2.1 (Or.inl (by decide))).2.1

/-- C12: for a function whose frame size is 0 and that never adjusts the
stack, `emitPrologue` and `emitEpilogue` emit no instruction and leave every
block unchanged: `emitPrologue` returns the function as it was, unless it stops
before the size test on the fatal error for a stack that should be realigned
and cannot be (or the function has no block), and `emitEpilogue` returns the
function as it was on every block that has a non-debug instruction (the one
whose debug location it reads). -/
theorem frameless_emits_nothing (T : Opcode → MCInstrDesc) (MF : MachineFunction) (k : Nat)
    (hS : MF.FrameInfo.StackSize = 0) (hA : MF.FrameInfo.AdjustsStack = false) :
    emitPrologue T MF 0
      = (if MF.Blocks.isEmpty || (MF.ShouldRealignStack && !MF.CanRealignStack) then none
         else some MF) ∧
    emitEpilogue T MF k
      = (match MF.Blocks[k]? with
         | none => none
         | some Block => if (getLastNonDebugInstr Block).isSome then some MF else none) := by
  constructor
  · obtain ⟨Blocks, FI, FuncInfo, DFPE, SRS, CRS, Used⟩ := MF
    obtain ⟨S, AS, HC, HV, FAT, CSI, OA, NFO, Objs⟩ := FI
    simp only at hS hA
    subst hS
    subst hA
    cases Blocks with
    | nil => rfl
    | cons Entry Others =>
      have h0 : alignTo 0 getStackAlign = 0 := alignTo_one 0 (by norm_num)
      cases hR : (SRS && !CRS) <;> simp [emitPrologue, hR, h0]
  · unfold emitEpilogue
    cases hB : MF.Blocks[k]? with
    | none => rfl
    | some Block =>
      dsimp only
      cases hL : getLastNonDebugInstr Block with
      | none => rfl
      | some I =>
        dsimp only
        rw [hS, hA]
        rfl

/-- Witness of C12: the function with an empty frame and the single block
`RET`. -/
theorem frameless_emits_nothing_witness :
    emitPrologue sampleTable sampleEmptyFrame 0 = some sampleEmptyFrame ∧
    emitEpilogue sampleTable sampleEmptyFrame 0 = some sampleEmptyFrame :=
  ⟨(frameless_emits_nothing sampleTable sampleEmptyFrame 0 rfl rfl).1.trans rfl,
    (frameless_emits_nothing sampleTable sampleEmptyFrame 0 rfl rfl).2.trans rfl⟩

/-- C13: for a function that is not a leaf procedure and needs no stack
realignment, and a slot whose byte offset o (with the offset adjustment of the
frame, which this target leaves at 0) is in the range of `int`, the recorded
stack size W being below 2^31: `getFrameIndexReference` resolves a slot of the
callee-saved region to the base register SP with the offset o / 4 + W, which is
not negative when the slot lies within the frame of W words; and it resolves
every other slot, when the function has a frame pointer, to the base register
FP with the offset o / 4, which is negative when the slot lies at least one word
below the frame base. -/
theorem getFrameIndexReference_bases (MF : MachineFunction) (FI o : Int)
    (hObj : getObjectOffset MF.FrameInfo FI = some o)
    (hLo : -2147483648 ≤ o + MF.FrameInfo.OffsetAdjustment)
    (hHi : o + MF.FrameInfo.OffsetAdjustment < 2147483648)
    (hSS : MF.FrameInfo.StackSize < 2147483648)
    (hLeaf : MF.FuncInfo.IsLeafProc = false) (hRe : hasStackRealignment MF = false) :
    (isFrameIndexInCalleeSavedRegion MF.FrameInfo FI = true →
      getFrameIndexReference MF FI
        = some (SIM.SP, (o + MF.FrameInfo.OffsetAdjustment).tdiv 4 + MF.FrameInfo.StackSize) ∧
      (-(4 * (MF.FrameInfo.StackSize : Int)) ≤ o + MF.FrameInfo.OffsetAdjustment →
        0 ≤ (o + MF.FrameInfo.OffsetAdjustment).tdiv 4 + MF.FrameInfo.StackSize)) ∧
    (isFrameIndexInCalleeSavedRegion MF.FrameInfo FI = false → hasFP MF = true →
      getFrameIndexReference MF FI
        = some (SIM.FP, (o + MF.FrameInfo.OffsetAdjustment).tdiv 4) ∧
      (o + MF.FrameInfo.OffsetAdjustment ≤ -4 →
        (o + MF.FrameInfo.OffsetAdjustment).tdiv 4 < 0)) := by
  have hw : wrapInt 32 (o - getOffsetOfLocalArea + MF.FrameInfo.OffsetAdjustment)
      = o + MF.FrameInfo.OffsetAdjustment := by
    have : o - getOffsetOfLocalArea + MF.FrameInfo.OffsetAdjustment
        = o + MF.FrameInfo.OffsetAdjustment := by
      unfold getOffsetOfLocalArea; omega
    rw [this]
    exact wrapInt32_id _ hLo hHi
  have hc := tdiv_four_cases (o + MF.FrameInfo.OffsetAdjustment)
  constructor
  · intro hIn
    constructor
    · have h64 := wrapInt64_sum ((o + MF.FrameInfo.OffsetAdjustment).tdiv 4)
        MF.FrameInfo.StackSize (by omega) (by omega) hSS
      simp only [getFrameIndexReference, hObj, hw, hIn, if_true, h64]
      simp
    · intro hin
      omega
  · intro hOut hFP
    constructor
    · simp only [getFrameIndexReference, hObj, hw, hOut, hLeaf, hRe, getFrameRegister, hFP]
      simp
    · intro hbelow
      omega

/-- Witness of C13: in the function with a frame of 10 words, the slot 0 of the
callee-saved region, at -4, is resolved to SP + 9. -/
theorem getFrameIndexReference_bases_witness :
    getFrameIndexReference sampleFrame 0
        = some (SIM.SP, (-4 + sampleFrame.FrameInfo.OffsetAdjustment).tdiv 4
            + sampleFrame.FrameInfo.StackSize) ∧
      (-(4 * (sampleFrame.FrameInfo.StackSize : Int)) ≤ -4 + sampleFrame.FrameInfo.OffsetAdjustment →
        0 ≤ (-4 + sampleFrame.FrameInfo.OffsetAdjustment).tdiv 4
          + sampleFrame.FrameInfo.StackSize) :=
  (getFrameIndexReference_bases sampleFrame 0 (-4) rfl (by decide) (by decide) (by decide)
    rfl rfl).1 rfl

/-- C14, the code at the failing input: in a function that is not a leaf
procedure and whose stack is realigned, the slot 1, outside the callee-saved
region, is resolved to the base register FP, not SP; and so is every such slot
of every such function, line 277 setting `UseFP` to true where the comment of
lines 273-275 asks for references via the stack pointer. -/
theorem getFrameIndexReference_realigned :
    hasStackRealignment sampleRealignedFrame = true ∧
    isFrameIndexInCalleeSavedRegion sampleRealignedFrame.FrameInfo 1 = false ∧
    sampleRealignedFrame.FuncInfo.IsLeafProc = false ∧
    getFrameIndexReference sampleRealignedFrame 1 = some (SIM.FP, -2) ∧
    SIM.FP ≠ SIM.SP ∧
    (∀ (MF : MachineFunction) (FI : Int) (r : Register × Int),
      hasStackRealignment MF = true → isFrameIndexInCalleeSavedRegion MF.FrameInfo FI = false →
      MF.FuncInfo.IsLeafProc = false → getFrameIndexReference MF FI = some r → r.1 = SIM.FP) := by
  refine ⟨rfl, rfl, rfl, rfl, by decide, ?_⟩
  intro MF FI r hRe hOut hLeaf h
  have hFP : hasFP MF = true := by simp [hasFP, hRe]
  unfold getFrameIndexReference at h
  split at h
  · exact absurd h (by simp)
  · simp only [hOut, hLeaf, hRe, getFrameRegister, hFP, if_true, Bool.false_eq_true, if_false,
      Option.some.injEq] at h
    rw [← h]

/-- C15 (counterexample): in the function with a frame of 10 words the slot 1 is
resolved to FP - 2; on `LDi R7, FI#1, 4294967296`, whose requested offset is
2^32, the sum is -2 + 2^32 = 4294967294, a value outside [-32768, 32767], and
yet `eliminateFrameIndex` does not abort: the sum is taken in the type `int`,
where it is -2, and the instruction becomes `LDi R7, FP, -2`. -/
theorem eliminateFrameIndex_wraps :
    getFrameIndexReference sampleFrame 1 = some (SIM.FP, -2) ∧
    (sampleLoad 4294967296).getOperand 2 = some (MachineOperand.Imm 4294967296) ∧
    eliminateFrameIndex sampleFrame (sampleLoad 4294967296) 0 1
      = some { sampleLoad 4294967296 with
          Operands := [MachineOperand.Reg (Register.R 7) true false,
            MachineOperand.Reg SIM.FP false false, MachineOperand.Imm (-2)] } ∧
    (-2 + 4294967296 : Int) = 4294967294 ∧ ¬ ((-2 + 4294967296 : Int) ≤ 32767) :=
  ⟨by decide, rfl, by decide, by decide, by decide⟩

/-- C15 (amended): for an instruction whose operand number k is a frame index
and whose next operand is an immediate v, `getFrameIndexReference` returning a
base register and a fixed offset: `eliminateFrameIndex` computes `Offset` in the
type `int`, as the fixed offset narrowed to 32 bits, plus v, narrowed to 32 bits
again.  When `Offset` lies in [-32768, 32767] it replaces the operand k by the
base register and the operand k + 1 by the immediate `Offset`, every other
operand and the rest of the instruction being kept; when `Offset` lies outside
that range it aborts on the assertion, and no immediate is truncated to 16
bits.  `Offset` is the exact sum of the fixed offset and v whenever the fixed
offset and the sum are in the range of `int`; a sum outside the range of `int`
is wrapped to 32 bits before the test and is not refused as such. -/
theorem eliminateFrameIndex_result (MF : MachineFunction) (MI : MachineInstr) (k : Nat)
    (Idx v : Int) (FrameReg : Register) (Fixed : Int)
    (hFI : MI.getOperand k = some (MachineOperand.FI Idx))
    (hImm : MI.getOperand (k + 1) = some (MachineOperand.Imm v))
    (hRef : getFrameIndexReference MF Idx = some (FrameReg, Fixed)) :
    (isInt 16 (wrapInt 32 (wrapInt 32 Fixed + v)) = true →
      eliminateFrameIndex MF MI 0 k
        = some { MI with
            Operands := (MI.Operands.set k (MachineOperand.Reg FrameReg false false)).set (k + 1)
              (MachineOperand.Imm (wrapInt 32 (wrapInt 32 Fixed + v))) } ∧
      (∀ j, j ≠ k → j ≠ k + 1 →
        ((MI.Operands.set k (MachineOperand.Reg FrameReg false false)).set (k + 1)
          (MachineOperand.Imm (wrapInt 32 (wrapInt 32 Fixed + v))))[j]? = MI.Operands[j]?) ∧
      ((MI.Operands.set k (MachineOperand.Reg FrameReg false false)).set (k + 1)
          (MachineOperand.Imm (wrapInt 32 (wrapInt 32 Fixed + v))))[k]?
        = some (MachineOperand.Reg FrameReg false false) ∧
      ((MI.Operands.set k (MachineOperand.Reg FrameReg false false)).set (k + 1)
          (MachineOperand.Imm (wrapInt 32 (wrapInt 32 Fixed + v))))[k + 1]?
        = some (MachineOperand.Imm (wrapInt 32 (wrapInt 32 Fixed + v))) ∧
      -32768 ≤ wrapInt 32 (wrapInt 32 Fixed + v) ∧ wrapInt 32 (wrapInt 32 Fixed + v) ≤ 32767) ∧
    (isInt 16 (wrapInt 32 (wrapInt 32 Fixed + v)) = false →
      eliminateFrameIndex MF MI 0 k = none) ∧
    (-2147483648 ≤ Fixed → Fixed < 2147483648 → -2147483648 ≤ Fixed + v →
      Fixed + v < 2147483648 → wrapInt 32 (wrapInt 32 Fixed + v) = Fixed + v) := by
  have hk : k < MI.Operands.length := by
    rw [getOperand_eq] at hFI
    exact (List.getElem?_eq_some.1 hFI).1
  have hk1 : k + 1 < MI.Operands.length := by
    rw [getOperand_eq] at hImm
    exact (List.getElem?_eq_some.1 hImm).1
  refine ⟨?_, ?_, ?_⟩
  · intro hIn
    refine ⟨?_, ?_, ?_, ?_, ?_⟩
    · simp only [eliminateFrameIndex, hFI, MachineOperand.getIndex, hRef, hImm,
        MachineOperand.getImm, hIn]
      simp
    · intro j hj hj1
      rw [List.getElem?_set_ne (Ne.symm hj1), List.getElem?_set_ne (Ne.symm hj)]
    · rw [List.getElem?_set_ne (by omega), List.getElem?_set_self]
      simp [hk]
    · rw [List.getElem?_set_self]
      simp [hk1]
    · unfold isInt at hIn
      norm_num at hIn
      omega
  · intro hOut
    simp only [eliminateFrameIndex, hFI, MachineOperand.getIndex, hRef, hImm,
      MachineOperand.getImm, hOut]
    simp
  · intro h1 h2 h3 h4
    rw [wrapInt32_id Fixed h1 h2, wrapInt32_id _ h3 h4]

/-- Witness of C15: `STi R3, FI#1, 0` in the function with a frame of 10 words
becomes `STi R3, FP, -2`. -/
theorem eliminateFrameIndex_result_witness :
    eliminateFrameIndex sampleFrame (sampleSpill 3 1) 0 1
      = some { sampleSpill 3 1 with
          Operands := ((sampleSpill 3 1).Operands.set 1
            (MachineOperand.Reg SIM.FP false false)).set (1 + 1)
              (MachineOperand.Imm (wrapInt 32 (wrapInt 32 (-2) + 0))) } :=
  ((eliminateFrameIndex_result sampleFrame (sampleSpill 3 1) 1 1 0 SIM.FP (-2) rfl rfl rfl).1
    (by decide)).1

/-- C16, the claim as stated fails: in a function with variable sized stack
objects, the setup pseudo instruction with the byte amount 0 is deleted and
nothing is inserted in its place. -/
theorem eliminateCallFramePseudoInstr_zero :
    sampleVarSized.FrameInfo.HasVarSizedObjects = true ∧
    eliminateCallFramePseudoInstr sampleTable sampleVarSized
        [sampleAdd, samplePseudo Opcode.ADJCALLSTACKDOWN 0, sampleRet] 1
      = some ([sampleAdd, sampleRet], 1) :=
  ⟨rfl, rfl⟩

/-- C16, amended: for a call frame pseudo instruction with the byte amount A,
0 <= A and A / 4 <= 32767: if the function has no variable sized stack objects,
or if A is 0, `eliminateCallFramePseudoInstr` deletes the pseudo instruction
and inserts nothing; otherwise it replaces it, at the same position, by one
`ADDi SP, SP, d` with d = -(A / 4) for the setup (ADJCALLSTACKDOWN) and
d = +(A / 4) for the teardown, two opposite word counts; all other instructions
of the block are unchanged. -/
theorem eliminateCallFramePseudoInstr_result (T : Opcode → MCInstrDesc) (MF : MachineFunction)
    (Pre Post : List MachineInstr) (MI : MachineInstr) (A : Int)
    (hOp : MI.getOperand 0 = some (MachineOperand.Imm A)) (hA0 : 0 ≤ A) (hA : A < 131072) :
    (MF.FrameInfo.HasVarSizedObjects = false →
      eliminateCallFramePseudoInstr T MF (Pre ++ MI :: Post) Pre.length
        = some (Pre ++ Post, Pre.length)) ∧
    (MF.FrameInfo.HasVarSizedObjects = true → A = 0 →
      eliminateCallFramePseudoInstr T MF (Pre ++ MI :: Post) Pre.length
        = some (Pre ++ Post, Pre.length)) ∧
    (MF.FrameInfo.HasVarSizedObjects = true → A ≠ 0 →
      eliminateCallFramePseudoInstr T MF (Pre ++ MI :: Post) Pre.length
        = some (Pre ++
            { MCID := get T Opcode.ADDi
              Operands := [MachineOperand.Reg SIM.SP true false,
                MachineOperand.Reg SIM.SP false false,
                MachineOperand.Imm
                  (if MI.getOpcode = Opcode.ADJCALLSTACKDOWN then -(A / 4) else A / 4)]
              Flags := MIFlag.NoFlags
              DL := 0 } :: Post, Pre.length + 1)) ∧
    -(A / 4) + A / 4 = 0 := by
  have hG : (Pre ++ MI :: Post)[Pre.length]? = some MI := getElem_append_zero _ _ _
  have hw : wrapInt 32 A = A := wrapInt32_id A (by omega) (by omega)
  have hwn : wrapInt 32 (-A) = -A := wrapInt32_id (-A) (by omega) (by omega)
  have hdiv : A.tdiv 4 = A / 4 := Int.tdiv_eq_ediv hA0 (by decide)
  have hdivn : (-A).tdiv 4 = -(A / 4) := by rw [Int.neg_tdiv, hdiv]
  have hE := eraseIdx_append_zero Pre MI Post
  refine ⟨?_, ?_, ?_, by omega⟩
  · intro hV
    simp only [eliminateCallFramePseudoInstr, hG, hasReservedCallFrame, hV, hE]
    simp
  · intro hV hz
    subst hz
    simp only [eliminateCallFramePseudoInstr, hG, hasReservedCallFrame, hV, hOp,
      MachineOperand.getImm, hE]
    have h0 : wrapInt 32 0 = 0 := by decide
    have h1 : wrapInt 32 (-0) = 0 := by decide
    simp [h0, h1]
  · intro hV hnz
    have hI1 : isInt 16 (A / 4) = true := by
      unfold isInt; norm_num; omega
    have hI2 : isInt 16 (-(A / 4)) = true := by
      unfold isInt; norm_num; omega
    simp only [eliminateCallFramePseudoInstr, hG, hasReservedCallFrame, hV, hOp,
      MachineOperand.getImm, hw, hwn]
    by_cases hOpc : MI.getOpcode = Opcode.ADJCALLSTACKDOWN
    · have hne : (-A != 0) = true := by simpa using hnz
      simp only [hOpc, beq_self_eq_true, if_true, hne, emitRegAdjustment, hdivn, hI2,
        List.take_left, List.drop_left]
      have := eraseIdx_append_one Pre
        ({ MCID := get T Opcode.ADDi
           Operands := [MachineOperand.Reg SIM.SP true false,
             MachineOperand.Reg SIM.SP false false, MachineOperand.Imm (-(A / 4))]
           Flags := MIFlag.NoFlags
           DL := 0 } : MachineInstr) MI Post
      simpa using this
    · have hne : (A != 0) = true := by simpa using hnz
      have hb : (MI.getOpcode == Opcode.ADJCALLSTACKDOWN) = false := by simpa using hOpc
      simp only [hb, hOpc, Bool.false_eq_true, if_false, hne, emitRegAdjustment, hdiv, hI1,
        List.take_left, List.drop_left]
      have := eraseIdx_append_one Pre
        ({ MCID := get T Opcode.ADDi
           Operands := [MachineOperand.Reg SIM.SP true false,
             MachineOperand.Reg SIM.SP false false, MachineOperand.Imm (A / 4)]
           Flags := MIFlag.NoFlags
           DL := 0 } : MachineInstr) MI Post
      simpa using this

/-- Witness of C16: with variable sized objects, the teardown of 8 bytes between
`ADDi` and `RET` becomes `ADDi SP, SP, 2`. -/
theorem eliminateCallFramePseudoInstr_result_witness :
    eliminateCallFramePseudoInstr sampleTable sampleVarSized
        ([sampleAdd] ++ samplePseudo Opcode.ADJCALLSTACKUP 8 :: [sampleRet]) [sampleAdd].length
      = some ([sampleAdd] ++
          { MCID := get sampleTable Opcode.ADDi
            Operands := [MachineOperand.Reg SIM.SP true false,
              MachineOperand.Reg SIM.SP false false,
              MachineOperand.Imm
                (if (samplePseudo Opcode.ADJCALLSTACKUP 8).getOpcode = Opcode.ADJCALLSTACKDOWN
                  then -(8 / 4) else 8 / 4)]
            Flags := MIFlag.NoFlags
            DL := 0 } :: [sampleRet], [sampleAdd].length + 1) :=
  (eliminateCallFramePseudoInstr_result sampleTable sampleVarSized [sampleAdd] [sampleRet]
    (samplePseudo Opcode.ADJCALLSTACKUP 8) 8 rfl (by decide) (by decide)).2.2.1 rfl (by decide)

/-- C17: for a function that requires a frame pointer (such a function is not
a leaf procedure), `determineCalleeSaves` returns, leaves the function as it
was, and adds to the generically computed set exactly: FP; RA if and only if
the function makes calls; BP if and only if the function has variable sized
stack objects and a stack to realign.  No other register is added or
removed. -/
theorem determineCalleeSaves_frame (DisableLeafProc : Bool) (MF : MachineFunction)
    (SavedRegs : RegSet) (hFP : hasFP MF = true) :
    isLeafProc MF = false ∧
    ∃ Saved : RegSet, determineCalleeSaves DisableLeafProc MF SavedRegs = some (MF, Saved) ∧
      ∀ R : Register, Saved R =
        (SavedRegs R || decide (R = SIM.FP) || (decide (R = SIM.RA) && MF.FrameInfo.HasCalls) ||
          (decide (R = SIM.BP) &&
            (MF.FrameInfo.HasVarSizedObjects && hasStackRealignment MF))) := by
  have hLeaf : isLeafProc MF = false := by simp [isLeafProc, hFP]
  refine ⟨hLeaf, ?_⟩
  have key : ∀ c b : Bool, ∃ Saved : RegSet,
      (if b = true then
          some (MF, ((if c = true then SavedRegs.set SIM.RA else SavedRegs).set SIM.FP).set SIM.BP)
        else some (MF, (if c = true then SavedRegs.set SIM.RA else SavedRegs).set SIM.FP))
        = some (MF, Saved) ∧
      ∀ R : Register, Saved R =
        (SavedRegs R || decide (R = SIM.FP) || (decide (R = SIM.RA) && c) ||
          (decide (R = SIM.BP) && b)) := by
    intro c b
    cases c <;> cases b <;> refine ⟨_, rfl, fun R => ?_⟩ <;>
      simp only [RegSet.set, SIM.FP, SIM.RA, SIM.BP] <;>
      by_cases h3 : R = Register.R 3 <;> by_cases h1 : R = Register.R 1 <;>
      by_cases h4 : R = Register.R 4 <;> simp_all [RegSet.set]
  simp only [determineCalleeSaves, hLeaf, Bool.and_false, Bool.false_eq_true, if_false, hFP,
    if_true, hasBP]
  exact key _ _

/-- Witness of C17: the function with a frame pointer that makes calls. -/
theorem determineCalleeSaves_frame_witness :
    isLeafProc sampleFunction = false ∧
    ∃ Saved : RegSet,
      determineCalleeSaves false sampleFunction (fun _ => false) = some (sampleFunction, Saved) ∧
      ∀ R : Register, Saved R =
        ((fun _ => false : RegSet) R || decide (R = SIM.FP) ||
          (decide (R = SIM.RA) && sampleFunction.FrameInfo.HasCalls) ||
          (decide (R = SIM.BP) &&
            (sampleFunction.FrameInfo.HasVarSizedObjects && hasStackRealignment sampleFunction))) :=
  determineCalleeSaves_frame false sampleFunction (fun _ => false) rfl

/-- C18: for a function that qualifies as a leaf procedure (no calls, R12 and
SP unused, no frame pointer needed), the leaf optimisation being enabled,
`determineCalleeSaves` does not return: it reaches `remapRegsForLeafProc`, which
is `llvm_unreachable`. -/
theorem determineCalleeSaves_leaf (MF : MachineFunction) (SavedRegs : RegSet)
    (hCalls : MF.FrameInfo.HasCalls = false)
    (hR12 : isPhysRegUsed MF (Register.R 12) = false)
    (hSP : isPhysRegUsed MF SIM.SP = false) (hFP : hasFP MF = false) :
    isLeafProc MF = true ∧ determineCalleeSaves false MF SavedRegs = none := by
  have hLeaf : isLeafProc MF = true := by simp [isLeafProc, hCalls, hR12, hSP, hFP]
  exact ⟨hLeaf, by simp [determineCalleeSaves, hLeaf, remapRegsForLeafProc]⟩

/-- Witness of C18: a function without calls that uses R5 only. -/
theorem determineCalleeSaves_leaf_witness :
    isLeafProc sampleLeaf = true ∧
    determineCalleeSaves false sampleLeaf (fun _ => false) = none :=
  determineCalleeSaves_leaf sampleLeaf (fun _ => false) rfl rfl rfl rfl

/-- C19, the claim as stated fails: on the function with a recorded stack size
of 40 the finalisation records 10, and performed again it records 2; so does
`emitPrologue`, which records 10, and on the function that differs from the
first one by that recorded size only records 2. -/
theorem finalizeStackSize_not_idempotent :
    (finalizeStackSize sampleFunction).FrameInfo.StackSize = 10 ∧
    (finalizeStackSize (finalizeStackSize sampleFunction)).FrameInfo.StackSize = 2 ∧
    emitPrologue sampleTable sampleFunction 0 = some samplePrologued ∧
    samplePrologued.FrameInfo.StackSize = 10 ∧
    (∃ MF2, emitPrologue sampleTable
        { sampleFunction with FrameInfo := samplePrologued.FrameInfo } 0 = some MF2 ∧
      MF2.FrameInfo.StackSize = 2) :=
  ⟨rfl, rfl, rfl, rfl, _, rfl, rfl⟩

/-- C19, amended: the frame-size finalisation at the head of `emitPrologue`
(whatever `emitPrologue` returns has the frame information that
`finalizeStackSize` gives) records S / 4 for a recorded stack size S;
performed twice it records (S / 4) / 4, and the function after the second time
is the function after the first time exactly when S < 4. -/
theorem finalizeStackSize_twice (MF : MachineFunction) (hS : MF.FrameInfo.StackSize < 2 ^ 64) :
    (finalizeStackSize MF).FrameInfo.StackSize = MF.FrameInfo.StackSize / 4 ∧
    (finalizeStackSize (finalizeStackSize MF)).FrameInfo.StackSize
      = MF.FrameInfo.StackSize / 4 / 4 ∧
    (finalizeStackSize (finalizeStackSize MF) = finalizeStackSize MF ↔
      MF.FrameInfo.StackSize < 4) ∧
    (∀ (T : Opcode → MCInstrDesc) (MF1 : MachineFunction),
      emitPrologue T MF 0 = some MF1 → MF1.FrameInfo = (finalizeStackSize MF).FrameInfo) := by
  have h1 : (finalizeStackSize MF).FrameInfo.StackSize = MF.FrameInfo.StackSize / 4 := by
    simp only [finalizeStackSize, alignTo_one _ hS]
  have hS2 : MF.FrameInfo.StackSize / 4 < 2 ^ 64 :=
    lt_of_le_of_lt (Nat.div_le_self _ _) hS
  have h2 : (finalizeStackSize (finalizeStackSize MF)).FrameInfo.StackSize
      = MF.FrameInfo.StackSize / 4 / 4 := by
    have : (finalizeStackSize (finalizeStackSize MF)).FrameInfo.StackSize
        = alignTo (finalizeStackSize MF).FrameInfo.StackSize getStackAlign / 4 := rfl
    rw [this, h1, alignTo_one _ hS2]
  refine ⟨h1, h2, ?_, ?_⟩
  · constructor
    · intro h
      have h3 := congrArg (fun F : MachineFunction => F.FrameInfo.StackSize) h
      simp only [h1, h2] at h3
      omega
    · intro h
      have hz : MF.FrameInfo.StackSize / 4 = 0 := by omega
      have h0 : alignTo 0 getStackAlign = 0 := alignTo_one 0 (by norm_num)
      simp only [finalizeStackSize, alignTo_one _ hS, hz, h0]
  · intro T MF1 h
    exact (emitPrologue_inv T MF MF1 h).1

/-- Witness of C19: the function with a recorded stack size of 40. -/
theorem finalizeStackSize_twice_witness :
    (finalizeStackSize sampleFunction).FrameInfo.StackSize
      = sampleFunction.FrameInfo.StackSize / 4 ∧
    (finalizeStackSize (finalizeStackSize sampleFunction)).FrameInfo.StackSize
      = sampleFunction.FrameInfo.StackSize / 4 / 4 :=
  ⟨(finalizeStackSize_twice sampleFunction (by decide)).1,
    (finalizeStackSize_twice sampleFunction (by decide)).2.1⟩

/-- C20, the claim as stated fails: for a frame of 42 bytes `emitPrologue` does
not fail; it adjusts the stack pointer by 10 words, 40 bytes; and the slot at
the byte offset -10 is resolved, without a failure, to the word offset -2. -/
theorem frame_lowering_truncates :
    sampleOddFrame.FrameInfo.StackSize % 4 ≠ 0 ∧
    (∃ MF1, emitPrologue sampleTable sampleOddFrame 0 = some MF1 ∧
      MF1.FrameInfo.StackSize = 10 ∧
      MF1.Blocks = [[sampleAdjust SIM.SP (-10) MIFlag.FrameSetup, sampleSpill 3 0,
        sampleAdjust SIM.FP 10 MIFlag.FrameSetup, sampleAdd, sampleRet]] ∧
      getObjectOffset MF1.FrameInfo 1 = some (-10) ∧
      getFrameIndexReference MF1 1 = some (SIM.FP, -2)) :=
  ⟨by decide, _, rfl, rfl, rfl, rfl, rfl⟩

/-- C20, amended: a byte frame size S or a slot byte offset o that is not a
multiple of 4 does not make frame lowering fail, and the remainder of the
division by 4 is discarded.  Under the conditions of the prologue (no
realignment that cannot be done, S / 4 <= 32767, no variadic save area, the
entry block starting with the callee-saved spills) `emitPrologue` returns,
records S / 4 and decrements the stack pointer by S / 4 words, fewer than S
bytes; and `getFrameIndexReference`, for a slot whose offset is in the range of
`int` and a recorded stack size below 2^31, returns the quotient of o by 4
rounded toward zero, or that quotient plus the recorded stack size, which
differs from o / 4 exactly. -/
theorem frame_lowering_rounds (T : Opcode → MCInstrDesc) (MF : MachineFunction)
    (Spills Rest : List MachineInstr) (Others : List (List MachineInstr))
    (hBlocks : MF.Blocks = (Spills ++ Rest) :: Others)
    (hSpills : Spills.length = MF.FrameInfo.CSInfo.length)
    (hRealign : (MF.ShouldRealignStack && !MF.CanRealignStack) = false)
    (hSize : MF.FrameInfo.StackSize / 4 ≤ 32767)
    (hVar : MF.FuncInfo.VarArgsSaveSize = 0)
    (hOdd : MF.FrameInfo.StackSize % 4 ≠ 0) :
    (∃ MF1, emitPrologue T MF 0 = some MF1 ∧
      MF1.FrameInfo.StackSize = MF.FrameInfo.StackSize / 4 ∧
      4 * (MF.FrameInfo.StackSize / 4) < MF.FrameInfo.StackSize ∧
      ((MF.FrameInfo.StackSize / 4 ≠ 0 ∨ MF.FrameInfo.AdjustsStack = true) →
        ∃ Tail Others1, MF1.Blocks =
          ({ MCID := get T Opcode.ADDi
             Operands := [MachineOperand.Reg SIM.SP true false,
               MachineOperand.Reg SIM.SP false false,
               MachineOperand.Imm (-((MF.FrameInfo.StackSize / 4 : Nat) : Int))]
             Flags := MIFlag.FrameSetup
             DL := 0 } :: Tail) :: Others1) ∧
      (¬ (MF.FrameInfo.StackSize / 4 ≠ 0 ∨ MF.FrameInfo.AdjustsStack = true) →
        MF1.Blocks = MF.Blocks)) ∧
    (∀ (F : MachineFunction) (FI o : Int), getObjectOffset F.FrameInfo FI = some o →
      -2147483648 ≤ o + F.FrameInfo.OffsetAdjustment →
      o + F.FrameInfo.OffsetAdjustment < 2147483648 →
      F.FrameInfo.StackSize < 2147483648 →
      (o + F.FrameInfo.OffsetAdjustment) % 4 ≠ 0 →
      ∃ r : Register × Int, getFrameIndexReference F FI = some r ∧
        (r.2 = (o + F.FrameInfo.OffsetAdjustment).tdiv 4 ∨
          r.2 = (o + F.FrameInfo.OffsetAdjustment).tdiv 4 + F.FrameInfo.StackSize) ∧
        4 * (o + F.FrameInfo.OffsetAdjustment).tdiv 4 ≠ o + F.FrameInfo.OffsetAdjustment) := by
  constructor
  · have hS : MF.FrameInfo.StackSize < 2 ^ 64 := by
      have : MF.FrameInfo.StackSize < 4 * 32768 := by omega
      exact lt_of_lt_of_le this (by norm_num)
    have hle : MF.FrameInfo.StackSize / 4 ≤ 32768 := by omega
    have hex : ∃ MF1, emitPrologue T MF 0 = some MF1 := by
      by_cases hskip : MF.FrameInfo.StackSize / 4 ≠ 0 ∨ MF.FrameInfo.AdjustsStack = true
      · exact ⟨_, emitPrologue_emits T MF Spills Rest Others hBlocks hSpills hRealign hskip
          hSize hVar⟩
      · have h1 : MF.FrameInfo.StackSize / 4 = 0 := by
          by_contra h; exact hskip (Or.inl h)
        have h2 : MF.FrameInfo.AdjustsStack = false := by
          cases h : MF.FrameInfo.AdjustsStack
          · rfl
          · exact absurd (Or.inr h) hskip
        refine ⟨{ MF with FrameInfo := { MF.FrameInfo with StackSize := 0 } }, ?_⟩
        simp only [emitPrologue, hBlocks, hRealign, alignTo_one _ hS, h1, h2]
        simp
    obtain ⟨MF1, hMF1⟩ := hex
    obtain ⟨hFI, _, _, _, _, _, hSkip, hEm⟩ := emitPrologue_inv T MF MF1 hMF1
    rw [alignTo_one _ hS] at hFI hSkip hEm
    refine ⟨MF1, hMF1, by rw [hFI], by omega, ?_, ?_⟩
    · intro hc
      have hskip : (MF.FrameInfo.StackSize / 4 == 0 && !MF.FrameInfo.AdjustsStack) = false := by
        rcases hc with h | h
        · simp [h]
        · simp [h]
      obtain ⟨_, Tail, Others1, hB⟩ := hEm hskip
      rw [truncToInt_neg _ hle] at hB
      exact ⟨Tail, Others1, hB⟩
    · intro hc
      have hskip : (MF.FrameInfo.StackSize / 4 == 0 && !MF.FrameInfo.AdjustsStack) = true := by
        have h1 : MF.FrameInfo.StackSize / 4 = 0 := by
          by_contra h; exact hc (Or.inl h)
        have h2 : MF.FrameInfo.AdjustsStack = false := by
          cases h : MF.FrameInfo.AdjustsStack
          · rfl
          · exact absurd (Or.inr h) hc
        simp [h1, h2]
      exact hSkip hskip
  · intro F FI o hObj hLo hHi hSS hOddO
    have hw : wrapInt 32 (o - getOffsetOfLocalArea + F.FrameInfo.OffsetAdjustment)
        = o + F.FrameInfo.OffsetAdjustment := by
      have : o - getOffsetOfLocalArea + F.FrameInfo.OffsetAdjustment
          = o + F.FrameInfo.OffsetAdjustment := by
        unfold getOffsetOfLocalArea; omega
      rw [this]
      exact wrapInt32_id _ hLo hHi
    have hc := tdiv_four_cases (o + F.FrameInfo.OffsetAdjustment)
    have h64 := wrapInt64_sum ((o + F.FrameInfo.OffsetAdjustment).tdiv 4)
      F.FrameInfo.StackSize (by omega) (by omega) hSS
    have hne : 4 * (o + F.FrameInfo.OffsetAdjustment).tdiv 4 ≠ o + F.FrameInfo.OffsetAdjustment := by
      omega
    simp only [getFrameIndexReference, hObj, hw, h64]
    split_ifs <;> first | exact ⟨_, rfl, Or.inl rfl, hne⟩ | exact ⟨_, rfl, Or.inr rfl, hne⟩

/-- Witness of C20: the frame of 42 bytes of `sampleOddFrame`. -/
theorem frame_lowering_rounds_witness :
    ∃ MF1, emitPrologue sampleTable sampleOddFrame 0 = some MF1 ∧
      MF1.FrameInfo.StackSize = sampleOddFrame.FrameInfo.StackSize / 4 ∧
      4 * (sampleOddFrame.FrameInfo.StackSize / 4) < sampleOddFrame.FrameInfo.StackSize ∧
      ((sampleOddFrame.FrameInfo.StackSize / 4 ≠ 0 ∨
          sampleOddFrame.FrameInfo.AdjustsStack = true) →
        ∃ Tail Others1, MF1.Blocks =
          ({ MCID := get sampleTable Opcode.ADDi
             Operands := [MachineOperand.Reg SIM.SP true false,
               MachineOperand.Reg SIM.SP false false,
               MachineOperand.Imm (-((sampleOddFrame.FrameInfo.StackSize / 4 : Nat) : Int))]
             Flags := MIFlag.FrameSetup
             DL := 0 } :: Tail) :: Others1) ∧
      (¬ (sampleOddFrame.FrameInfo.StackSize / 4 ≠ 0 ∨
          sampleOddFrame.FrameInfo.AdjustsStack = true) →
        MF1.Blocks = sampleOddFrame.Blocks) :=
  (frame_lowering_rounds sampleTable sampleOddFrame [sampleSpill 3 0] [sampleAdd, sampleRet] []
    rfl rfl rfl (by decide) rfl (by decide)).1

/-! ## Select expansion, branch lowering and call lowering -/

/-! ### The select diamond -/

theorem replacePhiUsesWith_length (Old New : Nat) (L : List MachineInstr) :
    (replacePhiUsesWith Old New L).length = L.length := by
  induction L with
  | nil => rfl
  | cons MI Rest ih =>
    unfold replacePhiUsesWith
    split_ifs <;> simp [ih]

theorem replacePhiUsesWith_append (Old New : Nat) (Pre Rest : List MachineInstr)
    (MI : MachineInstr) (h : MI.getOpcode ≠ Opcode.PHI) :
    replacePhiUsesWith Old New (Pre ++ MI :: Rest) =
      replacePhiUsesWith Old New Pre ++ MI :: Rest := by
  induction Pre with
  | nil => simp [replacePhiUsesWith, h]
  | cons X Pre ih =>
    simp only [List.cons_append, replacePhiUsesWith]
    split_ifs <;> simp [ih]

theorem updatePHIs_getElem (Succs : List Nat) (Old New : Nat) (L : List MachineBasicBlock) :
    ∀ i j : Nat, (updatePHIs Succs Old New i L)[j]? =
      (L[j]?).map (fun X =>
        if i + j ∈ Succs then { X with Insts := replacePhiUsesWith Old New X.Insts } else X) := by
  induction L with
  | nil => intro i j; simp [updatePHIs]
  | cons X Rest ih =>
    intro i j
    cases j with
    | zero => simp [updatePHIs]
    | succ j =>
      simp only [updatePHIs, List.getElem?_cons_succ, ih]
      have : i + 1 + j = i + (j + 1) := by omega
      rw [this]

theorem updatePHIs_length (Succs : List Nat) (Old New : Nat) (L : List MachineBasicBlock) :
    ∀ i : Nat, (updatePHIs Succs Old New i L).length = L.length := by
  induction L with
  | nil => intro i; rfl
  | cons X Rest ih => intro i; simp [updatePHIs, ih]

theorem buildDiamond_blocks (T : Opcode → MCInstrDesc) (F : FunctionBlocks) (BB : Nat)
    (This : MachineBasicBlock) (Pre Post : List MachineInstr) (MI : MachineInstr) (It : Nat)
    (BROpcode : Opcode) (LHS Op2 Op0 Op3 Op4 : Register)
    (hThis : F.MBBNumbering[BB]? = some This)
    (hInsts : This.Insts = Pre ++ MI :: Post)
    (hOpc : MI.getOpcode ≠ Opcode.PHI)
    (hSucc : ∀ S ∈ This.Successors, S < F.MBBNumbering.length) (P : Nat) :
    (buildDiamond T F BB Pre.length This MI It BROpcode LHS Op2 Op0 Op3 Op4).1.MBBNumbering[P]? =
        if P = BB then
          some { Insts := (if BB ∈ This.Successors then
                    replacePhiUsesWith BB (F.MBBNumbering.length + 1) Pre else Pre) ++
                    [{ MCID := get T BROpcode
                       Operands := [MachineOperand.Reg LHS false false,
                         MachineOperand.Reg Op2 false false,
                         MachineOperand.MBB (F.MBBNumbering.length + 1)]
                       DL := MI.DL }]
                 Successors := [F.MBBNumbering.length, F.MBBNumbering.length + 1] }
        else if P = F.MBBNumbering.length then
          some { Insts := [], Successors := [F.MBBNumbering.length + 1] }
        else if P = F.MBBNumbering.length + 1 then
          some { Insts :=
                   { MCID := get T Opcode.PHI
                     Operands := [MachineOperand.Reg Op0 true false,
                       MachineOperand.Reg Op3 false false, MachineOperand.MBB BB,
                       MachineOperand.Reg Op4 false false,
                       MachineOperand.MBB F.MBBNumbering.length]
                     DL := MI.DL } :: Post
                 Successors := This.Successors }
        else
          (F.MBBNumbering[P]?).map (fun X =>
            if P ∈ This.Successors then
              { X with Insts := replacePhiUsesWith BB (F.MBBNumbering.length + 1) X.Insts }
            else X) := by
  have hlt : BB < F.MBBNumbering.length := by
    rcases Nat.lt_or_ge BB F.MBBNumbering.length with h | h
    · exact h
    · rw [List.getElem?_eq_none h] at hThis; cases hThis
  have hne : F.MBBNumbering.length + 1 ≠ BB := by omega
  have hn1 : F.MBBNumbering.length + 1 ∉ This.Successors := fun h => by
    have := hSucc _ h; omega
  have hn0 : F.MBBNumbering.length ∉ This.Successors := fun h => by
    have := hSucc _ h; omega
  simp only [buildDiamond, setInsts, addSuccessor, transferSuccessorsAndUpdatePHIs, hne,
    if_false, List.getElem?_modify, updatePHIs_getElem, Nat.zero_add]
  have hBB : ∀ a b : MachineBasicBlock, (F.MBBNumbering ++ [a, b])[BB]? = some This := by
    intro a b; rw [List.getElem?_append_left hlt]; exact hThis
  simp only [hBB, Option.map_eq_map, Option.map_some', if_true]
  by_cases h1 : P = BB
  · subst h1
    have h2 : F.MBBNumbering.length ≠ P := by omega
    have h3 : F.MBBNumbering.length + 1 ≠ P := by omega
    simp only [hBB, Option.map_some', if_true, h2, h3, if_false, hInsts]
    have ht : List.take (Pre.length + 1) (Pre ++ MI :: Post) = Pre ++ [MI] := by
      rw [List.take_append_eq_append_take]; simp
    simp only [ht]
    by_cases hs : P ∈ This.Successors
    · simp only [hs, if_true, replacePhiUsesWith_append _ _ _ _ _ hOpc, Option.some.injEq,
        MachineBasicBlock.mk.injEq, List.append_assoc, List.singleton_append]
      refine ⟨?_, by simp⟩
      have hl := replacePhiUsesWith_length P (F.MBBNumbering.length + 1) Pre
      rw [← hl, eraseIdx_append_zero]
    · simp only [hs, if_false, Option.some.injEq, MachineBasicBlock.mk.injEq, List.append_assoc,
        List.singleton_append]
      refine ⟨?_, by simp⟩
      rw [eraseIdx_append_zero]
  · have h1' : BB ≠ P := fun h => h1 h.symm
    simp only [h1, h1', if_false, Option.map_eq_map, id_eq]
    by_cases h2 : P = F.MBBNumbering.length
    · subst h2
      have h3 : F.MBBNumbering.length + 1 ≠ F.MBBNumbering.length := by omega
      rw [List.getElem?_append_right (le_refl _)]
      simp [h3, hn0]
    · have h2' : F.MBBNumbering.length ≠ P := fun h => h2 h.symm
      simp only [h2, h2', if_false]
      by_cases h3 : P = F.MBBNumbering.length + 1
      · subst h3
        rw [List.getElem?_append_right (by omega)]
        simp [hn1, hInsts]
      · have h3' : F.MBBNumbering.length + 1 ≠ P := fun h => h3 h.symm
        simp only [h3, h3', if_false]
        by_cases h4 : P < F.MBBNumbering.length
        · rw [List.getElem?_append_left h4]
          cases F.MBBNumbering[P]? <;> rfl
        · have h5 : (F.MBBNumbering ++ [({ Insts := [], Successors := [] } : MachineBasicBlock),
              { Insts := [], Successors := [] }])[P]? = none :=
            List.getElem?_eq_none (by simp; omega)
          rw [h5, List.getElem?_eq_none (by omega)]
          rfl

theorem indexOf_isSome (l : List Nat) (a : Nat) (h : a ∈ l) : ∃ i, l.indexOf? a = some i := by
  cases hi : l.indexOf? a with
  | some i => exact ⟨i, rfl⟩
  | none =>
    rw [List.indexOf?_eq_none_iff] at hi
    exact absurd (by simp) (hi a h)

theorem buildDiamond_length (T : Opcode → MCInstrDesc) (F : FunctionBlocks) (BB I : Nat)
    (This : MachineBasicBlock) (MI : MachineInstr) (It : Nat) (BROpcode : Opcode)
    (LHS Op2 Op0 Op3 Op4 : Register) :
    (buildDiamond T F BB I This MI It BROpcode LHS Op2 Op0 Op3 Op4).1.MBBNumbering.length =
      F.MBBNumbering.length + 2 := by
  simp only [buildDiamond, setInsts, addSuccessor, transferSuccessorsAndUpdatePHIs,
    List.length_modify]
  split_ifs <;> simp [updatePHIs_length, List.length_modify]

/-- A list split at the first place of an element. -/
theorem indexOf_split (l : List Nat) (a : Nat) :
    ∀ i, l.indexOf? a = some i → ∃ L1 L2, l = L1 ++ a :: L2 ∧ a ∉ L1 ∧ L1.length = i := by
  induction l with
  | nil => intro i h; simp [List.indexOf?] at h
  | cons x xs ih =>
    intro i h
    by_cases hx : x = a
    · subst hx
      have : i = 0 := by
        simp [List.indexOf?, List.findIdx?_cons] at h
        omega
      exact ⟨[], xs, rfl, by simp, by simp [this]⟩
    · have h2 : (xs.indexOf? a).map (fun j => j + 1) = some i := by
        simp only [List.indexOf?, List.findIdx?_cons] at h
        have hb : (x == a) = false := by simpa using hx
        rw [hb] at h
        simp only [Bool.false_eq_true, if_false] at h
        rw [List.findIdx?_succ] at h
        exact h
      cases hj : xs.indexOf? a with
      | none => rw [hj] at h2; cases h2
      | some j =>
        rw [hj] at h2
        simp only [Option.map_some', Option.some.injEq] at h2
        obtain ⟨L1, L2, e, hn, hl⟩ := ih j hj
        refine ⟨x :: L1, L2, by rw [e]; rfl, ?_, by simp [hl, h2]⟩
        simp only [List.mem_cons, not_or]
        exact ⟨fun h => hx h.symm, hn⟩

/-- The layout after `buildDiamond`: the two new blocks right after the block
at the place `It`. -/
theorem buildDiamond_layout (T : Opcode → MCInstrDesc) (F : FunctionBlocks) (BB I : Nat)
    (This : MachineBasicBlock) (MI : MachineInstr) (It : Nat) (BROpcode : Opcode)
    (LHS Op2 Op0 Op3 Op4 : Register) :
    (buildDiamond T F BB I This MI It BROpcode LHS Op2 Op0 Op3 Op4).1.BasicBlocks =
      F.BasicBlocks.take (It + 1) ++ [F.MBBNumbering.length, F.MBBNumbering.length + 1] ++
        F.BasicBlocks.drop (It + 1) := by
  simp only [buildDiamond, setInsts, addSuccessor, transferSuccessorsAndUpdatePHIs]
  split_ifs <;> rfl

theorem expandSelectCC_builds (T : Opcode → MCInstrDesc) (F : FunctionBlocks) (BB : Nat)
    (This : MachineBasicBlock) (Pre Post : List MachineInstr) (MI : MachineInstr)
    (Dest LHS RHS TV FV : Register) (d0 k0 d1 k1 d2 k2 d3 k3 d4 k4 : Bool) (CC : ISD.CondCode)
    (hThis : F.MBBNumbering[BB]? = some This)
    (hInsts : This.Insts = Pre ++ MI :: Post)
    (hOps : MI.Operands = [MachineOperand.Reg Dest d0 k0, MachineOperand.Reg LHS d1 k1,
      MachineOperand.Reg RHS d2 k2, MachineOperand.Reg TV d3 k3, MachineOperand.Reg FV d4 k4,
      MachineOperand.Imm CC.toImm])
    (hCC : CC ∈ [ISD.CondCode.SETEQ, ISD.CondCode.SETNE, ISD.CondCode.SETLT, ISD.CondCode.SETGT,
      ISD.CondCode.SETLE, ISD.CondCode.SETGE, ISD.CondCode.SETULT, ISD.CondCode.SETUGT,
      ISD.CondCode.SETULE, ISD.CondCode.SETUGE])
    (hLayout : BB ∈ F.BasicBlocks) :
    ∃ It Opc, F.BasicBlocks.indexOf? BB = some It ∧ isCondBranchOpcode Opc = true ∧
      convertCondCodeToInstruction
        (if (CC == .SETLT || CC == .SETGE || CC == .SETULT || CC == .SETUGE) = true
          then ISD.getSetCCSwappedOperands CC else CC) = some Opc ∧
      expandSelectCC T F BB Pre.length =
        some (buildDiamond T F BB Pre.length This MI It Opc
          (if (CC == .SETLT || CC == .SETGE || CC == .SETULT || CC == .SETUGE) = true
            then RHS else LHS) RHS Dest TV FV) := by
  obtain ⟨It, hIt⟩ := indexOf_isSome _ _ hLayout
  have hMI : This.Insts[Pre.length]? = some MI := by
    rw [hInsts]; exact getElem_append_zero _ _ _
  have key : ∀ CC0 : ISD.CondCode, MI.Operands = [MachineOperand.Reg Dest d0 k0,
      MachineOperand.Reg LHS d1 k1, MachineOperand.Reg RHS d2 k2, MachineOperand.Reg TV d3 k3,
      MachineOperand.Reg FV d4 k4, MachineOperand.Imm CC0.toImm] →
      ISD.CondCode.ofImm CC0.toImm = some CC0 →
      ∀ Opc, convertCondCodeToInstruction
        (if (CC0 == .SETLT || CC0 == .SETGE || CC0 == .SETULT || CC0 == .SETUGE) = true
          then ISD.getSetCCSwappedOperands CC0 else CC0) = some Opc →
      expandSelectCC T F BB Pre.length =
        some (buildDiamond T F BB Pre.length This MI It Opc
          (if (CC0 == .SETLT || CC0 == .SETGE || CC0 == .SETULT || CC0 == .SETUGE) = true
            then RHS else LHS) RHS Dest TV FV) := by
    intro CC0 hO hC Opc hOpc
    simp only [expandSelectCC, hThis, hMI, MachineInstr.getOperand, hO, hIt]
    simp only [Bool.or_eq_true, beq_iff_eq] at hOpc
    simp [MachineOperand.getImm, MachineOperand.getReg, hC, hOpc]
  simp only [List.mem_cons, List.mem_singleton, List.not_mem_nil, or_false] at hCC
  rcases hCC with h | h | h | h | h | h | h | h | h | h <;> subst h
  · exact ⟨It, Opcode.BEQ, hIt, rfl, rfl, key _ hOps rfl _ rfl⟩
  · exact ⟨It, Opcode.BNE, hIt, rfl, rfl, key _ hOps rfl _ rfl⟩
  · exact ⟨It, Opcode.BGT, hIt, rfl, rfl, key _ hOps rfl _ rfl⟩
  · exact ⟨It, Opcode.BGT, hIt, rfl, rfl, key _ hOps rfl _ rfl⟩
  · exact ⟨It, Opcode.BLE, hIt, rfl, rfl, key _ hOps rfl _ rfl⟩
  · exact ⟨It, Opcode.BLE, hIt, rfl, rfl, key _ hOps rfl _ rfl⟩
  · exact ⟨It, Opcode.BGT, hIt, rfl, rfl, key _ hOps rfl _ rfl⟩
  · exact ⟨It, Opcode.BGT, hIt, rfl, rfl, key _ hOps rfl _ rfl⟩
  · exact ⟨It, Opcode.BLE, hIt, rfl, rfl, key _ hOps rfl _ rfl⟩
  · exact ⟨It, Opcode.BLE, hIt, rfl, rfl, key _ hOps rfl _ rfl⟩

/-! ### The argument assignment and the by-value copies -/

theorem AssignArgumentsFrom_spec (ArgRegs : List Register) :
    ∀ (L : List MVT) (ValNo Used Offset : Nat), Offset % 4 = 0 →
      (AssignArgumentsFrom ArgRegs L ValNo Used Offset).1.length = L.length ∧
      (AssignArgumentsFrom ArgRegs L ValNo Used Offset).2 =
        Offset + 4 * (L.length - (ArgRegs.length - Used)) ∧
      ∀ (i : Nat) (VT : MVT), L[i]? = some VT →
        (AssignArgumentsFrom ArgRegs L ValNo Used Offset).1[i]? =
          some ({ ValNo := ValNo + i, ValVT := VT, LocVT := VT, HTP := LocInfo.Full
                  Loc := match ArgRegs[Used + i]? with
                    | some Reg => CCLoc.Reg Reg
                    | none => CCLoc.Mem (Offset + 4 * (i - (ArgRegs.length - Used))) } :
            CCValAssign) := by
  intro L
  induction L with
  | nil =>
    intro ValNo Used Offset _
    simp [AssignArgumentsFrom]
  | cons VT0 Rest ih =>
    intro ValNo Used Offset hO
    cases hR : ArgRegs[Used]? with
    | some Reg =>
      have hlt : Used < ArgRegs.length := by
        rcases Nat.lt_or_ge Used ArgRegs.length with h | h
        · exact h
        · rw [List.getElem?_eq_none h] at hR; cases hR
      obtain ⟨h1, h2, h3⟩ := ih (ValNo + 1) (Used + 1) Offset hO
      simp only [AssignArgumentsFrom, hR, List.length_cons, h1, h2, true_and]
      refine ⟨by omega, ?_⟩
      intro i VT hi
      cases i with
      | zero =>
        simp only [List.getElem?_cons_zero, Option.some.injEq] at hi
        subst hi
        simp [hR]
      | succ i =>
        rw [List.getElem?_cons_succ] at hi
        rw [List.getElem?_cons_succ, h3 i VT hi]
        have e1 : Used + 1 + i = Used + (i + 1) := by omega
        have e2 : ValNo + 1 + i = ValNo + (i + 1) := by omega
        have e3 : i - (ArgRegs.length - (Used + 1)) = i + 1 - (ArgRegs.length - Used) := by omega
        rw [e1, e2, e3]
    | none =>
      have hge : ArgRegs.length ≤ Used := by
        rcases Nat.lt_or_ge Used ArgRegs.length with h | h
        · rw [List.getElem?_eq_getElem h] at hR; cases hR
        · exact h
      have hSlot : (Offset + 3) / 4 * 4 = Offset := by omega
      obtain ⟨h1, h2, h3⟩ := ih (ValNo + 1) Used (Offset + 4) (by omega)
      simp only [AssignArgumentsFrom, hR, List.length_cons, hSlot, h1, h2, true_and]
      refine ⟨by omega, ?_⟩
      intro i VT hi
      cases i with
      | zero =>
        simp only [List.getElem?_cons_zero, Option.some.injEq] at hi
        subst hi
        simp [hR]
      | succ i =>
        rw [List.getElem?_cons_succ] at hi
        rw [List.getElem?_cons_succ, h3 i VT hi]
        have hn1 : ArgRegs[Used + i]? = none := List.getElem?_eq_none (by omega)
        have hn2 : ArgRegs[Used + (i + 1)]? = none := List.getElem?_eq_none (by omega)
        have e2 : ValNo + 1 + i = ValNo + (i + 1) := by omega
        have e3 : Offset + 4 + 4 * (i - (ArgRegs.length - Used)) =
            Offset + 4 * (i + 1 - (ArgRegs.length - Used)) := by omega
        rw [hn1, hn2, e2]
        simp only [e3]

theorem isUInt_iff (N : Nat) (hN : N ≤ 63) (v : Int) (hlo : -(2 ^ 63 : Int) ≤ v)
    (hhi : v < 2 ^ 63) : isUInt N v = true ↔ 0 ≤ v ∧ v < 2 ^ N := by
  simp only [isUInt, toUInt64, decide_eq_true_eq]
  have hp : (2 : Int) ^ N ≤ 2 ^ 63 := pow_le_pow_right₀ (by norm_num) hN
  have hpn : (2 : Nat) ^ N ≤ 2 ^ 63 := Nat.pow_le_pow_right (by norm_num) hN
  have hcast : ((2 ^ N : Nat) : Int) = (2 : Int) ^ N := by push_cast; rfl
  constructor
  · intro h
    by_cases h0 : 0 ≤ v
    · have : v % 2 ^ 64 = v := Int.emod_eq_of_lt h0 (by omega)
      rw [this] at h
      omega
    · have : v % 2 ^ 64 = v + 2 ^ 64 := by omega
      rw [this] at h
      omega
  · rintro ⟨h0, h1⟩
    have : v % 2 ^ 64 = v := Int.emod_eq_of_lt h0 (by omega)
    rw [this]
    omega

theorem isInt16_iff (v : Int) : isInt 16 v = true ↔ -32768 ≤ v ∧ v ≤ 32767 := by
  simp only [isInt, Bool.and_eq_true, decide_eq_true_eq]
  norm_num
  omega

theorem verifyOperands_spec (FT : Nat) (MI : MachineInstr)
    (hRange : ∀ v, MachineOperand.Imm v ∈ MI.Operands → -(2 ^ 63 : Int) ≤ v ∧ v < 2 ^ 63) :
    ∀ (L : List MCOperandInfo) (i : Nat), i + L.length ≤ MI.Operands.length →
      ∃ Ok, verifyOperands FT MI i L = some Ok ∧
        (Ok = true ↔ ∀ j OI v, L[j]? = some OI → MI.Operands[i + j]? = some (MachineOperand.Imm v) →
          (OI.OperandType = SimOp.OPERAND_SIMM16 FT → -32768 ≤ v ∧ v ≤ 32767) ∧
          (OI.OperandType = SimOp.OPERAND_UIMM16 FT → 0 ≤ v ∧ v ≤ 65535) ∧
          (OI.OperandType = SimOp.OPERAND_UIMM5 FT → 0 ≤ v ∧ v ≤ 31)) := by
  intro L
  induction L with
  | nil =>
    intro i _
    exact ⟨true, rfl, by simp⟩
  | cons OI Rest ih =>
    intro i hi
    simp only [List.length_cons] at hi
    obtain ⟨Ok1, hOk1, hIff1⟩ := ih (i + 1) (by omega)
    have hlt : i < MI.Operands.length := by omega
    -- the condition on the operands after the first
    have hShift : (∀ j OI1 v, Rest[j]? = some OI1 →
          MI.Operands[i + 1 + j]? = some (MachineOperand.Imm v) →
          (OI1.OperandType = SimOp.OPERAND_SIMM16 FT → -32768 ≤ v ∧ v ≤ 32767) ∧
          (OI1.OperandType = SimOp.OPERAND_UIMM16 FT → 0 ≤ v ∧ v ≤ 65535) ∧
          (OI1.OperandType = SimOp.OPERAND_UIMM5 FT → 0 ≤ v ∧ v ≤ 31)) ↔
        (∀ j OI1 v, (OI :: Rest)[j + 1]? = some OI1 →
          MI.Operands[i + (j + 1)]? = some (MachineOperand.Imm v) →
          (OI1.OperandType = SimOp.OPERAND_SIMM16 FT → -32768 ≤ v ∧ v ≤ 32767) ∧
          (OI1.OperandType = SimOp.OPERAND_UIMM16 FT → 0 ≤ v ∧ v ≤ 65535) ∧
          (OI1.OperandType = SimOp.OPERAND_UIMM5 FT → 0 ≤ v ∧ v ≤ 31)) := by
      constructor
      · intro h j OI1 v h1 h2
        rw [List.getElem?_cons_succ] at h1
        have e : i + (j + 1) = i + 1 + j := by omega
        rw [e] at h2
        exact h j OI1 v h1 h2
      · intro h j OI1 v h1 h2
        have e : i + 1 + j = i + (j + 1) := by omega
        rw [e] at h2
        exact h j OI1 v (by rw [List.getElem?_cons_succ]; exact h1) h2
    -- splitting the condition on all operands
    have hSplit : ∀ (P0 : Prop),
        (P0 ↔ ∀ OI1 v, (OI :: Rest)[0]? = some OI1 →
          MI.Operands[i + 0]? = some (MachineOperand.Imm v) →
          (OI1.OperandType = SimOp.OPERAND_SIMM16 FT → -32768 ≤ v ∧ v ≤ 32767) ∧
          (OI1.OperandType = SimOp.OPERAND_UIMM16 FT → 0 ≤ v ∧ v ≤ 65535) ∧
          (OI1.OperandType = SimOp.OPERAND_UIMM5 FT → 0 ≤ v ∧ v ≤ 31)) →
        ((P0 ∧ Ok1 = true) ↔
          ∀ j OI1 v, (OI :: Rest)[j]? = some OI1 →
            MI.Operands[i + j]? = some (MachineOperand.Imm v) →
            (OI1.OperandType = SimOp.OPERAND_SIMM16 FT → -32768 ≤ v ∧ v ≤ 32767) ∧
            (OI1.OperandType = SimOp.OPERAND_UIMM16 FT → 0 ≤ v ∧ v ≤ 65535) ∧
            (OI1.OperandType = SimOp.OPERAND_UIMM5 FT → 0 ≤ v ∧ v ≤ 31)) := by
      intro P0 hP0
      rw [hP0, hIff1, hShift]
      constructor
      · rintro ⟨h0, hs⟩ j
        cases j with
        | zero => exact h0
        | succ j => exact hs j
      · intro h
        exact ⟨h 0, fun j => h (j + 1)⟩
    obtain ⟨MO, hMO⟩ : ∃ MO, MI.Operands[i]? = some MO :=
      ⟨MI.Operands[i], List.getElem?_eq_getElem hlt⟩
    unfold verifyOperands
    simp only [MachineInstr.getOperand, hMO, hOk1]
    by_cases hT : SimOp.OPERAND_SIMM16 FT ≤ OI.OperandType ∧
        OI.OperandType ≤ SimOp.OPERAND_UIMM5 FT
    · rw [if_pos hT]
      have hRest : ∀ MO1 : MachineOperand, MI.Operands[i]? = some MO1 →
          (∀ v, MO1 ≠ MachineOperand.Imm v) →
          ∃ Ok, some Ok1 = some Ok ∧
            (Ok = true ↔ ∀ j OI1 v, (OI :: Rest)[j]? = some OI1 →
              MI.Operands[i + j]? = some (MachineOperand.Imm v) →
              (OI1.OperandType = SimOp.OPERAND_SIMM16 FT → -32768 ≤ v ∧ v ≤ 32767) ∧
              (OI1.OperandType = SimOp.OPERAND_UIMM16 FT → 0 ≤ v ∧ v ≤ 65535) ∧
              (OI1.OperandType = SimOp.OPERAND_UIMM5 FT → 0 ≤ v ∧ v ≤ 31)) := by
        intro MO1 h1 hne
        refine ⟨Ok1, rfl, ?_⟩
        rw [← hSplit True]
        · simp
        · simp only [true_iff, Nat.add_zero]
          intro OI1 v _ h2
          rw [h1] at h2
          exact absurd (Option.some.inj h2) (hne v)
      cases MO with
      | Imm v =>
        obtain ⟨hlo, hhi⟩ := hRange v (List.getElem?_mem hMO)
        simp only
        have hOkIff : ((if OI.OperandType = SimOp.OPERAND_SIMM16 FT then isInt 16 v
              else if OI.OperandType = SimOp.OPERAND_UIMM16 FT then isUInt 16 v
              else isUInt 5 v) = true) ↔
            ∀ OI1 v1, (OI :: Rest)[0]? = some OI1 →
              MI.Operands[i + 0]? = some (MachineOperand.Imm v1) →
              (OI1.OperandType = SimOp.OPERAND_SIMM16 FT → -32768 ≤ v1 ∧ v1 ≤ 32767) ∧
              (OI1.OperandType = SimOp.OPERAND_UIMM16 FT → 0 ≤ v1 ∧ v1 ≤ 65535) ∧
              (OI1.OperandType = SimOp.OPERAND_UIMM5 FT → 0 ≤ v1 ∧ v1 ≤ 31) := by
          simp only [List.getElem?_cons_zero, Option.some.injEq, Nat.add_zero, hMO,
            MachineOperand.Imm.injEq]
          have h16 := isUInt_iff 16 (by norm_num) v hlo hhi
          have h5 := isUInt_iff 5 (by norm_num) v hlo hhi
          have hs := isInt16_iff v
          simp only [SimOp.OPERAND_SIMM16, SimOp.OPERAND_UIMM16, SimOp.OPERAND_UIMM5] at hT ⊢
          constructor
          · intro h OI1 v1 e1 e2
            subst e1
            subst e2
            split_ifs at h with c1 c2
            · exact ⟨fun _ => hs.1 h, fun c => by omega, fun c => by omega⟩
            · have := h16.1 h
              exact ⟨fun c => absurd c c1, fun _ => ⟨this.1, by norm_num at this; omega⟩,
                fun c => by omega⟩
            · have := h5.1 h
              exact ⟨fun c => absurd c c1, fun c => absurd c c2,
                fun _ => ⟨this.1, by norm_num at this; omega⟩⟩
          · intro h
            obtain ⟨a1, a2, a3⟩ := h OI v rfl rfl
            split_ifs with c1 c2
            · exact hs.2 (a1 c1)
            · exact h16.2 ⟨(a2 c2).1, by have := (a2 c2).2; norm_num; omega⟩
            · have c3 : OI.OperandType = FT + 2 := by omega
              exact h5.2 ⟨(a3 c3).1, by have := (a3 c3).2; norm_num; omega⟩
        cases hOk : (if OI.OperandType = SimOp.OPERAND_SIMM16 FT then isInt 16 v
              else if OI.OperandType = SimOp.OPERAND_UIMM16 FT then isUInt 16 v
              else isUInt 5 v)
        · rw [hOk] at hOkIff
          refine ⟨false, by simp, ?_⟩
          rw [← hSplit (false = true) hOkIff]
          simp
        · rw [hOk] at hOkIff
          refine ⟨Ok1, by simp, ?_⟩
          rw [← hSplit (true = true) hOkIff]
          simp
      | Reg r d k => exact hRest _ hMO (fun v h => by cases h)
      | MBB b => exact hRest _ hMO (fun v h => by cases h)
      | FI idx => exact hRest _ hMO (fun v h => by cases h)
    · rw [if_neg hT]
      refine ⟨Ok1, rfl, ?_⟩
      rw [← hSplit True]
      · simp
      · simp only [true_iff, List.getElem?_cons_zero, Option.some.injEq, Nat.add_zero]
        intro OI1 v h1 _
        subst h1
        simp only [SimOp.OPERAND_SIMM16, SimOp.OPERAND_UIMM16, SimOp.OPERAND_UIMM5] at hT ⊢
        refine ⟨fun h => ?_, fun h => ?_, fun h => ?_⟩ <;> exact absurd hT (by omega)

/-! ### The claims on the lowering -/

/-- C21 (the code fails the claim): for the select
`%0 = PseudoSELECT_CC %1, %2, %3, %4, kind` with lhs `%1` and rhs `%2`,
`expandSelectCC` emits, for the kind LT, the branch `BGT %2, %2` and, for the
kind GE, the branch `BLE %2, %2`: the kind is the operand-swapped one and the
first register is rhs, but the second register is rhs again, not lhs
(line 698 reads the operand 2 of the pseudo where the exchanged `RHS` was
meant).  The conditional-branch lowering path, `translateSetCCForBranch`, gives
(rhs, lhs, GT) and (rhs, lhs, LE) on the same input. -/
theorem expandSelectCC_second_operand :
    (expandSelectCC sampleTable (sampleBlocks ISD.CondCode.SETLT) 0 1).bind
        (fun R => (R.1.MBBNumbering[0]?).bind (fun B => B.Insts.getLast?))
      = some { MCID := get sampleTable Opcode.BGT
               Operands := [MachineOperand.Reg (Register.Virt 2) false false,
                 MachineOperand.Reg (Register.Virt 2) false false, MachineOperand.MBB 3] } ∧
    (expandSelectCC sampleTable (sampleBlocks ISD.CondCode.SETGE) 0 1).bind
        (fun R => (R.1.MBBNumbering[0]?).bind (fun B => B.Insts.getLast?))
      = some { MCID := get sampleTable Opcode.BLE
               Operands := [MachineOperand.Reg (Register.Virt 2) false false,
                 MachineOperand.Reg (Register.Virt 2) false false, MachineOperand.MBB 3] } ∧
    translateSetCCForBranch (SDValue.Register (Register.Virt 1) MVT.i32)
        (SDValue.Register (Register.Virt 2) MVT.i32) ISD.CondCode.SETLT
      = (SDValue.Register (Register.Virt 2) MVT.i32, SDValue.Register (Register.Virt 1) MVT.i32,
          ISD.CondCode.SETGT) ∧
    translateSetCCForBranch (SDValue.Register (Register.Virt 1) MVT.i32)
        (SDValue.Register (Register.Virt 2) MVT.i32) ISD.CondCode.SETGE
      = (SDValue.Register (Register.Virt 2) MVT.i32, SDValue.Register (Register.Virt 1) MVT.i32,
          ISD.CondCode.SETLE) :=
  ⟨by decide, by decide, rfl, rfl⟩

/-- C22: `expandSelectCC` on a block `BB` whose instructions are
`Pre ++ MI :: Post`, `MI` being a select pseudo-instruction
(dest, lhs, rhs, tv, fv, kind) of an integer comparison kind, returns, and
produces a diamond with the two new blocks `n` (the false block) and `n + 1`
(the merge block), `n` being the number of blocks before the call.  `BB` keeps
`Pre` in order, followed by one new conditional branch whose target is the
merge block, and its successors are exactly the false block and the merge
block.  The false block is empty and has the merge block as its only
successor.  The merge block holds, after one new `PHI` that defines dest as tv
on the edge from `BB` and as fv on the edge from the false block, the
instructions `Post` in order, and has the former successors of `BB`; its
incoming edges are exactly the one from `BB` and the one from the false block.
Every other block keeps its instructions and its successors.  The pseudo is
gone, and no other instruction is lost or duplicated.  (The `PHI` instructions
at the head of a former successor of `BB`, `BB` itself included when it is its
own successor, name the merge block where they named `BB`: this is the
rewriting done by `replacePhiUsesWith`.)  The new branch is given in full: its
opcode is the one of the kind, operand-swapped for LT, GE, ULT and UGE, its
registers are lhs (rhs for the swapped kinds) and rhs, and its debug location is
the one of the pseudo.  In the layout of the function the false block and the
merge block are inserted, in this order, right after `BB`, so that the false
block falls through to the merge block; the rest of the layout is unchanged. -/
theorem expandSelectCC_diamond (T : Opcode → MCInstrDesc) (F : FunctionBlocks) (BB : Nat)
    (This : MachineBasicBlock) (Pre Post : List MachineInstr) (MI : MachineInstr)
    (Dest LHS RHS TV FV : Register) (d0 k0 d1 k1 d2 k2 d3 k3 d4 k4 : Bool) (CC : ISD.CondCode)
    (hThis : F.MBBNumbering[BB]? = some This)
    (hInsts : This.Insts = Pre ++ MI :: Post)
    (hOpc : MI.getOpcode = Opcode.PseudoSELECT_CC)
    (hOps : MI.Operands = [MachineOperand.Reg Dest d0 k0, MachineOperand.Reg LHS d1 k1,
      MachineOperand.Reg RHS d2 k2, MachineOperand.Reg TV d3 k3, MachineOperand.Reg FV d4 k4,
      MachineOperand.Imm CC.toImm])
    (hCC : CC ∈ [ISD.CondCode.SETEQ, ISD.CondCode.SETNE, ISD.CondCode.SETLT, ISD.CondCode.SETGT,
      ISD.CondCode.SETLE, ISD.CondCode.SETGE, ISD.CondCode.SETULT, ISD.CondCode.SETUGT,
      ISD.CondCode.SETULE, ISD.CondCode.SETUGE])
    (hLayout : BB ∈ F.BasicBlocks)
    (hWF : ∀ X ∈ F.MBBNumbering, ∀ S ∈ X.Successors, S < F.MBBNumbering.length) :
    ∃ F1 Br,
      expandSelectCC T F BB Pre.length = some (F1, F.MBBNumbering.length + 1) ∧
      F1.MBBNumbering.length = F.MBBNumbering.length + 2 ∧
      isCondBranchOpcode Br.getOpcode = true ∧
      Br.getOperand 2 = some (MachineOperand.MBB (F.MBBNumbering.length + 1)) ∧
      F1.MBBNumbering[BB]? =
        some { Insts := (if BB ∈ This.Successors then
                  replacePhiUsesWith BB (F.MBBNumbering.length + 1) Pre else Pre) ++ [Br]
               Successors := [F.MBBNumbering.length, F.MBBNumbering.length + 1] } ∧
      F1.MBBNumbering[F.MBBNumbering.length]? =
        some { Insts := [], Successors := [F.MBBNumbering.length + 1] } ∧
      F1.MBBNumbering[F.MBBNumbering.length + 1]? =
        some { Insts :=
                 { MCID := get T Opcode.PHI
                   Operands := [MachineOperand.Reg Dest true false,
                     MachineOperand.Reg TV false false, MachineOperand.MBB BB,
                     MachineOperand.Reg FV false false,
                     MachineOperand.MBB F.MBBNumbering.length]
                   DL := MI.DL } :: Post
               Successors := This.Successors } ∧
      (∀ P X, F1.MBBNumbering[P]? = some X →
        (F.MBBNumbering.length + 1 ∈ X.Successors ↔ P = BB ∨ P = F.MBBNumbering.length)) ∧
      (∀ P X, P ≠ BB → F.MBBNumbering[P]? = some X →
        F1.MBBNumbering[P]? =
          some { Insts := if P ∈ This.Successors then
                     replacePhiUsesWith BB (F.MBBNumbering.length + 1) X.Insts else X.Insts
                 Successors := X.Successors }) ∧
      (∃ Opc,
        convertCondCodeToInstruction
          (if (CC == .SETLT || CC == .SETGE || CC == .SETULT || CC == .SETUGE) = true
            then ISD.getSetCCSwappedOperands CC else CC) = some Opc ∧
        Br = { MCID := get T Opc
               Operands := [MachineOperand.Reg
                   (if (CC == .SETLT || CC == .SETGE || CC == .SETULT || CC == .SETUGE) = true
                     then RHS else LHS) false false,
                 MachineOperand.Reg RHS false false,
                 MachineOperand.MBB (F.MBBNumbering.length + 1)]
               DL := MI.DL }) ∧
      (∃ L1 L2, F.BasicBlocks = L1 ++ BB :: L2 ∧ BB ∉ L1 ∧
        F1.BasicBlocks =
          L1 ++ BB :: F.MBBNumbering.length :: (F.MBBNumbering.length + 1) :: L2) := by
  have hlt : BB < F.MBBNumbering.length := by
    rcases Nat.lt_or_ge BB F.MBBNumbering.length with h | h
    · exact h
    · rw [List.getElem?_eq_none h] at hThis; cases hThis
  have hSucc : ∀ S ∈ This.Successors, S < F.MBBNumbering.length :=
    hWF This (List.getElem?_mem hThis)
  have hPhi : MI.getOpcode ≠ Opcode.PHI := by rw [hOpc]; decide
  obtain ⟨It, Opc, hIt, hBr, hConv, hE⟩ := expandSelectCC_builds T F BB This Pre Post MI Dest LHS
    RHS TV FV d0 k0 d1 k1 d2 k2 d3 k3 d4 k4 CC hThis hInsts hOps hCC hLayout
  obtain ⟨L1, L2, hL, hNot, hLen⟩ := indexOf_split _ _ _ hIt
  have hB := buildDiamond_blocks T F BB This Pre Post MI It Opc
    (if (CC == .SETLT || CC == .SETGE || CC == .SETULT || CC == .SETUGE) = true
      then RHS else LHS) RHS Dest TV FV hThis hInsts hPhi hSucc
  refine ⟨(buildDiamond T F BB Pre.length This MI It Opc
      (if (CC == .SETLT || CC == .SETGE || CC == .SETULT || CC == .SETUGE) = true
        then RHS else LHS) RHS Dest TV FV).1,
    { MCID := get T Opc
      Operands := [MachineOperand.Reg
          (if (CC == .SETLT || CC == .SETGE || CC == .SETULT || CC == .SETUGE) = true
            then RHS else LHS) false false,
        MachineOperand.Reg RHS false false,
        MachineOperand.MBB (F.MBBNumbering.length + 1)]
      DL := MI.DL }, ?_, buildDiamond_length _ _ _ _ _ _ _ _ _ _ _ _ _, hBr, rfl, ?_, ?_, ?_, ?_, ?_,
    ⟨Opc, hConv, rfl⟩, ⟨L1, L2, hL, hNot, ?_⟩⟩
  · rw [hE]; rfl
  · rw [hB, if_pos rfl]
  · rw [hB, if_neg (by omega), if_pos rfl]
  · rw [hB, if_neg (by omega), if_neg (by omega), if_pos rfl]
  · intro P X hX
    rw [hB] at hX
    by_cases h1 : P = BB
    · rw [if_pos h1] at hX
      cases hX
      simp [h1]
    · rw [if_neg h1] at hX
      by_cases h2 : P = F.MBBNumbering.length
      · rw [if_pos h2] at hX
        cases hX
        simp [h2]
      · rw [if_neg h2] at hX
        by_cases h3 : P = F.MBBNumbering.length + 1
        · rw [if_pos h3] at hX
          cases hX
          simp only [h1, h2, or_self, iff_false]
          intro h
          have := hSucc _ h
          omega
        · rw [if_neg h3] at hX
          cases hY : F.MBBNumbering[P]? with
          | none => rw [hY] at hX; cases hX
          | some Y =>
            rw [hY] at hX
            simp only [Option.map_some', Option.some.injEq] at hX
            have hYs : F.MBBNumbering.length + 1 ∉ Y.Successors := fun h => by
              have := hWF Y (List.getElem?_mem hY) _ h
              omega
            have hXs : X.Successors = Y.Successors := by
              rw [← hX]; split_ifs <;> rfl
            simp [hXs, hYs, h1, h2]
  · intro P X hP hX
    have hPlt : P < F.MBBNumbering.length := by
      rcases Nat.lt_or_ge P F.MBBNumbering.length with h | h
      · exact h
      · rw [List.getElem?_eq_none h] at hX; cases hX
    rw [hB, if_neg hP, if_neg (by omega), if_neg (by omega), hX]
    simp only [Option.map_some', Option.some.injEq]
    split_ifs <;> rfl
  · rw [buildDiamond_layout, hL]
    have e : It + 1 = (L1 ++ [BB]).length := by simp [hLen]
    have e2 : L1 ++ BB :: L2 = (L1 ++ [BB]) ++ L2 := by simp
    rw [e2, e, List.take_left, List.drop_left]
    simp

/-- Witness of C22: the select of kind EQ in the block 0 of a function of two
blocks laid out as 0, 1; the new blocks are the blocks 2 and 3, and the layout
becomes 0, 2, 3, 1. -/
theorem expandSelectCC_diamond_witness :
    ∃ F1, expandSelectCC sampleTable (sampleBlocks ISD.CondCode.SETEQ) 0 1 = some (F1, 3) ∧
      F1.MBBNumbering.length = 4 ∧
      F1.MBBNumbering[2]? = some { Insts := [], Successors := [3] } ∧
      F1.BasicBlocks = [0, 2, 3, 1] := by
  obtain ⟨F1, Br, h1, h2, _, _, _, h3, _, _, _, _, L1, L2, hL, hN, hB⟩ :=
    expandSelectCC_diamond sampleTable (sampleBlocks ISD.CondCode.SETEQ) 0
      { Insts := [sampleAdd] ++ sampleSelect ISD.CondCode.SETEQ :: [sampleAdd, sampleB 1],
        Successors := [1] }
      [sampleAdd] [sampleAdd, sampleB 1] (sampleSelect ISD.CondCode.SETEQ)
      (Register.Virt 0) (Register.Virt 1) (Register.Virt 2) (Register.Virt 3) (Register.Virt 4)
      true false false false false false false false false false ISD.CondCode.SETEQ
      rfl rfl rfl rfl (by decide) (by decide) (by decide)
  refine ⟨F1, h1, h2, h3, ?_⟩
  have hL0 : ([0, 1] : List Nat) = L1 ++ 0 :: L2 := hL
  cases L1 with
  | nil =>
    simp only [List.nil_append, List.cons.injEq, true_and] at hL0
    rw [hB, ← hL0]
    rfl
  | cons a L =>
    simp only [List.cons_append, List.cons.injEq] at hL0
    exact absurd (by rw [← hL0.1]; exact List.mem_cons_self _ _) hN

/-- C23 (the code fails the claim): with lhs = 1, rhs = 2, true-value = 10 and
false-value = 20, the diamond that `expandSelectCC` builds for the kind LT
delivers 20, the false-value, although 1 < 2 holds; and the diamond for the
kind GE delivers 10, the true-value, although 1 >= 2 does not hold.  The
emitted branches are `BGT rhs, rhs`, never taken, and `BLE rhs, rhs`, always
taken (the defect of C21). -/
theorem expandSelectCC_delivers :
    compareCC ISD.CondCode.SETLT (sampleRegs (Register.Virt 1)) (sampleRegs (Register.Virt 2))
      = true ∧
    (expandSelectCC sampleTable (sampleBlocks ISD.CondCode.SETLT) 0 1).bind
        (fun R => selectResult R.1 0 R.2 sampleRegs)
      = some (sampleRegs (Register.Virt 4)) ∧
    compareCC ISD.CondCode.SETGE (sampleRegs (Register.Virt 1)) (sampleRegs (Register.Virt 2))
      = false ∧
    (expandSelectCC sampleTable (sampleBlocks ISD.CondCode.SETGE) 0 1).bind
        (fun R => selectResult R.1 0 R.2 sampleRegs)
      = some (sampleRegs (Register.Virt 3)) ∧
    sampleRegs (Register.Virt 3) = 10 ∧ sampleRegs (Register.Virt 4) = 20 :=
  ⟨by decide, by decide, by decide, by decide, rfl, rfl⟩

/-- C24: for each signed integer comparison kind EQ, NE, LT, GT, LE, GE and
all operands lhs and rhs, lhs being of type `i32`, `LowerBR_CC` returns the
target branch node on a kind that is one of EQ, NE, LE, GT (never LT or GE):
LT(lhs, rhs) becomes GT(rhs, lhs), GE(lhs, rhs) becomes LE(rhs, lhs), and the
other four keep their kind and their operands; and on every pair of integers
(the 32-bit signed values among them) the normalised comparison has the truth
value of the original one. -/
theorem LowerBR_CC_normalises (Chain LHS RHS Dest : SDValue) (VT : MVT) (CC : ISD.CondCode)
    (hCC : CC ∈ [ISD.CondCode.SETEQ, ISD.CondCode.SETNE, ISD.CondCode.SETLT, ISD.CondCode.SETGT,
      ISD.CondCode.SETLE, ISD.CondCode.SETGE])
    (hVT : LHS.getValueType = MVT.i32) :
    ∃ (CC1 : ISD.CondCode) (Swap : Bool),
      LowerBR_CC (SDValue.Node NodeType.BR_CC [VT] [Chain, SDValue.CondCode CC, LHS, RHS, Dest] 0)
        = some (getNode NodeType.SIM_BR_CC VT
            [Chain, if Swap = true then RHS else LHS, if Swap = true then LHS else RHS,
              SDValue.CondCode CC1, Dest]) ∧
      CC1 ∈ [ISD.CondCode.SETEQ, ISD.CondCode.SETNE, ISD.CondCode.SETLE, ISD.CondCode.SETGT] ∧
      (CC = ISD.CondCode.SETLT → Swap = true ∧ CC1 = ISD.CondCode.SETGT) ∧
      (CC = ISD.CondCode.SETGE → Swap = true ∧ CC1 = ISD.CondCode.SETLE) ∧
      (CC ≠ ISD.CondCode.SETLT → CC ≠ ISD.CondCode.SETGE → Swap = false ∧ CC1 = CC) ∧
      ∀ a b : Int,
        compareCC CC1 (if Swap = true then b else a) (if Swap = true then a else b) =
          compareCC CC a b := by
  have hL : ∀ CC0 : ISD.CondCode,
      LowerBR_CC (SDValue.Node NodeType.BR_CC [VT] [Chain, SDValue.CondCode CC0, LHS, RHS, Dest] 0)
        = some (getNode NodeType.SIM_BR_CC VT
            [Chain, (translateSetCCForBranch LHS RHS (translateUnorderedCondCodeForBranch CC0)).1,
              (translateSetCCForBranch LHS RHS (translateUnorderedCondCodeForBranch CC0)).2.1,
              SDValue.CondCode
                (translateSetCCForBranch LHS RHS (translateUnorderedCondCodeForBranch CC0)).2.2,
              Dest]) := by
    intro CC0
    simp only [LowerBR_CC, SDValue.getOperand]
    simp
    exact ⟨hVT, rfl⟩
  simp only [List.mem_cons, List.mem_singleton, List.not_mem_nil, or_false] at hCC
  rcases hCC with h | h | h | h | h | h <;> subst h
  · exact ⟨ISD.CondCode.SETEQ, false, hL _, by decide, by decide, by decide, by decide,
      fun a b => rfl⟩
  · exact ⟨ISD.CondCode.SETNE, false, hL _, by decide, by decide, by decide, by decide,
      fun a b => rfl⟩
  · exact ⟨ISD.CondCode.SETGT, true, hL _, by decide, by decide, by decide, by decide,
      fun a b => rfl⟩
  · exact ⟨ISD.CondCode.SETGT, false, hL _, by decide, by decide, by decide, by decide,
      fun a b => rfl⟩
  · exact ⟨ISD.CondCode.SETLE, false, hL _, by decide, by decide, by decide, by decide,
      fun a b => rfl⟩
  · exact ⟨ISD.CondCode.SETLE, true, hL _, by decide, by decide, by decide, by decide,
      fun a b => rfl⟩

/-- Witness of C24: the branch on LT of the inputs 1 and 2 becomes the branch on
GT of the inputs 2 and 1. -/
theorem LowerBR_CC_normalises_witness :
    LowerBR_CC (SDValue.Node NodeType.BR_CC [MVT.Other]
        [SDValue.Input 0 MVT.Other, SDValue.CondCode ISD.CondCode.SETLT,
          SDValue.Input 1 MVT.i32, SDValue.Input 2 MVT.i32, SDValue.Input 3 MVT.Other] 0)
      = some (getNode NodeType.SIM_BR_CC MVT.Other
          [SDValue.Input 0 MVT.Other, SDValue.Input 2 MVT.i32, SDValue.Input 1 MVT.i32,
            SDValue.CondCode ISD.CondCode.SETGT, SDValue.Input 3 MVT.Other]) := by
  obtain ⟨CC1, Swap, h, _, h1, _⟩ := LowerBR_CC_normalises (SDValue.Input 0 MVT.Other)
    (SDValue.Input 1 MVT.i32) (SDValue.Input 2 MVT.i32) (SDValue.Input 3 MVT.Other) MVT.Other
    ISD.CondCode.SETLT (by decide) rfl
  obtain ⟨hs, hc⟩ := h1 rfl
  rw [h, hs, hc]
  rfl

/-- C25: for every signature of n scalar parameters of type `i32`, and an
ordered list of six argument registers, the argument assignment (the one walk
that serves both `LowerCall` and `LowerFormalArguments`) assigns n locations;
the parameter i, for i < 6, is in the i-th argument register, so that the
registers are taken in the order of the list; the parameter i, for i >= 6, is
in memory at the byte offset 4 * (i - 6), so that the offsets start at 0 and
grow by 4; and the argument area has 4 * (n - 6) bytes: none when n <= 6. -/
theorem AssignArguments_scalars (ArgRegs : List Register) (n i : Nat)
    (hRegs : ArgRegs.length = 6) (hi : i < n) :
    (AssignArguments ArgRegs (List.replicate n MVT.i32)).Locs.length = n ∧
    (AssignArguments ArgRegs (List.replicate n MVT.i32)).StackOffset = 4 * (n - 6) ∧
    (i < 6 → ∃ Reg, ArgRegs[i]? = some Reg ∧
      (AssignArguments ArgRegs (List.replicate n MVT.i32)).Locs[i]? =
        some { ValNo := i, ValVT := MVT.i32, LocVT := MVT.i32, HTP := LocInfo.Full
               Loc := CCLoc.Reg Reg }) ∧
    (6 ≤ i →
      (AssignArguments ArgRegs (List.replicate n MVT.i32)).Locs[i]? =
        some { ValNo := i, ValVT := MVT.i32, LocVT := MVT.i32, HTP := LocInfo.Full
               Loc := CCLoc.Mem (4 * (i - 6)) }) := by
  obtain ⟨h1, h2, h3⟩ := AssignArgumentsFrom_spec ArgRegs (List.replicate n MVT.i32) 0 0 0 rfl
  have hL : (List.replicate n MVT.i32)[i]? = some MVT.i32 := by
    rw [List.getElem?_replicate]; simp [hi]
  have h4 := h3 i MVT.i32 hL
  simp only [Nat.zero_add, hRegs, Nat.sub_zero] at h4 h2
  simp only [List.length_replicate] at h1 h2
  refine ⟨h1, h2, ?_, ?_⟩
  · intro h6
    have hlt : i < ArgRegs.length := by omega
    refine ⟨ArgRegs[i], List.getElem?_eq_getElem hlt, ?_⟩
    simp only [AssignArguments]
    rw [h4, List.getElem?_eq_getElem hlt]
  · intro h6
    simp only [AssignArguments]
    rw [h4, List.getElem?_eq_none (by omega)]

/-- Witness of C25: of 8 parameters the last one is in memory at the offset 4,
and the argument area has 8 bytes. -/
theorem AssignArguments_scalars_witness :
    (AssignArguments sampleArgRegs (List.replicate 8 MVT.i32)).Locs.length = 8 ∧
    (AssignArguments sampleArgRegs (List.replicate 8 MVT.i32)).StackOffset = 8 ∧
    (AssignArguments sampleArgRegs (List.replicate 8 MVT.i32)).Locs[7]? =
      some { ValNo := 7, ValVT := MVT.i32, LocVT := MVT.i32, HTP := LocInfo.Full
             Loc := CCLoc.Mem 4 } :=
  ⟨(AssignArguments_scalars sampleArgRegs 8 7 rfl (by decide)).1,
    (AssignArguments_scalars sampleArgRegs 8 7 rfl (by decide)).2.1,
    (AssignArguments_scalars sampleArgRegs 8 7 rfl (by decide)).2.2.2 (by decide)⟩

/-- On a signature whose variadic flag is set `LowerFormalArguments` and
`LowerReturn` abort, whatever their other arguments are. -/
theorem variadic_formals_and_return_abort (Chain : SDValue) (OutVals : List SDValue)
    (MFI : MachineFrameInfo) (InVals : List SDValue) (ArgLocs RVLocs : List CCValAssign)
    (hasStructRetAttr : Bool) (RegInfo : MachineRegisterInfo) :
    LowerFormalArguments Chain true ArgLocs hasStructRetAttr MFI RegInfo InVals = none ∧
    LowerReturn Chain true RVLocs OutVals hasStructRetAttr = none := by
  refine ⟨?_, ?_⟩
  · unfold LowerFormalArguments
    cases LowerFormalArgumentsLoop Chain ArgLocs { MFI := MFI, RegInfo := RegInfo, InVals := InVals }
    · rfl
    · cases hasStructRetAttr <;> rfl
  · rfl

/-- C27 (the code fails the claim): `LowerCall` on a call whose variadic flag is
set, with two scalar arguments, does not abort: it returns a lowering, the very
one it returns for the call without the flag.  The two sibling hooks stop on the
flag: on the signature of the same two parameters `LowerFormalArguments` aborts
with the flag and returns without it, and `LowerReturn` aborts with the flag
and returns without it. -/
theorem LowerCall_variadic :
    (sampleCall true 2).isSome = true ∧
    sampleCall true 2 = sampleCall false 2 ∧
    LowerFormalArguments (SDValue.Input 0 MVT.Other) true
      (AssignArguments sampleArgRegs (List.replicate 2 MVT.i32)).Locs false {} {} [] = none ∧
    (LowerFormalArguments (SDValue.Input 0 MVT.Other) false
      (AssignArguments sampleArgRegs (List.replicate 2 MVT.i32)).Locs false {} {} []).isSome
        = true ∧
    LowerReturn (SDValue.Input 0 MVT.Other) true [] [] false = none ∧
    (LowerReturn (SDValue.Input 0 MVT.Other) false [] [] false).isSome = true :=
  ⟨rfl, rfl,
    (variadic_formals_and_return_abort (SDValue.Input 0 MVT.Other) [] {} []
      (AssignArguments sampleArgRegs (List.replicate 2 MVT.i32)).Locs [] false {}).1,
    rfl,
    (variadic_formals_and_return_abort (SDValue.Input 0 MVT.Other) [] {} []
      (AssignArguments sampleArgRegs (List.replicate 2 MVT.i32)).Locs [] false {}).2,
    rfl⟩

/-- C28: `convertValVTToLocVT` returns a value exactly when the value type is
not `f32` and the extension mode of the location is one of Full, SExt, ZExt and
BCvt (in every other case it aborts); it then returns the value itself for
Full, and the value sign-extended, zero-extended or bit-reinterpreted to the
type of the location for the three other modes.  The loop of `LowerReturn` and
the loop of `LowerCall` over the arguments use it alike: each passes the value
through it on the way to the register copy, and aborts when it aborts. -/
theorem convertValVTToLocVT_modes (Val : SDValue) (VA : CCValAssign) :
    ((convertValVTToLocVT Val VA).isSome = true ↔
      VA.ValVT ≠ MVT.f32 ∧
        VA.HTP ∈ [LocInfo.Full, LocInfo.SExt, LocInfo.ZExt, LocInfo.BCvt]) ∧
    (VA.ValVT ≠ MVT.f32 →
      (VA.HTP = LocInfo.Full → convertValVTToLocVT Val VA = some Val) ∧
      (VA.HTP = LocInfo.SExt →
        convertValVTToLocVT Val VA = some (getNode NodeType.SIGN_EXTEND VA.LocVT [Val])) ∧
      (VA.HTP = LocInfo.ZExt →
        convertValVTToLocVT Val VA = some (getNode NodeType.ZERO_EXTEND VA.LocVT [Val])) ∧
      (VA.HTP = LocInfo.BCvt →
        convertValVTToLocVT Val VA = some (getNode NodeType.BITCAST VA.LocVT [Val]))) ∧
    (∀ (OutVals : List SDValue) (Rest : List CCValAssign) (i : Nat) (Chain Flag : SDValue)
        (RetOps : List SDValue) (Reg : Register),
      VA.Loc = CCLoc.Reg Reg → VA.isCustom = false → OutVals[i]? = some Val →
      LowerReturnLoop OutVals (VA :: Rest) i Chain Flag RetOps =
        (convertValVTToLocVT Val VA).bind (fun Arg =>
          LowerReturnLoop OutVals Rest (i + 1) (getCopyToReg Chain Reg Arg Flag)
            ((getCopyToReg Chain Reg Arg Flag).getValue 1)
            (RetOps ++ [SDValue.Register Reg VA.LocVT]))) ∧
    (∀ (Outs : List OutputArg) (OutVals ByValArgs : List SDValue) (Chain : SDValue)
        (Rest : List CCValAssign) (i : Nat) (s : CallArguments) (Out : OutputArg) (Reg : Register),
      VA.Loc = CCLoc.Reg Reg → VA.isCustom = false → VA.LocVT ≠ MVT.f32 →
      OutVals[i]? = some Val → Outs[i]? = some Out → Out.Flags.isByVal = false →
      LowerCallArgs Outs OutVals ByValArgs Chain false (VA :: Rest) i s =
        (convertValVTToLocVT Val VA).bind (fun Arg =>
          LowerCallArgs Outs OutVals ByValArgs Chain false Rest (i + 1)
            { j := s.j
              RegsToPass := s.RegsToPass ++ [(Reg, Arg)] ++
                [(Reg, getNode NodeType.BITCAST MVT.i32 [Arg])]
              MemOpChains := s.MemOpChains })) := by
  refine ⟨?_, ?_, ?_, ?_⟩
  · unfold convertValVTToLocVT
    by_cases h : VA.ValVT = MVT.f32
    · simp [h]
    · cases hH : VA.HTP <;> simp [h]
  · intro h
    unfold convertValVTToLocVT
    refine ⟨?_, ?_, ?_, ?_⟩ <;> intro hH <;> simp [h, hH]
  · intro OutVals Rest i Chain Flag RetOps Reg hLoc hCus hVal
    simp only [LowerReturnLoop, CCValAssign.getLocReg, hLoc, hVal, hCus]
    cases convertValVTToLocVT Val VA <;> simp
  · intro Outs OutVals ByValArgs Chain Rest i s Out Reg hLoc hCus hVT hVal hOut hBy
    have hInd : VA.HTP = LocInfo.Indirect → convertValVTToLocVT Val VA = none := by
      intro h; simp [convertValVTToLocVT, h]
    simp only [LowerCallArgs, hLoc, hVal, hOut, hCus, hBy]
    by_cases hI : VA.HTP = LocInfo.Indirect
    · simp [hI, hInd hI]
    · cases convertValVTToLocVT Val VA <;> simp [hI, hVT]

/-- Witness of C28: a value of type `i8` whose location is sign-extended to
`i32`. -/
theorem convertValVTToLocVT_modes_witness :
    convertValVTToLocVT (SDValue.Input 1 MVT.i8)
        { ValNo := 0, ValVT := MVT.i8, LocVT := MVT.i32, HTP := LocInfo.SExt
          Loc := CCLoc.Reg (Register.R 10) }
      = some (getNode NodeType.SIGN_EXTEND MVT.i32 [SDValue.Input 1 MVT.i8]) :=
  ((convertValVTToLocVT_modes (SDValue.Input 1 MVT.i8)
    { ValNo := 0, ValVT := MVT.i8, LocVT := MVT.i32, HTP := LocInfo.SExt
      Loc := CCLoc.Reg (Register.R 10) }).2.1 (by decide)).2.1 rfl

/-- C29: for every instruction that has the operands its descriptor declares,
its immediates being values of `int64_t`, `verifyInstruction` returns; it
returns true, leaving the diagnostic alone, if and only if every immediate
operand whose declared type is SIMM16 lies in [-32768, 32767], every one
declared UIMM16 lies in [0, 65535] and every one declared UIMM5 lies in
[0, 31]; otherwise it returns false with the diagnostic `Invalid immediate`.
An operand of another declared type, and an operand that is not an immediate,
is under no condition. -/
theorem verifyInstruction_immediates (FT : Nat) (T : Opcode → MCInstrDesc) (MI : MachineInstr)
    (ErrInfo : String)
    (hOps : (get T MI.getOpcode).operands.length ≤ MI.Operands.length)
    (hRange : ∀ v, MachineOperand.Imm v ∈ MI.Operands → -(2 ^ 63 : Int) ≤ v ∧ v < 2 ^ 63) :
    ∃ (Ok : Bool) (Err : String), verifyInstruction FT T MI ErrInfo = some (Ok, Err) ∧
      (Ok = true ↔ ∀ (j : Nat) (OI : MCOperandInfo) (v : Int),
        (get T MI.getOpcode).operands[j]? = some OI →
        MI.Operands[j]? = some (MachineOperand.Imm v) →
        (OI.OperandType = SimOp.OPERAND_SIMM16 FT → -32768 ≤ v ∧ v ≤ 32767) ∧
        (OI.OperandType = SimOp.OPERAND_UIMM16 FT → 0 ≤ v ∧ v ≤ 65535) ∧
        (OI.OperandType = SimOp.OPERAND_UIMM5 FT → 0 ≤ v ∧ v ≤ 31)) ∧
      (Ok = true → Err = ErrInfo) ∧
      (Ok = false → Err = "Invalid immediate") := by
  obtain ⟨Ok, hOk, hIff⟩ := verifyOperands_spec FT MI hRange (get T MI.getOpcode).operands 0
    (by omega)
  simp only [Nat.zero_add] at hIff
  cases Ok with
  | true =>
    refine ⟨true, ErrInfo, ?_, hIff, fun _ => rfl, fun h => (by cases h)⟩
    simp only [verifyInstruction, hOk]
  | false =>
    refine ⟨false, "Invalid immediate", ?_, hIff, fun h => (by cases h), fun _ => rfl⟩
    simp only [verifyInstruction, hOk]

/-- Witness of C29: `ADDi R5, R5, 40000`, whose immediate is declared SIMM16, is
refused with the diagnostic. -/
theorem verifyInstruction_immediates_witness :
    verifyInstruction 13 sampleOperandTable
        { MCID := get sampleOperandTable Opcode.ADDi
          Operands := [MachineOperand.Reg (Register.R 5) true false,
            MachineOperand.Reg (Register.R 5) false false, MachineOperand.Imm 40000] } ""
      = some (false, "Invalid immediate") := by
  obtain ⟨Ok, Err, h, hIff, _, h2⟩ := verifyInstruction_immediates 13 sampleOperandTable
    { MCID := get sampleOperandTable Opcode.ADDi
      Operands := [MachineOperand.Reg (Register.R 5) true false,
        MachineOperand.Reg (Register.R 5) false false, MachineOperand.Imm 40000] } ""
    (by decide)
    (fun v hv => by
      simp only [List.mem_cons, List.mem_singleton, List.not_mem_nil, or_false,
        MachineOperand.Imm.injEq] at hv
      rcases hv with h | h | h
      · cases h
      · cases h
      · subst h
        norm_num)
  cases Ok with
  | true =>
    have h3 := (hIff.mp rfl 2 { OperandType := 13 } 40000 rfl rfl).1 rfl
    omega
  | false => rw [h, h2 rfl]

/-- C30 (the code fails the claim): in a call with 8 scalar arguments the last
one is passed in memory at the byte offset 4.  The caller, whose stack pointer
holds 1000 at the call, stores it to SP + 4 = 1004.  The callee creates for it
the fixed object of frame index -2 at the offset 4 and loads it from there; with
a frame of 40 bytes and a frame pointer, the prologue leaves SP = 990 and
FP = 1000, the frame reference of the object resolves to FP + 1, and the callee
loads the argument from 1001. -/
theorem memory_argument_addresses :
    (sampleCall false 8).bind (fun L => callerArgumentAddress L 1 sampleRegs) = some 1004 ∧
    (sampleFormals 8).map (fun R => R.2.InVals[7]?) =
      some (some (getLoad MVT.i32 (SDValue.Input 0 MVT.Other)
        (SDValue.FrameIndex (-2) MVT.i32))) ∧
    (sampleFormals 8).map (fun R => R.2.MFI) = some sampleCalleeFunction.FrameInfo ∧
    getObjectOffset sampleCalleeFunction.FrameInfo (-2) = some 4 ∧
    getFrameIndexReference sampleProloguedCallee (-2) = some (SIM.FP, 1) ∧
    emitPrologue sampleTable sampleCalleeFunction 0 = some sampleProloguedCallee ∧
    calleeArgumentAddress sampleTable sampleCalleeFunction (-2) sampleRegs = some 1001 :=
  ⟨by decide, rfl, by decide, by decide, by decide, by decide, by decide⟩

/-! ## Frame references, stack slots and the analysis of branches -/

/-! ### Frame references -/

/-- The frame reference of a slot whose byte offset is in the range of `int`:
SP with the word offset plus the recorded stack size for a slot of the
callee-saved region and in a leaf procedure, the frame register with the word
offset otherwise. -/
theorem getFrameIndexReference_eq (MF : MachineFunction) (FI o : Int)
    (hObj : getObjectOffset MF.FrameInfo FI = some o)
    (hLo : -2147483648 ≤ o + MF.FrameInfo.OffsetAdjustment)
    (hHi : o + MF.FrameInfo.OffsetAdjustment < 2147483648)
    (hSS : MF.FrameInfo.StackSize < 2147483648) :
    getFrameIndexReference MF FI
      = some (if (isFrameIndexInCalleeSavedRegion MF.FrameInfo FI || MF.FuncInfo.IsLeafProc) = true
          then (SIM.SP, (o + MF.FrameInfo.OffsetAdjustment).tdiv 4 + MF.FrameInfo.StackSize)
          else (getFrameRegister MF, (o + MF.FrameInfo.OffsetAdjustment).tdiv 4)) := by
  have hw : wrapInt 32 (o - getOffsetOfLocalArea + MF.FrameInfo.OffsetAdjustment)
      = o + MF.FrameInfo.OffsetAdjustment := by
    have : o - getOffsetOfLocalArea + MF.FrameInfo.OffsetAdjustment
        = o + MF.FrameInfo.OffsetAdjustment := by
      unfold getOffsetOfLocalArea; omega
    rw [this]
    exact wrapInt32_id _ hLo hHi
  have hc := tdiv_four_cases (o + MF.FrameInfo.OffsetAdjustment)
  have h64 := wrapInt64_sum ((o + MF.FrameInfo.OffsetAdjustment).tdiv 4)
    MF.FrameInfo.StackSize (by omega) (by omega) hSS
  simp only [getFrameIndexReference, hObj, hw, h64]
  cases isFrameIndexInCalleeSavedRegion MF.FrameInfo FI <;>
    cases MF.FuncInfo.IsLeafProc <;> cases hasStackRealignment MF <;> simp

/-- The result of `eliminateFrameIndex` from the frame reference. -/
theorem eliminateFrameIndex_eq (MF : MachineFunction) (MI : MachineInstr) (k : Nat)
    (Idx v : Int) (FrameReg : Register) (Fixed : Int)
    (hFI : MI.getOperand k = some (MachineOperand.FI Idx))
    (hImm : MI.getOperand (k + 1) = some (MachineOperand.Imm v))
    (hRef : getFrameIndexReference MF Idx = some (FrameReg, Fixed))
    (h1 : -2147483648 ≤ Fixed) (h2 : Fixed < 2147483648)
    (h3 : -2147483648 ≤ Fixed + v) (h4 : Fixed + v < 2147483648) :
    eliminateFrameIndex MF MI 0 k
      = if -32768 ≤ Fixed + v ∧ Fixed + v ≤ 32767 then
          some { MI with
            Operands := (MI.Operands.set k (MachineOperand.Reg FrameReg false false)).set (k + 1)
              (MachineOperand.Imm (Fixed + v)) }
        else none := by
  have hw : wrapInt 32 (wrapInt 32 Fixed + v) = Fixed + v := by
    rw [wrapInt32_id Fixed h1 h2, wrapInt32_id _ h3 h4]
  simp only [eliminateFrameIndex, hFI, MachineOperand.getIndex, hRef, hImm,
    MachineOperand.getImm, hw]
  by_cases hIn : -32768 ≤ Fixed + v ∧ Fixed + v ≤ 32767
  · have : isInt 16 (Fixed + v) = true := by
      unfold isInt; norm_num; omega
    simp [this, hIn]
  · have : isInt 16 (Fixed + v) = false := by
      unfold isInt
      norm_num
      intro h
      by_contra hc
      exact hIn ⟨h, by omega⟩
    simp [this, hIn]

/-! ### Stack slots and callee-saved registers -/

/-- The `STi` that `storeRegToStackSlot` builds. -/
theorem storeRegToStackSlot_eq (T : Opcode → MCInstrDesc) (MFI : MachineFrameInfo)
    (Pre Post : List MachineInstr) (SrcReg : Register) (isKill : Bool) (FI : Int)
    (hObj : (getObjectOffset MFI FI).isSome = true) :
    storeRegToStackSlot T MFI (Pre ++ Post) Pre.length SrcReg isKill FI
      = some (Pre ++ { MCID := get T Opcode.STi
                       Operands := [MachineOperand.Reg SrcReg false isKill, MachineOperand.FI FI,
                         MachineOperand.Imm 0]
                       DL := debugLocAt Post 0 } :: Post) := by
  have hDL : debugLocAt (Pre ++ Post) Pre.length = debugLocAt Post 0 := by
    unfold debugLocAt
    rw [List.getElem?_append_right (Nat.le_refl _), Nat.sub_self]
  unfold getObjectOffset at hObj
  unfold storeRegToStackSlot getObjectSize getObjectAlign
  split at hObj
  · cases hObj
  · rename_i hneg
    cases hO : MFI.Objects[(FI + (MFI.NumFixedObjects : Int)).toNat]? with
    | none => rw [hO] at hObj; cases hObj
    | some Obj =>
      simp only [hneg, if_false, hO, hDL, List.take_left, List.drop_left]

/-- The `LDi` that `loadRegFromStackSlot` builds. -/
theorem loadRegFromStackSlot_eq (T : Opcode → MCInstrDesc) (MFI : MachineFrameInfo)
    (Pre Post : List MachineInstr) (DestReg : Register) (FI : Int)
    (hObj : (getObjectOffset MFI FI).isSome = true) :
    loadRegFromStackSlot T MFI (Pre ++ Post) Pre.length DestReg FI
      = some (Pre ++ { MCID := get T Opcode.LDi
                       Operands := [MachineOperand.Reg DestReg true false, MachineOperand.FI FI,
                         MachineOperand.Imm 0]
                       DL := debugLocAt Post 0 } :: Post) := by
  have hDL : debugLocAt (Pre ++ Post) Pre.length = debugLocAt Post 0 := by
    unfold debugLocAt
    rw [List.getElem?_append_right (Nat.le_refl _), Nat.sub_self]
  unfold getObjectOffset at hObj
  unfold loadRegFromStackSlot getObjectSize getObjectAlign
  split at hObj
  · cases hObj
  · rename_i hneg
    cases hO : MFI.Objects[(FI + (MFI.NumFixedObjects : Int)).toNat]? with
    | none => rw [hO] at hObj; cases hObj
    | some Obj =>
      simp only [hneg, if_false, hO, hDL, List.take_left, List.drop_left]

/-- The loop of `spillCalleeSavedRegisters` inserts one store per entry, in the
order of the entries. -/
theorem spillLoop_eq (T : Opcode → MCInstrDesc) (MFI : MachineFrameInfo)
    (LiveIns : List Register) (Post : List MachineInstr) :
    ∀ (CSI : List CalleeSavedInfo) (Pre : List MachineInstr),
      (∀ CS ∈ CSI, isPhysicalRegister CS.Reg = true ∧ (getObjectOffset MFI CS.FrameIdx).isSome = true) →
      spillLoop T MFI LiveIns CSI (Pre ++ Post) Pre.length
        = some (Pre ++ CSI.map (fun CS =>
              ({ MCID := get T Opcode.STi
                 Operands := [MachineOperand.Reg CS.Reg false (!decide (CS.Reg ∈ LiveIns)),
                   MachineOperand.FI CS.FrameIdx, MachineOperand.Imm 0]
                 DL := debugLocAt Post 0 } : MachineInstr)) ++ Post,
            Pre.length + CSI.length) := by
  intro CSI
  induction CSI with
  | nil => intro Pre _; simp [spillLoop]
  | cons CS Rest ih =>
    intro Pre h
    obtain ⟨hn, hObj⟩ := h CS (List.mem_cons_self _ _)
    have hRC : getMinimalPhysRegClass CS.Reg = some 0 := by
      unfold getMinimalPhysRegClass; rw [if_pos hn]
    have hSt := storeRegToStackSlot_eq T MFI Pre Post CS.Reg (!decide (CS.Reg ∈ LiveIns))
      CS.FrameIdx hObj
    have hIH := ih (Pre ++ [{ MCID := get T Opcode.STi
                              Operands := [MachineOperand.Reg CS.Reg false
                                (!decide (CS.Reg ∈ LiveIns)),
                                MachineOperand.FI CS.FrameIdx, MachineOperand.Imm 0]
                              DL := debugLocAt Post 0 }])
      (fun X hX => h X (List.mem_cons_of_mem _ hX))
    simp only [List.length_append, List.length_singleton, List.append_assoc,
      List.singleton_append] at hIH
    simp only [spillLoop, hRC, hSt, hIH, List.map_cons, List.length_cons, List.append_assoc,
      List.cons_append]
    simp only [Option.some.injEq, Prod.mk.injEq, true_and]
    omega

/-- The loop of `restoreCalleeSavedRegisters` inserts one load per entry, in the
order in which it takes the entries. -/
theorem restoreLoop_eq (T : Opcode → MCInstrDesc) (MFI : MachineFrameInfo)
    (Post : List MachineInstr) :
    ∀ (CSI : List CalleeSavedInfo) (Pre : List MachineInstr),
      (∀ CS ∈ CSI, isPhysicalRegister CS.Reg = true ∧ (getObjectOffset MFI CS.FrameIdx).isSome = true) →
      restoreLoop T MFI CSI (Pre ++ Post) Pre.length
        = some (Pre ++ CSI.map (fun CS =>
              ({ MCID := get T Opcode.LDi
                 Operands := [MachineOperand.Reg CS.Reg true false,
                   MachineOperand.FI CS.FrameIdx, MachineOperand.Imm 0]
                 DL := debugLocAt Post 0 } : MachineInstr)) ++ Post,
            Pre.length + CSI.length) := by
  intro CSI
  induction CSI with
  | nil => intro Pre _; simp [restoreLoop]
  | cons CS Rest ih =>
    intro Pre h
    obtain ⟨hn, hObj⟩ := h CS (List.mem_cons_self _ _)
    have hRC : getMinimalPhysRegClass CS.Reg = some 0 := by
      unfold getMinimalPhysRegClass; rw [if_pos hn]
    have hSt := loadRegFromStackSlot_eq T MFI Pre Post CS.Reg CS.FrameIdx hObj
    have hIH := ih (Pre ++ [{ MCID := get T Opcode.LDi
                              Operands := [MachineOperand.Reg CS.Reg true false,
                                MachineOperand.FI CS.FrameIdx, MachineOperand.Imm 0]
                              DL := debugLocAt Post 0 }])
      (fun X hX => h X (List.mem_cons_of_mem _ hX))
    simp only [List.length_append, List.length_singleton, List.append_assoc,
      List.singleton_append] at hIH
    have hne : (Pre.length + 1 == 0) = false := by simp
    simp only [restoreLoop, hRC, hSt, hne, hIH, List.map_cons, List.length_cons,
      List.append_assoc, List.cons_append]
    simp only [Bool.false_eq_true, if_false, Option.some.injEq, Prod.mk.injEq, true_and]
    omega

/-! ### What analyzeBranch leaves behind -/

/-- The condition vector that `parseCondBranch` builds. -/
theorem parseCondBranch_cond (L : MachineInstr) (Cond : List MachineOperand) (t : Nat)
    (C : List MachineOperand) (h : parseCondBranch L Cond = some (t, C)) :
    ∃ O1 O2, C = Cond ++
      [MachineOperand.Imm (getCondFromBranchOpcode L.getOpcode).toImm, O1, O2] := by
  unfold parseCondBranch at h
  split at h
  · cases h
  · split at h
    · cases h
    · split at h
      · cases h
      · split at h
        · rename_i Op0 Op1 _ _
          simp only [Option.some.injEq, Prod.mk.injEq] at h
          exact ⟨Op0, Op1, h.2.symm⟩
        · cases h

/-- The block and the condition vector after lines 248-276 of
`analyzeBranch`. -/
theorem analyzeTwoTerminators_inv (s : BranchInfo) (A : Bool) (I Last : Nat)
    (r : Bool × BranchInfo) (h : analyzeTwoTerminators s A I Last = some r) :
    (A = false → r.2.MBB = s.MBB) ∧
    (r.2.Cond = s.Cond ∨ ∃ Opc O1 O2, isCondBranchOpcode Opc = true ∧
      r.2.Cond = s.Cond ++ [MachineOperand.Imm (getCondFromBranchOpcode Opc).toImm, O1, O2]) := by
  unfold analyzeTwoTerminators at h
  split at h
  · rename_i S L hS hL
    dsimp only at h
    split at h
    · cases h; exact ⟨fun _ => rfl, Or.inl rfl⟩
    · split at h
      · rename_i hc
        simp only [Bool.and_eq_true] at hc
        split at h
        · cases h
        · rename_i Target Cond hp
          split at h
          · cases h
          · cases h
            obtain ⟨O1, O2, hC⟩ := parseCondBranch_cond _ _ _ _ hp
            exact ⟨fun _ => rfl, Or.inr ⟨_, O1, O2, hc.1, hC⟩⟩
      · split at h
        · split at h
          · cases h
          · cases h; exact ⟨fun _ => rfl, Or.inl rfl⟩
        · split at h
          · split at h
            · rename_i hA
              cases h
              exact ⟨fun hF => (by rw [hF] at hA; cases hA), Or.inl rfl⟩
            · cases h; exact ⟨fun _ => rfl, Or.inl rfl⟩
          · cases h; exact ⟨fun _ => rfl, Or.inl rfl⟩
  · cases h

/-- The block and the condition vector after `analyzeBranch`: without the
permission to modify the block is the one given, and the condition vector is
the one given, or the one given followed by the condition of a conditional
branch opcode and two operands. -/
theorem analyzeBranch_inv (s : BranchInfo) (A : Bool) (r : Bool × BranchInfo)
    (h : analyzeBranch s A = some r) :
    (A = false → r.2.MBB = s.MBB) ∧
    (r.2.Cond = s.Cond ∨ ∃ Opc O1 O2, isCondBranchOpcode Opc = true ∧
      r.2.Cond = s.Cond ++ [MachineOperand.Imm (getCondFromBranchOpcode Opc).toImm, O1, O2]) := by
  unfold analyzeBranch at h
  split at h
  · cases h; exact ⟨fun _ => rfl, Or.inl rfl⟩
  · split at h
    · cases h
    · rename_i LastInst _
      split at h
      · cases h; exact ⟨fun _ => rfl, Or.inl rfl⟩
      · dsimp only at h
        split at h
        · split at h
          · split at h
            · cases h
            · cases h; exact ⟨fun _ => rfl, Or.inl rfl⟩
          · split at h
            · rename_i hc
              split at h
              · cases h
              · rename_i Target Cond hp
                cases h
                obtain ⟨O1, O2, hC⟩ := parseCondBranch_cond _ _ _ _ hp
                exact ⟨fun _ => rfl, Or.inr ⟨_, O1, O2, hc, hC⟩⟩
            · cases h; exact ⟨fun _ => rfl, Or.inl rfl⟩
        · split at h
          · rename_i hA
            simp only [Bool.and_eq_true] at hA
            refine ⟨fun hF => (by rw [hF] at hA; exact absurd hA.1 (by simp)), ?_⟩
            split at h
            · cases h
            · split at h
              · cases h
              · split at h
                · cases h
                · cases h; exact Or.inl rfl
            · exact (analyzeTwoTerminators_inv _ _ _ _ _ h).2
          · exact analyzeTwoTerminators_inv _ _ _ _ _ h

/-- The four opcodes that `isCondBranchOpcode` accepts. -/
theorem isCondBranchOpcode_cases (Opc : Opcode) (h : isCondBranchOpcode Opc = true) :
    Opc = Opcode.BEQ ∨ Opc = Opcode.BNE ∨ Opc = Opcode.BGT ∨ Opc = Opcode.BLE := by
  simp only [isCondBranchOpcode, Bool.or_eq_true, beq_iff_eq] at h
  tauto

/-- The branch that `insertBranch` appends for a condition that has a branch
opcode, whatever the two operands are, provided they are registers. -/
theorem insertBranch_of_cond (T : Opcode → MCInstrDesc) (MBB : List MachineInstr)
    (CC : CondCodes) (Desc : MCInstrDesc) (hD : getBranchFromCond T CC = some Desc)
    (Target DL : Nat) (FBB : Option Nat) (O1 O2 : MachineOperand) (R1 R2 : Register)
    (h1 : O1.getReg = some R1) (h2 : O2.getReg = some R2) :
    insertBranch T MBB (some Target) FBB [MachineOperand.Imm CC.toImm, O1, O2] DL false
      = some (MBB ++ { MCID := Desc
                       Operands := [MachineOperand.Reg R1 false false,
                         MachineOperand.Reg R2 false false, MachineOperand.MBB Target]
                       DL := DL } ::
                (match FBB with
                 | none => []
                 | some F => [buildB T DL F]),
              match FBB with
              | none => 1
              | some _ => 2) := by
  have hOf : CondCodes.ofImm CC.toImm = some CC := by cases CC <;> rfl
  cases FBB <;>
    simp [insertBranch, MachineOperand.getImm, hOf, hD, h1, h2]

/-! ### The claims on the whole layer -/

/-- C31: for every function, set of saved registers and value of the option that
disables the leaf optimisation, `determineCalleeSaves` returns if and only if
the function requires a frame pointer (`hasFP`).  A function classified as a
leaf by `isLeafProc` requires none, and a function that requires none makes
`determineCalleeSaves` abort: in the remapping that is not implemented when it
is a leaf and the optimisation is enabled, on the `llvm_unreachable` of line 377
otherwise. -/
theorem determineCalleeSaves_returns (DisableLeafProc : Bool) (MF : MachineFunction)
    (SavedRegs : RegSet) :
    ((determineCalleeSaves DisableLeafProc MF SavedRegs).isSome = true ↔ hasFP MF = true) ∧
    (isLeafProc MF = true → hasFP MF = false) ∧
    (hasFP MF = false → determineCalleeSaves DisableLeafProc MF SavedRegs = none) := by
  have hLeaf : isLeafProc MF = true → hasFP MF = false := by
    intro h
    unfold isLeafProc at h
    cases hF : hasFP MF
    · rfl
    · rw [hF] at h
      simp at h
  refine ⟨?_, hLeaf, ?_⟩
  · cases hF : hasFP MF
    · have hNone : determineCalleeSaves DisableLeafProc MF SavedRegs = none := by
        unfold determineCalleeSaves
        simp only [hF, remapRegsForLeafProc]
        split <;> rfl
      simp [hNone]
    · have hNL : isLeafProc MF = false := by
        cases hL : isLeafProc MF
        · rfl
        · rw [hLeaf hL] at hF
          cases hF
      unfold determineCalleeSaves
      simp only [hF, hNL]
      cases hasBP MF <;> simp
  · intro hF
    unfold determineCalleeSaves
    simp only [hF, remapRegsForLeafProc]
    split <;> rfl

/-- The example of C31: a function that makes calls, frame pointer elimination
being allowed, is no leaf and requires no frame pointer, and
`determineCalleeSaves` aborts on it, the leaf optimisation being enabled or
disabled. -/
theorem determineCalleeSaves_returns_witness :
    hasFP { Blocks := [[sampleRet]], FrameInfo := { HasCalls := true } } = false ∧
    isLeafProc { Blocks := [[sampleRet]], FrameInfo := { HasCalls := true } } = false ∧
    determineCalleeSaves false { Blocks := [[sampleRet]], FrameInfo := { HasCalls := true } }
      (fun _ => false) = none ∧
    determineCalleeSaves true { Blocks := [[sampleRet]], FrameInfo := { HasCalls := true } }
      (fun _ => false) = none :=
  ⟨rfl, rfl,
    (determineCalleeSaves_returns false
      { Blocks := [[sampleRet]], FrameInfo := { HasCalls := true } } (fun _ => false)).2.2 rfl,
    (determineCalleeSaves_returns true
      { Blocks := [[sampleRet]], FrameInfo := { HasCalls := true } } (fun _ => false)).2.2 rfl⟩

/-- C32 (the code fails the claim): in the call with two scalar arguments of type
`i32`, assigned to the registers R10 and R11, `LowerCall` queues two pairs for
each argument, the value and then the bit-reinterpretation of the value, both
for the register of the argument: the list of the pairs that become
copy-to-register nodes names R10, R10, R11, R11, and the call node gets the four
register operands R10, R10, R11, R11 before the register mask.  Lines 375-377
push the pair of the value and fall through to the push of line 381. -/
theorem LowerCall_queues_twice :
    (sampleAnalyzeCallOperands false (sampleOuts 2)).Locs.map (fun VA => VA.Loc)
      = [CCLoc.Reg (Register.R 10), CCLoc.Reg (Register.R 11)] ∧
    (sampleCall false 2).map (fun L => L.RegsToPass)
      = some [(Register.R 10, SDValue.Input 1 MVT.i32),
          (Register.R 10, getNode NodeType.BITCAST MVT.i32 [SDValue.Input 1 MVT.i32]),
          (Register.R 11, SDValue.Input 2 MVT.i32),
          (Register.R 11, getNode NodeType.BITCAST MVT.i32 [SDValue.Input 2 MVT.i32])] ∧
    (sampleCall false 2).map (fun L => (L.Ops.drop 2).take 5)
      = some [SDValue.Register (Register.R 10) MVT.i32, SDValue.Register (Register.R 10) MVT.i32,
          SDValue.Register (Register.R 11) MVT.i32, SDValue.Register (Register.R 11) MVT.i32,
          SDValue.RegisterMask] :=
  ⟨by decide, rfl, rfl⟩

/-- C33 (counterexample): in the function with a frame of 10 words, the slot 1
has the byte offset -8 and is resolved to FP - 2; on the load
`LDi R7, FI#1, 8`, whose requested offset is 8, `eliminateFrameIndex` leaves the
immediate -2 + 8 = 6: the requested offset is added as it stands.  The word
value of the sum of the two byte offsets is (-8 + 8) / 4 = 0, and so is the sum
of the two word values, -8 / 4 + 8 / 4. -/
theorem eliminateFrameIndex_requested_offset :
    getObjectOffset sampleFrame.FrameInfo 1 = some (-8) ∧
    (sampleLoad 8).getOperand 2 = some (MachineOperand.Imm 8) ∧
    eliminateFrameIndex sampleFrame (sampleLoad 8) 0 1
      = some { sampleLoad 8 with
          Operands := [MachineOperand.Reg (Register.R 7) true false,
            MachineOperand.Reg SIM.FP false false, MachineOperand.Imm 6] } ∧
    ((-8 + 8 : Int).tdiv 4 = 0) ∧ ((-8 : Int).tdiv 4 + (8 : Int).tdiv 4 = 0) ∧
    ((-8 : Int).tdiv 4 + 8 = 6) :=
  ⟨by decide, rfl, by decide, by decide, by decide, by decide⟩

/-- C33 (amended): for an instruction whose operand k is a frame index and whose
next operand is the requested offset v, provided that the byte offset o of the
slot is in the range of `int`, that the recorded stack size W is below 2^29 and
that -2^29 <= v < 2^29 (so that no `int` of the code wraps): `eliminateFrameIndex`
converts the byte offset of the slot to words and adds the requested offset to
it without a division.  The final immediate is o / 4 + v when the base is the
frame register, and o / 4 + W + v when the base is SP (a slot of the
callee-saved region, or a leaf procedure); the call aborts when this value is
outside [-32768, 32767]. -/
theorem eliminateFrameIndex_offset (MF : MachineFunction) (MI : MachineInstr) (k : Nat)
    (Idx v o : Int)
    (hFI : MI.getOperand k = some (MachineOperand.FI Idx))
    (hImm : MI.getOperand (k + 1) = some (MachineOperand.Imm v))
    (hObj : getObjectOffset MF.FrameInfo Idx = some o)
    (hLo : -2147483648 ≤ o + MF.FrameInfo.OffsetAdjustment)
    (hHi : o + MF.FrameInfo.OffsetAdjustment < 2147483648)
    (hSS : MF.FrameInfo.StackSize < 536870912)
    (hvLo : -536870912 ≤ v) (hvHi : v < 536870912) :
    ∃ (FrameReg : Register) (Fixed : Int),
      getFrameIndexReference MF Idx = some (FrameReg, Fixed) ∧
      ((isFrameIndexInCalleeSavedRegion MF.FrameInfo Idx || MF.FuncInfo.IsLeafProc) = true →
        FrameReg = SIM.SP ∧
        Fixed = (o + MF.FrameInfo.OffsetAdjustment).tdiv 4 + MF.FrameInfo.StackSize) ∧
      ((isFrameIndexInCalleeSavedRegion MF.FrameInfo Idx || MF.FuncInfo.IsLeafProc) = false →
        FrameReg = getFrameRegister MF ∧ Fixed = (o + MF.FrameInfo.OffsetAdjustment).tdiv 4) ∧
      (-32768 ≤ Fixed + v → Fixed + v ≤ 32767 →
        eliminateFrameIndex MF MI 0 k
          = some { MI with
              Operands := (MI.Operands.set k (MachineOperand.Reg FrameReg false false)).set
                (k + 1) (MachineOperand.Imm (Fixed + v)) }) ∧
      (¬ (-32768 ≤ Fixed + v ∧ Fixed + v ≤ 32767) → eliminateFrameIndex MF MI 0 k = none) := by
  have hRef := getFrameIndexReference_eq MF Idx o hObj hLo hHi (by omega)
  have hc := tdiv_four_cases (o + MF.FrameInfo.OffsetAdjustment)
  cases hU : (isFrameIndexInCalleeSavedRegion MF.FrameInfo Idx || MF.FuncInfo.IsLeafProc) with
  | true =>
    rw [hU, if_pos rfl] at hRef
    have hE := eliminateFrameIndex_eq MF MI k Idx v _ _ hFI hImm hRef (by omega) (by omega)
      (by omega) (by omega)
    refine ⟨_, _, hRef, fun _ => ⟨rfl, rfl⟩, fun h => (by cases h), ?_, ?_⟩
    · intro a b
      rw [hE, if_pos ⟨a, b⟩]
    · intro a
      rw [hE, if_neg a]
  | false =>
    rw [hU, if_neg (by simp)] at hRef
    have hE := eliminateFrameIndex_eq MF MI k Idx v _ _ hFI hImm hRef (by omega) (by omega)
      (by omega) (by omega)
    refine ⟨_, _, hRef, fun h => (by cases h), fun _ => ⟨rfl, rfl⟩, ?_, ?_⟩
    · intro a b
      rw [hE, if_pos ⟨a, b⟩]
    · intro a
      rw [hE, if_neg a]

/-- Witness of C33: `LDi R7, FI#1, 8` in the function with a frame of 10 words, the
slot 1 at the byte offset -8. -/
theorem eliminateFrameIndex_offset_witness :
    ∃ (FrameReg : Register) (Fixed : Int),
      getFrameIndexReference sampleFrame 1 = some (FrameReg, Fixed) ∧
      (FrameReg = getFrameRegister sampleFrame ∧
        Fixed = (-8 + sampleFrame.FrameInfo.OffsetAdjustment).tdiv 4) ∧
      (-32768 ≤ Fixed + 8 → Fixed + 8 ≤ 32767 →
        eliminateFrameIndex sampleFrame (sampleLoad 8) 0 1
          = some { sampleLoad 8 with
              Operands := ((sampleLoad 8).Operands.set 1
                (MachineOperand.Reg FrameReg false false)).set
                (1 + 1) (MachineOperand.Imm (Fixed + 8)) }) := by
  obtain ⟨FrameReg, Fixed, h1, _, h3, h4, _⟩ :=
    eliminateFrameIndex_offset sampleFrame (sampleLoad 8) 1 1 8 (-8) rfl rfl (by decide)
      (by decide) (by decide) (by decide) (by decide) (by decide)
  exact ⟨FrameReg, Fixed, h1, h3 (by decide), h4⟩

/-- C34: for a function with a frame pointer and no variadic save area on which
`emitPrologue` emits code (a frame of S bytes, W = S / 4 <= 32767 words, the
entry block starting with the spills of the callee-saved registers), and for
every slot whose byte offset o is in the range of `int`: the prologue records W
and emits `ADDi SP, SP, -W` and, after the spills, `ADDi FP, SP, +W`; after it
`getFrameIndexReference` resolves the slot to SP, for a slot of the callee-saved
region (and in a leaf procedure), or to FP; and under the register values that
the two instructions establish, SP = entrySP - W and FP = SP + W, the base
register plus the returned offset is entrySP + o / 4 in both cases. -/
theorem frame_references_agree (T : Opcode → MCInstrDesc) (MF : MachineFunction)
    (Spills Rest : List MachineInstr) (Others : List (List MachineInstr)) (FI o : Int)
    (hBlocks : MF.Blocks = (Spills ++ Rest) :: Others)
    (hSpills : Spills.length = MF.FrameInfo.CSInfo.length)
    (hRealign : (MF.ShouldRealignStack && !MF.CanRealignStack) = false)
    (hEmit : MF.FrameInfo.StackSize / 4 ≠ 0 ∨ MF.FrameInfo.AdjustsStack = true)
    (hSize : MF.FrameInfo.StackSize / 4 ≤ 32767)
    (hVar : MF.FuncInfo.VarArgsSaveSize = 0)
    (hFP : hasFP MF = true)
    (hObj : getObjectOffset MF.FrameInfo FI = some o)
    (hLo : -2147483648 ≤ o + MF.FrameInfo.OffsetAdjustment)
    (hHi : o + MF.FrameInfo.OffsetAdjustment < 2147483648) :
    ∃ (MF1 : MachineFunction) (Reg : Register) (Off : Int),
      emitPrologue T MF 0 = some MF1 ∧
      MF1.FrameInfo.StackSize = MF.FrameInfo.StackSize / 4 ∧
      MF1.Blocks.head? = some
        ([{ MCID := get T Opcode.ADDi
            Operands := [MachineOperand.Reg SIM.SP true false,
              MachineOperand.Reg SIM.SP false false,
              MachineOperand.Imm (-((MF.FrameInfo.StackSize / 4 : Nat) : Int))]
            Flags := MIFlag.FrameSetup
            DL := 0 }] ++ Spills ++
          [{ MCID := get T Opcode.ADDi
             Operands := [MachineOperand.Reg SIM.FP true false,
               MachineOperand.Reg SIM.SP false false,
               MachineOperand.Imm ((MF.FrameInfo.StackSize / 4 : Nat) : Int)]
             Flags := MIFlag.FrameSetup
             DL := 0 }] ++ Rest) ∧
      getFrameIndexReference MF1 FI = some (Reg, Off) ∧
      (Reg = SIM.SP ∨ Reg = SIM.FP) ∧
      (Reg = SIM.SP ↔
        (isFrameIndexInCalleeSavedRegion MF.FrameInfo FI || MF.FuncInfo.IsLeafProc) = true) ∧
      ∀ (Regs : Register → Int) (entrySP : Int),
        Regs SIM.SP = entrySP - ((MF.FrameInfo.StackSize / 4 : Nat) : Int) →
        Regs SIM.FP = Regs SIM.SP + ((MF.FrameInfo.StackSize / 4 : Nat) : Int) →
        Regs Reg + Off = entrySP + (o + MF.FrameInfo.OffsetAdjustment).tdiv 4 := by
  have hP := emitPrologue_emits T MF Spills Rest Others hBlocks hSpills hRealign hEmit hSize hVar
  rw [if_pos hFP] at hP
  have hRef := getFrameIndexReference_eq
    { MF with
      FrameInfo := { MF.FrameInfo with StackSize := MF.FrameInfo.StackSize / 4 }
      Blocks :=
        ([{ MCID := get T Opcode.ADDi
            Operands := [MachineOperand.Reg SIM.SP true false,
              MachineOperand.Reg SIM.SP false false,
              MachineOperand.Imm (-((MF.FrameInfo.StackSize / 4 : Nat) : Int))]
            Flags := MIFlag.FrameSetup
            DL := 0 }] ++ Spills ++
          [{ MCID := get T Opcode.ADDi
             Operands := [MachineOperand.Reg SIM.FP true false,
               MachineOperand.Reg SIM.SP false false,
               MachineOperand.Imm ((MF.FrameInfo.StackSize / 4 : Nat) : Int)]
             Flags := MIFlag.FrameSetup
             DL := 0 }] ++ Rest) :: Others } FI o hObj hLo hHi
    (by show MF.FrameInfo.StackSize / 4 < 2147483648; omega)
  have hFR : getFrameRegister
    { MF with
      FrameInfo := { MF.FrameInfo with StackSize := MF.FrameInfo.StackSize / 4 }
      Blocks :=
        ([{ MCID := get T Opcode.ADDi
            Operands := [MachineOperand.Reg SIM.SP true false,
              MachineOperand.Reg SIM.SP false false,
              MachineOperand.Imm (-((MF.FrameInfo.StackSize / 4 : Nat) : Int))]
            Flags := MIFlag.FrameSetup
            DL := 0 }] ++ Spills ++
          [{ MCID := get T Opcode.ADDi
             Operands := [MachineOperand.Reg SIM.FP true false,
               MachineOperand.Reg SIM.SP false false,
               MachineOperand.Imm ((MF.FrameInfo.StackSize / 4 : Nat) : Int)]
             Flags := MIFlag.FrameSetup
             DL := 0 }] ++ Rest) :: Others } = SIM.FP := by
    have : hasFP MF = true := hFP
    unfold getFrameRegister
    rw [if_pos (by exact this)]
  rw [hFR] at hRef
  cases hU : (isFrameIndexInCalleeSavedRegion MF.FrameInfo FI || MF.FuncInfo.IsLeafProc) with
  | true =>
    refine ⟨_, SIM.SP,
      (o + MF.FrameInfo.OffsetAdjustment).tdiv 4 + ((MF.FrameInfo.StackSize / 4 : Nat) : Int),
      hP, rfl, rfl, ?_, Or.inl rfl, ⟨fun _ => rfl, fun _ => rfl⟩, ?_⟩
    · rw [hRef]
      exact congrArg some (if_pos hU)
    · intro Regs entrySP h1 _
      rw [h1]
      omega
  | false =>
    refine ⟨_, SIM.FP, (o + MF.FrameInfo.OffsetAdjustment).tdiv 4, hP, rfl, rfl, ?_, Or.inr rfl,
      ⟨fun h => (by cases h), fun h => (by cases h)⟩, ?_⟩
    · rw [hRef]
      exact congrArg some (if_neg (fun hc => by
        have hU2 : (isFrameIndexInCalleeSavedRegion MF.FrameInfo FI || MF.FuncInfo.IsLeafProc)
            = true := hc
        rw [hU] at hU2
        cases hU2))
    · intro Regs entrySP h1 h2
      rw [h2, h1]
      omega

/-- Witness of C34: in the function with a frame of 42 bytes, 10 words, the spill
slot 0 at the byte offset -4 is at entrySP - 1. -/
theorem frame_references_agree_witness :
    ∃ (MF1 : MachineFunction) (Reg : Register) (Off : Int),
      emitPrologue sampleTable sampleOddFrame 0 = some MF1 ∧
      MF1.FrameInfo.StackSize = 10 ∧
      getFrameIndexReference MF1 0 = some (Reg, Off) ∧
      (Reg = SIM.SP ∨ Reg = SIM.FP) ∧
      ∀ (Regs : Register → Int) (entrySP : Int),
        Regs SIM.SP = entrySP - 10 → Regs SIM.FP = Regs SIM.SP + 10 →
        Regs Reg + Off = entrySP + (-1) := by
  obtain ⟨MF1, Reg, Off, h1, h2, _, h4, h5, _, h7⟩ :=
    frame_references_agree sampleTable sampleOddFrame [sampleSpill 3 0] [sampleAdd, sampleRet] []
      0 (-4) rfl rfl rfl (Or.inl (by decide)) (by decide) rfl (by decide) (by decide)
      (by decide) (by decide)
  exact ⟨MF1, Reg, Off, h1, h2, h4, h5, h7⟩

/-- C35 (the code fails the claim): `isUncondBranchOpcode` accepts `BR`, and
`analyzeBranch` reports the block `ADDi; BR bb1` analyzable with the target bb1;
`removeBranch` removes nothing from it and returns 0 (it does the same when the
operand of the `BR` is a register), so that the block is not a fall-through
block afterwards: `analyzeBranch` reports the target bb1 again.  The same block
ending in `B bb1` loses the branch and is a fall-through block afterwards. -/
theorem removeBranch_keeps_BR :
    isUncondBranchOpcode Opcode.BR = true ∧
    analyzeBranch { MBB := [sampleAdd, sampleBR 1] } false
      = some (false, { MBB := [sampleAdd, sampleBR 1], TBB := some 1 }) ∧
    removeBranch [sampleAdd, sampleBR 1] false = some ([sampleAdd, sampleBR 1], 0) ∧
    removeBranch [sampleAdd, sampleBRReg] false = some ([sampleAdd, sampleBRReg], 0) ∧
    removeBranch [sampleAdd, sampleB 1] false = some ([sampleAdd], 1) ∧
    analyzeBranch { MBB := [sampleAdd] } false = some (false, { MBB := [sampleAdd] }) :=
  ⟨rfl, by decide, by decide, by decide, by decide, by decide⟩

/-- C36 (the code fails the claim): `translateUnorderedCondCodeForBranch` maps the
unsigned kinds ULT, UGT, ULE, UGE to the signed kinds LT, GT, LE, GE, so that
`LowerBR_CC` returns for UGT the node it returns for GT, and
`convertCondCodeToInstruction` gives UGT and ULE the opcodes `BGT` and `BLE` of
GT and LE.  On the patterns 0xFFFFFFFF (-1 as a signed value) and 1 the unsigned
comparison UGT holds, the signed comparison GT and the branch `BGT` decide that
it does not; and the diamond that `expandSelectCC` builds for a select of kind
UGT on these values, with the branch `BGT %1, %2`, delivers the false-value. -/
theorem unsigned_kinds_translate_signed :
    translateUnorderedCondCodeForBranch ISD.CondCode.SETULT = ISD.CondCode.SETLT ∧
    translateUnorderedCondCodeForBranch ISD.CondCode.SETUGT = ISD.CondCode.SETGT ∧
    translateUnorderedCondCodeForBranch ISD.CondCode.SETULE = ISD.CondCode.SETLE ∧
    translateUnorderedCondCodeForBranch ISD.CondCode.SETUGE = ISD.CondCode.SETGE ∧
    LowerBR_CC (SDValue.Node NodeType.BR_CC [MVT.Other]
        [SDValue.Input 0 MVT.Other, SDValue.CondCode ISD.CondCode.SETUGT,
          SDValue.Input 1 MVT.i32, SDValue.Input 2 MVT.i32, SDValue.Input 3 MVT.Other] 0)
      = some (getNode NodeType.SIM_BR_CC MVT.Other
          [SDValue.Input 0 MVT.Other, SDValue.Input 1 MVT.i32, SDValue.Input 2 MVT.i32,
            SDValue.CondCode ISD.CondCode.SETGT, SDValue.Input 3 MVT.Other]) ∧
    LowerBR_CC (SDValue.Node NodeType.BR_CC [MVT.Other]
        [SDValue.Input 0 MVT.Other, SDValue.CondCode ISD.CondCode.SETGT,
          SDValue.Input 1 MVT.i32, SDValue.Input 2 MVT.i32, SDValue.Input 3 MVT.Other] 0)
      = some (getNode NodeType.SIM_BR_CC MVT.Other
          [SDValue.Input 0 MVT.Other, SDValue.Input 1 MVT.i32, SDValue.Input 2 MVT.i32,
            SDValue.CondCode ISD.CondCode.SETGT, SDValue.Input 3 MVT.Other]) ∧
    convertCondCodeToInstruction ISD.CondCode.SETGT = some Opcode.BGT ∧
    convertCondCodeToInstruction ISD.CondCode.SETUGT = some Opcode.BGT ∧
    convertCondCodeToInstruction ISD.CondCode.SETLE = some Opcode.BLE ∧
    convertCondCodeToInstruction ISD.CondCode.SETULE = some Opcode.BLE ∧
    compareCC ISD.CondCode.SETUGT (-1) 1 = true ∧
    compareCC ISD.CondCode.SETGT (-1) 1 = false ∧
    branchTaken Opcode.BGT (-1) 1 = some false ∧
    (expandSelectCC sampleTable (sampleBlocks ISD.CondCode.SETUGT) 0 1).bind
        (fun R => (R.1.MBBNumbering[0]?).bind (fun B => B.Insts.getLast?))
      = some { MCID := get sampleTable Opcode.BGT
               Operands := [MachineOperand.Reg (Register.Virt 1) false false,
                 MachineOperand.Reg (Register.Virt 2) false false, MachineOperand.MBB 3] } ∧
    compareCC ISD.CondCode.SETUGT (sampleUnsignedRegs (Register.Virt 1))
      (sampleUnsignedRegs (Register.Virt 2)) = true ∧
    (expandSelectCC sampleTable (sampleBlocks ISD.CondCode.SETUGT) 0 1).bind
        (fun R => selectResult R.1 0 R.2 sampleUnsignedRegs)
      = some (sampleUnsignedRegs (Register.Virt 4)) :=
  ⟨rfl, rfl, rfl, rfl, rfl, rfl, rfl, rfl, rfl, rfl, by decide, by decide, by decide,
    by decide, by decide, by decide⟩

/-- C37: for every list CSI of n callee-saved registers, each a physical register
whose frame index names an object of the frame, and every insertion point (the
block is `Pre ++ Post`, the iterator names the head of `Post`):
`spillCalleeSavedRegisters` returns true and inserts, between `Pre` and `Post`,
exactly n instructions, one `STi Reg, FrameIdx, 0` per entry in the order of
CSI, the register being killed unless it is live into the block;
`restoreCalleeSavedRegisters` returns true and inserts exactly n instructions,
one `LDi Reg, FrameIdx, 0` per entry in the reverse order of CSI, each from the
frame index of its entry.  Nothing else in the block changes. -/
theorem calleeSaved_spill_restore (T : Opcode → MCInstrDesc) (MFI : MachineFrameInfo)
    (LiveIns : List Register) (Pre Post : List MachineInstr) (CSI : List CalleeSavedInfo)
    (hCSI : ∀ CS ∈ CSI,
      isPhysicalRegister CS.Reg = true ∧ (getObjectOffset MFI CS.FrameIdx).isSome = true) :
    spillCalleeSavedRegisters T MFI LiveIns (Pre ++ Post) Pre.length CSI
      = some (Pre ++ CSI.map (fun CS =>
            ({ MCID := get T Opcode.STi
               Operands := [MachineOperand.Reg CS.Reg false (!decide (CS.Reg ∈ LiveIns)),
                 MachineOperand.FI CS.FrameIdx, MachineOperand.Imm 0]
               DL := debugLocAt Post 0 } : MachineInstr)) ++ Post, true) ∧
    restoreCalleeSavedRegisters T MFI (Pre ++ Post) Pre.length CSI
      = some (Pre ++ CSI.reverse.map (fun CS =>
            ({ MCID := get T Opcode.LDi
               Operands := [MachineOperand.Reg CS.Reg true false,
                 MachineOperand.FI CS.FrameIdx, MachineOperand.Imm 0]
               DL := debugLocAt Post 0 } : MachineInstr)) ++ Post, true) ∧
    (CSI.map (fun CS =>
        ({ MCID := get T Opcode.STi
           Operands := [MachineOperand.Reg CS.Reg false (!decide (CS.Reg ∈ LiveIns)),
             MachineOperand.FI CS.FrameIdx, MachineOperand.Imm 0]
           DL := debugLocAt Post 0 } : MachineInstr))).length = CSI.length ∧
    (CSI.reverse.map (fun CS =>
        ({ MCID := get T Opcode.LDi
           Operands := [MachineOperand.Reg CS.Reg true false,
             MachineOperand.FI CS.FrameIdx, MachineOperand.Imm 0]
           DL := debugLocAt Post 0 } : MachineInstr))).length = CSI.length := by
  refine ⟨?_, ?_, by simp, by simp⟩
  · unfold spillCalleeSavedRegisters
    cases CSI with
    | nil => simp
    | cons CS Rest =>
      rw [spillLoop_eq T MFI LiveIns Post (CS :: Rest) Pre hCSI]
      simp
  · unfold restoreCalleeSavedRegisters
    cases CSI with
    | nil => simp
    | cons CS Rest =>
      rw [restoreLoop_eq T MFI Post (CS :: Rest).reverse Pre
        (fun X hX => hCSI X (List.mem_reverse.1 hX))]
      simp

/-- Witness of C37: the frame pointer in the slot 0 and the return address, live
into the block, in the slot 1: two stores before the first instruction, two
loads in the reverse order before the return. -/
theorem calleeSaved_spill_restore_witness :
    spillCalleeSavedRegisters sampleTable sampleSpillFrame [Register.R 1] [sampleAdd, sampleRet] 0
        sampleCSI
      = some ([sampleSpill 3 0, { sampleSpill 1 1 with
                Operands := [MachineOperand.Reg (Register.R 1) false false, MachineOperand.FI 1,
                  MachineOperand.Imm 0] }, sampleAdd, sampleRet], true) ∧
    restoreCalleeSavedRegisters sampleTable sampleSpillFrame [sampleAdd, sampleRet] 1 sampleCSI
      = some ([sampleAdd, sampleReload 1 1, sampleReload 3 0, sampleRet], true) :=
  ⟨(calleeSaved_spill_restore sampleTable sampleSpillFrame [Register.R 1] [] [sampleAdd, sampleRet]
      sampleCSI (by decide)).1,
    (calleeSaved_spill_restore sampleTable sampleSpillFrame [Register.R 1] [sampleAdd] [sampleRet]
      sampleCSI (by decide)).2.1⟩

/-- C38: for every register r and frame index f that names an object of the
frame, the instruction that `storeRegToStackSlot` inserts makes
`isStoreToStackSlot` return r with `FrameIndex` set to f, and the instruction
that `loadRegFromStackSlot` inserts makes `isLoadFromStackSlot` return r with
`FrameIndex` set to f.  Both recognisers return 0 (no register), and leave
`FrameIndex` alone, on an instruction of another opcode, on one whose operand 1
is no frame index, and on one whose operand 2 is an immediate other than 0. -/
theorem stack_slot_recognisers (T : Opcode → MCInstrDesc) (MFI : MachineFrameInfo)
    (Pre Post : List MachineInstr) (r : Register) (isKill : Bool) (f FI0 : Int)
    (hObj : (getObjectOffset MFI f).isSome = true) :
    (∃ MBB1 St, storeRegToStackSlot T MFI (Pre ++ Post) Pre.length r isKill f = some MBB1 ∧
      MBB1[Pre.length]? = some St ∧ isStoreToStackSlot St FI0 = some (r, f)) ∧
    (∃ MBB1 Ld, loadRegFromStackSlot T MFI (Pre ++ Post) Pre.length r f = some MBB1 ∧
      MBB1[Pre.length]? = some Ld ∧ isLoadFromStackSlot Ld FI0 = some (r, f)) ∧
    (∀ MI : MachineInstr,
      (MI.getOpcode ≠ Opcode.STi → isStoreToStackSlot MI FI0 = some (Register.NoRegister, FI0)) ∧
      (MI.getOpcode ≠ Opcode.LDi → isLoadFromStackSlot MI FI0 = some (Register.NoRegister, FI0)) ∧
      (∀ Op1, MI.getOperand 1 = some Op1 → (∀ Idx, Op1 ≠ MachineOperand.FI Idx) →
        isStoreToStackSlot MI FI0 = some (Register.NoRegister, FI0) ∧
        isLoadFromStackSlot MI FI0 = some (Register.NoRegister, FI0)) ∧
      (∀ Idx v, MI.getOperand 1 = some (MachineOperand.FI Idx) →
        MI.getOperand 2 = some (MachineOperand.Imm v) → v ≠ 0 →
        isStoreToStackSlot MI FI0 = some (Register.NoRegister, FI0) ∧
        isLoadFromStackSlot MI FI0 = some (Register.NoRegister, FI0))) := by
  refine ⟨⟨_, _, storeRegToStackSlot_eq T MFI Pre Post r isKill f hObj,
      getElem_append_zero _ _ _, rfl⟩,
    ⟨_, _, loadRegFromStackSlot_eq T MFI Pre Post r f hObj, getElem_append_zero _ _ _, rfl⟩, ?_⟩
  intro MI
  refine ⟨?_, ?_, ?_, ?_⟩
  · intro h
    simp [isStoreToStackSlot, h]
  · intro h
    simp [isLoadFromStackSlot, h]
  · intro Op1 h1 hN
    constructor
    · unfold isStoreToStackSlot
      rw [h1]
      cases Op1 with
      | FI Idx => exact absurd rfl (hN Idx)
      | Reg a b c => simp
      | Imm a => simp
      | MBB a => simp
    · unfold isLoadFromStackSlot
      rw [h1]
      cases Op1 with
      | FI Idx => exact absurd rfl (hN Idx)
      | Reg a b c => simp
      | Imm a => simp
      | MBB a => simp
  · intro Idx v h1 h2 hv
    constructor
    · unfold isStoreToStackSlot
      rw [h1, h2]
      simp [hv]
    · unfold isLoadFromStackSlot
      rw [h1, h2]
      simp [hv]

/-- Witness of C38: the spill of R3 to the slot 0 and its reload are recognised, a
load with the offset 8 and an `ADDi` are not. -/
theorem stack_slot_recognisers_witness :
    isStoreToStackSlot (sampleSpill 3 0) 7 = some (Register.R 3, 0) ∧
    isLoadFromStackSlot (sampleReload 3 0) 7 = some (Register.R 3, 0) ∧
    isLoadFromStackSlot (sampleLoad 8) 7 = some (Register.NoRegister, 7) ∧
    isStoreToStackSlot sampleAdd 7 = some (Register.NoRegister, 7) ∧
    ∃ MBB1 St, storeRegToStackSlot sampleTable sampleSpillFrame [sampleAdd] 0 (Register.R 3) true 0
        = some MBB1 ∧ MBB1[0]? = some St ∧ isStoreToStackSlot St 7 = some (Register.R 3, 0) :=
  ⟨by decide, by decide, by decide, by decide,
    (stack_slot_recognisers sampleTable sampleSpillFrame [] [sampleAdd] (Register.R 3) true 0 7
      (by decide)).1⟩

/-- C39: the set of the conditions that have a branch opcode, EQ, NE, LE, GT, is
closed under `GetOppositeBranchCondition`.  Hence for every call of
`analyzeBranch`, with or without the permission to modify and entered with an
empty condition vector, that returns a condition: the condition is one of the
set followed by the two operands of the branch, `reverseBranchCondition`
returns the opposite condition of the set with the same operands,
`getBranchFromCond` has a branch for it, and `insertBranch` with this reversed
condition, the two operands being registers, appends that branch: the abort of
`getBranchFromCond` is not reached. -/
theorem reversed_condition_has_branch (T : Opcode → MCInstrDesc) (s : BranchInfo) (A b : Bool)
    (s1 : BranchInfo) (hCond : s.Cond = []) (h : analyzeBranch s A = some (b, s1))
    (hNE : s1.Cond ≠ []) :
    (∀ CC ∈ [CondCodes.EQ, CondCodes.NE, CondCodes.LE, CondCodes.GT],
      ∃ Opp, GetOppositeBranchCondition CC = some Opp ∧
        Opp ∈ [CondCodes.EQ, CondCodes.NE, CondCodes.LE, CondCodes.GT]) ∧
    ∃ CC Opp O1 O2 Desc,
      CC ∈ [CondCodes.EQ, CondCodes.NE, CondCodes.LE, CondCodes.GT] ∧
      s1.Cond = [MachineOperand.Imm CC.toImm, O1, O2] ∧
      GetOppositeBranchCondition CC = some Opp ∧
      Opp ∈ [CondCodes.EQ, CondCodes.NE, CondCodes.LE, CondCodes.GT] ∧
      reverseBranchCondition s1.Cond = some (false, [MachineOperand.Imm Opp.toImm, O1, O2]) ∧
      getBranchFromCond T Opp = some Desc ∧
      ∀ (MBB : List MachineInstr) (Target DL : Nat) (FBB : Option Nat) (R1 R2 : Register),
        O1.getReg = some R1 → O2.getReg = some R2 →
        insertBranch T MBB (some Target) FBB [MachineOperand.Imm Opp.toImm, O1, O2] DL false
          = some (MBB ++ { MCID := Desc
                           Operands := [MachineOperand.Reg R1 false false,
                             MachineOperand.Reg R2 false false, MachineOperand.MBB Target]
                           DL := DL } ::
                    (match FBB with
                     | none => []
                     | some F => [buildB T DL F]),
                  match FBB with
                  | none => 1
                  | some _ => 2) := by
  refine ⟨by decide, ?_⟩
  rcases (analyzeBranch_inv s A (b, s1) h).2 with hS | ⟨Opc, O1, O2, hc, hS⟩
  · exact absurd (hS.trans hCond) hNE
  · rw [hCond, List.nil_append] at hS
    have key : ∀ (CC Opp : CondCodes) (Desc : MCInstrDesc),
        getCondFromBranchOpcode Opc = CC →
        CC ∈ [CondCodes.EQ, CondCodes.NE, CondCodes.LE, CondCodes.GT] →
        GetOppositeBranchCondition CC = some Opp →
        Opp ∈ [CondCodes.EQ, CondCodes.NE, CondCodes.LE, CondCodes.GT] →
        getBranchFromCond T Opp = some Desc →
        reverseBranchCondition [MachineOperand.Imm CC.toImm, O1, O2]
          = some (false, [MachineOperand.Imm Opp.toImm, O1, O2]) →
        _ := fun CC Opp Desc e hCC hO hOpp hD hR =>
      (⟨CC, Opp, O1, O2, Desc, hCC, by rw [hS, e], hO, hOpp, by rw [hS, e]; exact hR, hD,
        fun MBB Target DL FBB R1 R2 h1 h2 =>
          insertBranch_of_cond T MBB Opp Desc hD Target DL FBB O1 O2 R1 R2 h1 h2⟩ :
        ∃ CC Opp O1 O2 Desc,
          CC ∈ [CondCodes.EQ, CondCodes.NE, CondCodes.LE, CondCodes.GT] ∧
          s1.Cond = [MachineOperand.Imm CC.toImm, O1, O2] ∧
          GetOppositeBranchCondition CC = some Opp ∧
          Opp ∈ [CondCodes.EQ, CondCodes.NE, CondCodes.LE, CondCodes.GT] ∧
          reverseBranchCondition s1.Cond = some (false, [MachineOperand.Imm Opp.toImm, O1, O2]) ∧
          getBranchFromCond T Opp = some Desc ∧
          ∀ (MBB : List MachineInstr) (Target DL : Nat) (FBB : Option Nat) (R1 R2 : Register),
            O1.getReg = some R1 → O2.getReg = some R2 →
            insertBranch T MBB (some Target) FBB [MachineOperand.Imm Opp.toImm, O1, O2] DL false
              = some (MBB ++ { MCID := Desc
                               Operands := [MachineOperand.Reg R1 false false,
                                 MachineOperand.Reg R2 false false, MachineOperand.MBB Target]
                               DL := DL } ::
                        (match FBB with
                         | none => []
                         | some F => [buildB T DL F]),
                      match FBB with
                      | none => 1
                      | some _ => 2))
    rcases isCondBranchOpcode_cases Opc hc with e | e | e | e <;> subst e
    · exact key CondCodes.EQ CondCodes.NE _ rfl (by decide) rfl (by decide) rfl rfl
    · exact key CondCodes.NE CondCodes.EQ _ rfl (by decide) rfl (by decide) rfl rfl
    · exact key CondCodes.GT CondCodes.LE _ rfl (by decide) rfl (by decide) rfl rfl
    · exact key CondCodes.LE CondCodes.GT _ rfl (by decide) rfl (by decide) rfl rfl

/-- Witness of C39: the block `ADDi; BLE R5, R6, bb1` gives the condition LE,
whose opposite GT has the branch `BGT`. -/
theorem reversed_condition_has_branch_witness :
    ∃ CC Opp O1 O2 Desc,
      CC ∈ [CondCodes.EQ, CondCodes.NE, CondCodes.LE, CondCodes.GT] ∧
      [MachineOperand.Imm CondCodes.LE.toImm, MachineOperand.Reg (Register.R 5) false false,
          MachineOperand.Reg (Register.R 6) false true]
        = [MachineOperand.Imm CC.toImm, O1, O2] ∧
      GetOppositeBranchCondition CC = some Opp ∧
      Opp ∈ [CondCodes.EQ, CondCodes.NE, CondCodes.LE, CondCodes.GT] ∧
      reverseBranchCondition
          [MachineOperand.Imm CondCodes.LE.toImm, MachineOperand.Reg (Register.R 5) false false,
            MachineOperand.Reg (Register.R 6) false true]
        = some (false, [MachineOperand.Imm Opp.toImm, O1, O2]) ∧
      getBranchFromCond sampleTable Opp = some Desc := by
  obtain ⟨_, CC, Opp, O1, O2, Desc, h1, h2, h3, h4, h5, h6, _⟩ :=
    reversed_condition_has_branch sampleTable { MBB := [sampleAdd, sampleBcc Opcode.BLE 5 6 1] }
      false false
      { MBB := [sampleAdd, sampleBcc Opcode.BLE 5 6 1], TBB := some 1
        Cond := [MachineOperand.Imm CondCodes.LE.toImm,
          MachineOperand.Reg (Register.R 5) false false,
          MachineOperand.Reg (Register.R 6) false true] }
      rfl (by decide) (by decide)
  exact ⟨CC, Opp, O1, O2, Desc, h1, h2, h3, h4, h5, h6⟩

/-- C40: for every block and every state of the in/out arguments,
`analyzeBranch` called without the permission to modify, whatever it returns,
leaves the instructions of the block as they were. -/
theorem analyzeBranch_keeps_block (s : BranchInfo) (b : Bool) (s1 : BranchInfo)
    (h : analyzeBranch s false = some (b, s1)) : s1.MBB = s.MBB :=
  (analyzeBranch_inv s false (b, s1) h).1 rfl

/-- Witness of C40: the block `ADDi; B bb1; B bb2` is left as it is without the
permission to modify, and loses its last branch with it. -/
theorem analyzeBranch_keeps_block_witness :
    analyzeBranch { MBB := [sampleAdd, sampleB 1, sampleB 2] } false
      = some (false, { MBB := [sampleAdd, sampleB 1, sampleB 2], TBB := some 1 }) ∧
    ({ MBB := [sampleAdd, sampleB 1, sampleB 2], TBB := some 1 } : BranchInfo).MBB
      = [sampleAdd, sampleB 1, sampleB 2] ∧
    analyzeBranch { MBB := [sampleAdd, sampleB 1, sampleB 2] } true
      = some (false, { MBB := [sampleAdd, sampleB 1], TBB := some 1 }) :=
  ⟨by decide,
    analyzeBranch_keeps_block { MBB := [sampleAdd, sampleB 1, sampleB 2] } false
      { MBB := [sampleAdd, sampleB 1, sampleB 2], TBB := some 1 } (by decide),
    by decide⟩

end Sim
